import Mathlib

/-!
# deusvm: the VM backends, the image store and the HTTP handlers

A shallow embedding of `internal/kvm/manager.go` (the `InMemoryManager`), of
`internal/kvm/libvirt_linux.go` (the `LibvirtManager`), of
`internal/storage/storage.go` (the `LocalManager`) and of the handlers, the size
parser and the auth middleware of `internal/api/server.go`, with the properties of the
design document proved over it.

Conventions of the embedding

* A Go `map[string]V` is a finite map with unique keys, `AList (fun _ : String => V)`:
  `m[k]` is `AList.lookup`, `m[k] = v` is `AList.insert`, `delete(m, k)` is `AList.erase`.
  Go leaves the iteration order of a map unspecified; `ListVMs` is modelled with the
  order of the association list and every statement about it is order independent.
* A method with a pointer receiver becomes a function from the state before the call
  to the result and the state after it. The mutex only serialises calls and is not
  modelled.
* Go's `int` and `int64` fields are `Int`; the in-memory backend never does arithmetic
  on them, and where the code does (`int64(info.Memory) * 1024`, `parseSize`) the
  result is wrapped to 64 bits by `toInt64`.
* The two values the backend draws from outside, the random bytes behind
  `uuid.NewString()` and the clock behind `time.Now()`, are arguments of `CreateVM`.
* The image store is modelled for the Linux build (`filepath.Separator` is `'/'`). The
  network and the filesystem are a `World` passed through every call and an `Env` that
  fixes how they answer. The `context.Context` argument of every method is not modelled.
* The libvirt control plane is a `ControlPlane`: the answers it gives to the calls of
  the `LibvirtManager`. A Go panic is the value `none` of an `Option`.
-/

namespace Deusvm

/-- Equality of results is decidable when equality of errors and of values is. -/
instance decEqExcept {ε α : Type} [DecidableEq ε] [DecidableEq α] : DecidableEq (Except ε α)
  | Except.error a, Except.error b =>
    if h : a = b then isTrue (by rw [h]) else isFalse (fun h' => h (Except.error.inj h'))
  | Except.ok a, Except.ok b =>
    if h : a = b then isTrue (by rw [h]) else isFalse (fun h' => h (Except.ok.inj h'))
  | Except.error _, Except.ok _ => isFalse (fun h => by cases h)
  | Except.ok _, Except.error _ => isFalse (fun h => by cases h)

/-! ## Machine integers -/

/-- Go: the value of an integer as an `int64`, after a conversion or an arithmetic
operation on `int64`: the integer reduced modulo `2^64` into `[-2^63, 2^63)`. -/
def toInt64 (n : Int) : Int :=
  (n + 9223372036854775808) % 18446744073709551616 - 9223372036854775808

/-! ## Lower-case hexadecimal, as printed by `%x` and by `uuid.String` -/

/-- One hexadecimal digit, lower case. -/
def hexDigit (n : Nat) : Char :=
  if n % 16 < 10 then Char.ofNat (48 + n % 16) else Char.ofNat (87 + n % 16)

/-- Two hexadecimal digits of a byte. -/
def hexByte (b : Nat) : List Char := [hexDigit (b % 256 / 16), hexDigit (b % 256)]

namespace Kvm

/-! ## Data model (`manager.go`, lines 12-37) -/

/-- Go: `type VMStatus string`. -/
abbrev VMStatus := String

def VMStatusUnknown : VMStatus := "unknown"
def VMStatusStopped : VMStatus := "stopped"
def VMStatusRunning : VMStatus := "running"

/-- Go: `type VM struct`. `CreatedAt` is the clock reading, in nanoseconds. -/
structure VM where
  ID : String
  Name : String
  CPU : Int
  MemoryBytes : Int
  DiskBytes : Int
  Image : String
  Status : VMStatus
  CreatedAt : Nat
  deriving DecidableEq, Repr

/-- Go: `type CreateVMRequest struct`. -/
structure CreateVMRequest where
  Name : String
  CPU : Int
  MemoryBytes : Int
  DiskBytes : Int
  Image : String
  deriving DecidableEq, Repr

/-- The errors of package `kvm`. The in-memory backend builds three with `fmt.Errorf`:
`"invalid create request"`, `"vm with name %q already exists"` (with the name) and
`"vm %s not found"` (with the identifier, built by `notFound`). The libvirt backend
builds `"invalid create request"` too, and wraps what libvirt reports with the
prefixes `libvirt connect`, `define domain`, `lookup domain`, `get info`,
`list domains`, `undefine`, `start` and `shutdown`. -/
inductive Error where
  | invalidCreateRequest
  | nameAlreadyExists (name : String)
  | vmNotFound (id : String)
  | libvirtConnect
  | defineDomain
  | lookupDomain
  | getInfo
  | listDomains
  | undefine
  | start
  | shutdown
  deriving DecidableEq, Repr

/-- Go: `func notFound(id string) error`. -/
def notFound (id : String) : Error := Error.vmNotFound id

/-- Go: `type InMemoryManager struct` without the mutex: the table `vms` keyed by
identifier and the index `nameIdx` from name to identifier. -/
structure InMemoryManager where
  vms : AList (fun _ : String => VM)
  nameIdx : AList (fun _ : String => String)
  deriving DecidableEq

/-- Go: `func NewInMemoryManager()`: two empty maps. -/
def NewInMemoryManager : InMemoryManager := ⟨∅, ∅⟩

/-! ## `uuid.NewString()` (github.com/google/uuid)

`uuid.NewString()` reads 16 random bytes, forces the version nibble of byte 6 to 4 and
the two top bits of byte 8 to `10`, and prints the bytes in lower-case hexadecimal in
the groups 8-4-4-4-12. The 16 bytes are the argument `rnd` (byte `i` is `rnd i % 256`).
-/

/-- Byte `i` of a version 4 UUID drawn from `rnd`. -/
def uuidByte (rnd : Nat → Nat) (i : Nat) : Nat :=
  if i = 6 then rnd 6 % 16 + 64
  else if i = 8 then rnd 8 % 64 + 128
  else rnd i % 256

/-- The hexadecimal digits of the bytes `i, i+1, ..., i+n-1` of the UUID. -/
def uuidHex (rnd : Nat → Nat) (i : Nat) : Nat → List Char
  | 0 => []
  | n + 1 => hexByte (uuidByte rnd i) ++ uuidHex rnd (i + 1) n

/-- Go: `uuid.NewString()` on the random bytes `rnd`. -/
def uuidNewString (rnd : Nat → Nat) : String :=
  String.mk (uuidHex rnd 0 4 ++ '-' :: uuidHex rnd 4 2 ++ '-' :: uuidHex rnd 6 2
    ++ '-' :: uuidHex rnd 8 2 ++ '-' :: uuidHex rnd 10 6)

/-! ## Operations (`manager.go`, lines 59-138) -/

/-- Go: `func (m *InMemoryManager) CreateVM`. `rnd` are the random bytes read by
`uuid.NewString()` and `now` is the reading of `time.Now().UTC()`. -/
def CreateVM (m : InMemoryManager) (req : CreateVMRequest) (rnd : Nat → Nat) (now : Nat) :
    Except Error VM × InMemoryManager :=
  if req.Name = "" ∨ req.CPU ≤ 0 ∨ req.MemoryBytes ≤ 0 ∨ req.DiskBytes ≤ 0 then
    (Except.error Error.invalidCreateRequest, m)
  else
    match m.nameIdx.lookup req.Name with
    | some _ => (Except.error (Error.nameAlreadyExists req.Name), m)
    | none =>
      let id := uuidNewString rnd
      let vm : VM :=
        { ID := id
          Name := req.Name
          CPU := req.CPU
          MemoryBytes := req.MemoryBytes
          DiskBytes := req.DiskBytes
          Image := req.Image
          Status := VMStatusStopped
          CreatedAt := now }
      (Except.ok vm, { vms := m.vms.insert id vm, nameIdx := m.nameIdx.insert vm.Name id })

/-- Go: `func (m *InMemoryManager) DeleteVM`. -/
def DeleteVM (m : InMemoryManager) (id : String) : Except Error Unit × InMemoryManager :=
  match m.vms.lookup id with
  | none => (Except.error (notFound id), m)
  | some vm => (Except.ok (), { vms := m.vms.erase id, nameIdx := m.nameIdx.erase vm.Name })

/-- Go: `func (m *InMemoryManager) StartVM`. -/
def StartVM (m : InMemoryManager) (id : String) : Except Error Unit × InMemoryManager :=
  match m.vms.lookup id with
  | none => (Except.error (notFound id), m)
  | some vm =>
    (Except.ok (), { m with vms := m.vms.insert id { vm with Status := VMStatusRunning } })

/-- Go: `func (m *InMemoryManager) StopVM`. -/
def StopVM (m : InMemoryManager) (id : String) : Except Error Unit × InMemoryManager :=
  match m.vms.lookup id with
  | none => (Except.error (notFound id), m)
  | some vm =>
    (Except.ok (), { m with vms := m.vms.insert id { vm with Status := VMStatusStopped } })

/-- Go: `func (m *InMemoryManager) GetVM`; it only reads the table. -/
def GetVM (m : InMemoryManager) (id : String) : Except Error VM :=
  match m.vms.lookup id with
  | none => Except.error (notFound id)
  | some vm => Except.ok vm

/-- Go: `func (m *InMemoryManager) ListVMs`: the records of the table. -/
def ListVMs (m : InMemoryManager) : List VM :=
  m.vms.entries.map (fun e => e.2)

/-! ## States, requests and runs the properties quantify over -/

/-- The request passes the check at the head of `CreateVM`. -/
def ValidRequest (req : CreateVMRequest) : Prop :=
  req.Name ≠ "" ∧ 0 < req.CPU ∧ 0 < req.MemoryBytes ∧ 0 < req.DiskBytes

instance (req : CreateVMRequest) : Decidable (ValidRequest req) := by
  unfold ValidRequest; infer_instance

/-- No live record of the table carries the name. -/
def NameUnused (m : InMemoryManager) (name : String) : Prop :=
  ∀ id vm, m.vms.lookup id = some vm → vm.Name ≠ name

/-- Every record of the table is stored under its own identifier and indexed under its
name. -/
def Indexed (m : InMemoryManager) : Prop :=
  ∀ id vm, m.vms.lookup id = some vm → vm.ID = id ∧ m.nameIdx.lookup vm.Name = some id

/-- The table and the name index agree: every record is stored under its own
identifier and indexed under its name, and every index entry points at a record with
that name. -/
def WellFormed (m : InMemoryManager) : Prop :=
  (∀ id vm, m.vms.lookup id = some vm → vm.ID = id ∧ m.nameIdx.lookup vm.Name = some id) ∧
  (∀ name id, m.nameIdx.lookup name = some id →
    ∃ vm, m.vms.lookup id = some vm ∧ vm.Name = name)

/-- One `CreateVM` call of a batch: the request, the random bytes and the clock. -/
structure CreateCall where
  req : CreateVMRequest
  rnd : Nat → Nat
  now : Nat

/-- The state after the `CreateVM` calls of `cs`, made in order. -/
def createAll (m : InMemoryManager) (cs : List CreateCall) : InMemoryManager :=
  cs.foldl (fun s c => (CreateVM s c.req c.rnd c.now).2) m

/-- A call of a client of the backend, with what the call draws from outside: the
random bytes and the clock of a `CreateVM`. -/
inductive Call where
  | create (req : CreateVMRequest) (rnd : Nat → Nat) (now : Nat)
  | delete (id : String)
  | start (id : String)
  | stop (id : String)
  | get (id : String)
  | list

/-- The state after one call. `GetVM` and `ListVMs` only read the state. -/
def step (m : InMemoryManager) : Call → InMemoryManager
  | Call.create req rnd now => (CreateVM m req rnd now).2
  | Call.delete id => (DeleteVM m id).2
  | Call.start id => (StartVM m id).2
  | Call.stop id => (StopVM m id).2
  | Call.get _ => m
  | Call.list => m

/-- The state after a list of calls, made in order. -/
def run (m : InMemoryManager) (cs : List Call) : InMemoryManager := cs.foldl step m

/-- The identifier a call returns to its caller, if it returns one: only a successful
`CreateVM` does. -/
def returnedID (m : InMemoryManager) : Call → Option String
  | Call.create req rnd now =>
    match (CreateVM m req rnd now).1 with
    | Except.ok vm => some vm.ID
    | Except.error _ => none
  | _ => none

/-- The identifier the call returns, if it returns one, is not the identifier of a
record that is live when the call is made. -/
def Call.freshIn (m : InMemoryManager) (c : Call) : Prop :=
  ∀ id ∈ returnedID m c, m.vms.lookup id = none

instance (m : InMemoryManager) (c : Call) : Decidable (c.freshIn m) := by
  unfold Call.freshIn; infer_instance

/-- Every successful `CreateVM` call of the run returns an identifier that no record
live at that moment has. `uuid.NewString()` returns a random version 4 UUID and the
backend inserts the record without looking the identifier up: the property holds of
the runs whose random bytes make it hold, not of every run. -/
def FreshIDs (m : InMemoryManager) : List Call → Prop
  | [] => True
  | c :: cs => c.freshIn m ∧ FreshIDs (step m c) cs

instance decidableFreshIDs (m : InMemoryManager) (cs : List Call) : Decidable (FreshIDs m cs) := by
  induction cs generalizing m with
  | nil => unfold FreshIDs; infer_instance
  | cons c cs ih =>
    unfold FreshIDs
    exact @instDecidableAnd _ _ _ (ih (step m c))

/-- The states of a backend instance: those a list of calls reaches from
`NewInMemoryManager()`, whatever the random bytes of its `CreateVM` calls are. -/
def Reachable (m : InMemoryManager) : Prop :=
  ∃ cs : List Call, run NewInMemoryManager cs = m

/-- The identifiers returned by the `CreateVM` calls of a run that starts in `m`. -/
def returnedIDs (m : InMemoryManager) : List Call → List String
  | [] => []
  | c :: cs => (returnedID m c).toList ++ returnedIDs (step m c) cs

/-- The 16 bytes of the UUID drawn from `rnd`: what of the random bytes enters the
identifier (122 bits, the version and variant bits being fixed). -/
def uuidBytes (rnd : Nat → Nat) : List Nat := (List.range 16).map (uuidByte rnd)

/-- The random bytes read by the successful `CreateVM` calls of a run that starts in
`m`, in order. -/
def drawn (m : InMemoryManager) : List Call → List (Nat → Nat)
  | [] => []
  | c :: cs =>
    (match c with
      | Call.create req rnd now =>
        match (CreateVM m req rnd now).1 with
        | Except.ok _ => [rnd]
        | Except.error _ => []
      | _ => []) ++ drawn (step m c) cs

/-! ## Sample inputs -/

/-- Random bytes for the samples: byte `i` is `k + 7 * i`. -/
def sampleRnd (k : Nat) : Nat → Nat := fun i => k + 7 * i

/-- A request for a VM named `web`. -/
def webRequest : CreateVMRequest := ⟨"web", 2, 1073741824, 10737418240, "base.qcow2"⟩

/-- A request for a VM named `db`. -/
def dbRequest : CreateVMRequest := ⟨"db", 4, 2147483648, 21474836480, "base.raw"⟩

/-- The calls that lead to `sampleState`: `web` and `db` are created, `web` is started. -/
def sampleCalls : List Call :=
  [Call.create webRequest (sampleRnd 1) 100, Call.create dbRequest (sampleRnd 2) 200,
    Call.start (uuidNewString (sampleRnd 1))]

/-- A backend with a running VM `web` and a stopped VM `db`. -/
def sampleState : InMemoryManager := run NewInMemoryManager sampleCalls

/-- Two creations that read the same random bytes: `web`, then `db`. -/
def collidedCalls : List Call :=
  [Call.create webRequest (sampleRnd 1) 100, Call.create dbRequest (sampleRnd 1) 200]

/-- The backend after `collidedCalls`: the record of `db` has replaced the record of
`web` under the one identifier, and the name index still holds `web`. -/
def collidedState : InMemoryManager := run NewInMemoryManager collidedCalls

end Kvm

namespace Storage

/-! ## Strings and paths of the Go standard library, Linux build

A Go string is modelled by a Lean `String`. The substring and rune tests below look for
ASCII characters only, for which a search over the characters and Go's search over the
UTF-8 bytes agree. -/

/-- Go: `filepath.Separator` (`os.PathSeparator`), `'/'` on Linux. -/
def Separator : Char := '/'

/-- Go: `strings.Contains(s, substr)`: `substr` occurs at some position of `s`. -/
def stringsContains (s substr : String) : Bool :=
  s.data.tails.any fun t => substr.data.isPrefixOf t

/-- Go: `strings.ContainsRune(s, r)`. -/
def stringsContainsRune (s : String) (r : Char) : Bool :=
  s.data.any fun c => c = r

/-- Go: `strings.HasSuffix(s, suffix)`. -/
def stringsHasSuffix (s suffix : String) : Bool :=
  suffix.data.isSuffixOf s.data

/-- Go: `strings.ToLower(s)`, on the ASCII letters. (Go also maps the letters beyond
ASCII; none of them becomes a letter of `.qcow2` or `.raw`, the only strings the
result is compared with.) -/
def stringsToLower (s : String) : String :=
  String.mk (s.data.map Char.toLower)

/-- Go: in `filepath.Clean`, the step back over the last element of the buffer on a
`..` element: from `w` the write index goes down while it is above `dotdot` and the
byte under it is not a separator. -/
def cleanBackUp (out : List Char) (dotdot : Nat) : Nat → Nat
  | 0 => 0
  | w + 1 =>
    if dotdot < w + 1 ∧ out.get? (w + 1) ≠ some '/' then cleanBackUp out dotdot w else w + 1

/-- Go: the loop `for r < n` of `filepath.Clean` over the rest `path` of the input,
with the buffer `out` written so far and the index `dotdot` the buffer may not be cut
below. Every round reads at least one byte; the first argument bounds the rounds. -/
def cleanLoop (rooted : Bool) : Nat → List Char → List Char → Nat → List Char
  | 0, _, out, _ => out
  | fuel + 1, path, out, dotdot =>
    match path with
    | [] => out
    | c :: rest =>
      if c = '/' then
        -- empty path element
        cleanLoop rooted fuel rest out dotdot
      else if c = '.' ∧ (rest = [] ∨ rest.head? = some '/') then
        -- . element
        cleanLoop rooted fuel rest out dotdot
      else if c = '.' ∧ rest.head? = some '.' ∧
          (rest.tail = [] ∨ rest.tail.head? = some '/') then
        -- .. element: remove to last separator
        if dotdot < out.length then
          cleanLoop rooted fuel rest.tail
            (out.take (cleanBackUp out dotdot (out.length - 1))) dotdot
        else if rooted = false then
          -- cannot back up, but not rooted, so append .. element
          cleanLoop rooted fuel rest.tail
            ((if 0 < out.length then out ++ ['/'] else out) ++ ['.', '.'])
            ((if 0 < out.length then out ++ ['/'] else out) ++ ['.', '.']).length
        else
          cleanLoop rooted fuel rest.tail out dotdot
      else
        -- real path element: add slash if needed, copy element
        cleanLoop rooted fuel (path.dropWhile fun x => x ≠ '/')
          ((if (rooted = true ∧ out.length ≠ 1) ∨ (rooted = false ∧ out.length ≠ 0)
              then out ++ ['/'] else out) ++ path.takeWhile fun x => x ≠ '/')
          dotdot

/-- Go: `filepath.Clean(path)` on Linux (no volume name, separator `'/'`). -/
def filepathClean (path : String) : String :=
  if path = "" then "."
  else
    let rooted : Bool := path.data.head? = some '/'
    let out :=
      if rooted then cleanLoop true path.data.length path.data.tail ['/'] 1
      else cleanLoop false path.data.length path.data [] 0
    String.mk (if out = [] then ['.'] else out)

/-- Go: `filepath.Join(elem...)` on Linux: the elements from the first non-empty one
on are joined with the separator and the result is cleaned; `""` if all are empty. -/
def filepathJoin (elem : List String) : String :=
  match elem.dropWhile fun e => e = "" with
  | [] => ""
  | e :: es => filepathClean (String.intercalate "/" (e :: es))

/-! ## Data model (`storage.go`, lines 15-32) -/

/-- The content of a file or of a download: a list of bytes. -/
abbrev Bytes := List Nat

/-- Go: `type Image struct`. -/
structure Image where
  Name : String
  Path : String
  Size : Int
  Format : String
  SHA256 : String
  deriving DecidableEq, Repr

/-- Go: `type LocalManager struct`. -/
structure LocalManager where
  imagesDir : String
  deriving DecidableEq, Repr

/-- What the filesystem reports when it fails a call: that there is no such file
(`ENOENT`, for which `errors.Is(err, fs.ErrNotExist)` holds), or anything else. -/
inductive OSError where
  | notExist
  | other
  deriving DecidableEq, Repr

/-- The errors of the image store: `errors.New("invalid image name")`,
`errors.New("imagesDir required")` and the errors wrapped by `fmt.Errorf` with the
prefixes `mkdir images`, `new request`, `download`, `download status` (with the status
line), `create tmp`, `write`, `sync`, `rename`, `readdir`, `remove`, `open base`,
`create disk` and `copy`. The error wrapped with `%w` is kept for `remove`, where a
caller can tell a missing file from another failure. -/
inductive Error where
  | invalidImageName
  | imagesDirRequired
  | mkdirImages
  | newRequest
  | download
  | downloadStatus (status : String)
  | createTmp
  | write
  | sync
  | rename
  | readdir
  | remove (cause : OSError)
  | openBase
  | createDisk
  | copy
  deriving DecidableEq, Repr

/-! ## The world outside the image store

The store talks to the network and to the filesystem. An `Access` is one such call. A
`World` holds the regular files by path and the accesses made so far, oldest first. An
`Env` fixes how the outside answers: which URLs parse, what a GET returns, which
access fails (by its position in the log), and the SHA-256 function. -/

/-- One call to the network or to the filesystem. -/
inductive Access where
  | httpGet (url : String)
  | mkdirAll (path : String)
  | readDir (path : String)
  | create (path : String)
  | openFile (path : String)
  | write (path : String) (data : Bytes)
  | copy (src dst : String)
  | sync (path : String)
  | rename (oldpath newpath : String)
  | remove (path : String)
  deriving DecidableEq, Repr

/-- The files of the filesystem and the accesses made so far. -/
structure World where
  files : AList (fun _ : String => Bytes)
  log : List Access
  deriving DecidableEq

/-- What a GET returns: the status code and line, the chunks the successive reads of
the body deliver, and whether the read after the last chunk fails instead of
reporting the end of the body. -/
structure Response where
  StatusCode : Int
  Status : String
  body : List Bytes
  bodyFails : Bool

/-- How the outside behaves during a call of the store. -/
structure Env where
  /-- Go: `http.NewRequestWithContext` accepts the URL. -/
  validURL : String → Bool
  /-- Go: `http.DefaultClient.Do`: the response, or `none` on a transport error. -/
  httpDo : String → Option Response
  /-- The access fails when it is the `n`-th access of the log. -/
  fails : Nat → Access → Bool
  /-- A failing copy has copied this many bytes when it fails. -/
  copied : Nat
  /-- Go: `crypto/sha256`, the digest of a byte sequence. -/
  sha256 : Bytes → Bytes

/-- The world with one more access in its log. -/
def World.logged (w : World) (a : Access) : World :=
  { w with log := w.log ++ [a] }

/-- Go: `os.Create(path)`: the file is created, or truncated if it exists. -/
def osCreate (env : Env) (w : World) (path : String) : Bool × World :=
  if env.fails w.log.length (Access.create path) then (false, w.logged (Access.create path))
  else (true, { w.logged (Access.create path) with files := w.files.insert path [] })

/-- Go: `f.Write(data)` on the file created at `path`: the bytes are appended. -/
def fileWrite (env : Env) (w : World) (path : String) (data : Bytes) : Bool × World :=
  if env.fails w.log.length (Access.write path data) then
    (false, w.logged (Access.write path data))
  else
    (true, { w.logged (Access.write path data) with
      files := w.files.insert path ((w.files.lookup path).getD [] ++ data) })

/-- Go: `f.Sync()`. -/
def fileSync (env : Env) (w : World) (path : String) : Bool × World :=
  (!env.fails w.log.length (Access.sync path), w.logged (Access.sync path))

/-- Go: `os.Remove(path)`: fails if there is no such file. -/
def osRemove (env : Env) (w : World) (path : String) : Except OSError Unit × World :=
  if env.fails w.log.length (Access.remove path) then
    (Except.error OSError.other, w.logged (Access.remove path))
  else if w.files.lookup path = none then
    (Except.error OSError.notExist, w.logged (Access.remove path))
  else (Except.ok (), { w.logged (Access.remove path) with files := w.files.erase path })

/-- Go: `os.Rename(oldpath, newpath)`: the file moves, replacing a file at `newpath`. -/
def osRename (env : Env) (w : World) (oldpath newpath : String) : Bool × World :=
  match w.files.lookup oldpath with
  | none => (false, w.logged (Access.rename oldpath newpath))
  | some data =>
    if env.fails w.log.length (Access.rename oldpath newpath) then
      (false, w.logged (Access.rename oldpath newpath))
    else
      (true, { w.logged (Access.rename oldpath newpath) with
        files := (w.files.erase oldpath).insert newpath data })

/-- Go: `os.Open(path)`: fails if there is no such file. -/
def osOpen (env : Env) (w : World) (path : String) : Bool × World :=
  (!(env.fails w.log.length (Access.openFile path) ∨ w.files.lookup path = none : Bool),
    w.logged (Access.openFile path))

/-! ## The image store (`storage.go`, lines 34-172) -/

/-- Go: `func NewLocalManager(imagesDir string)`. -/
def NewLocalManager (env : Env) (w : World) (imagesDir : String) :
    Except Error LocalManager × World :=
  if imagesDir = "" then (Except.error Error.imagesDirRequired, w)
  else if env.fails w.log.length (Access.mkdirAll imagesDir) then
    (Except.error Error.mkdirImages, w.logged (Access.mkdirAll imagesDir))
  else (Except.ok ⟨imagesDir⟩, w.logged (Access.mkdirAll imagesDir))

/-- Go: `func (m *LocalManager) imagePath(name string)`. -/
def imagePath (m : LocalManager) (name : String) : Except Error String :=
  if name = "" ∨ stringsContains name ".." = true ∨ stringsContainsRune name Separator = true
  then Except.error Error.invalidImageName
  else Except.ok (filepathJoin [m.imagesDir, name])

/-- Go: `func detectFormatByName(name string) string`. -/
def detectFormatByName (name : String) : String :=
  if stringsHasSuffix (stringsToLower name) ".qcow2" then "qcow2"
  else if stringsHasSuffix (stringsToLower name) ".raw" then "raw"
  else "unknown"

/-- Go: `io.Copy(io.MultiWriter(f, hasher), resp.Body)`: every chunk read is written to
the file and then to the hasher. The result is whether the copy succeeded, the number
of bytes written, the bytes fed to the hasher and the world. -/
def copyBody (env : Env) (tmp : String) :
    List Bytes → Bool → Nat → Bytes → World → Bool × Nat × Bytes × World
  | [], bodyFails, n, hashed, w => (!bodyFails, n, hashed, w)
  | chunk :: rest, bodyFails, n, hashed, w =>
    match fileWrite env w tmp chunk with
    | (false, w') => (false, n, hashed, w')
    | (true, w') => copyBody env tmp rest bodyFails (n + chunk.length) (hashed ++ chunk) w'

/-- Go: `fmt.Sprintf("%x", digest)`. -/
def hexString (digest : Bytes) : String :=
  String.mk (digest.flatMap hexByte)

/-- Go: `func (m *LocalManager) SaveImageFromURL`. -/
def SaveImageFromURL (env : Env) (m : LocalManager) (w : World) (name sourceURL : String) :
    Except Error Image × World :=
  match imagePath m name with
  | Except.error err => (Except.error err, w)
  | Except.ok path =>
    -- stream download to file
    if env.validURL sourceURL = false then (Except.error Error.newRequest, w)
    else
      match env.httpDo sourceURL with
      | none => (Except.error Error.download, w.logged (Access.httpGet sourceURL))
      | some resp =>
        if resp.StatusCode < 200 ∨ resp.StatusCode ≥ 300 then
          (Except.error (Error.downloadStatus resp.Status), w.logged (Access.httpGet sourceURL))
        else
          match osCreate env (w.logged (Access.httpGet sourceURL)) (path ++ ".part") with
          | (false, w₁) => (Except.error Error.createTmp, w₁)
          | (true, w₁) =>
            match copyBody env (path ++ ".part") resp.body resp.bodyFails 0 [] w₁ with
            | (false, _, _, w₂) =>
              (Except.error Error.write, (osRemove env w₂ (path ++ ".part")).2)
            | (true, n, hashed, w₂) =>
              match fileSync env w₂ (path ++ ".part") with
              | (false, w₃) => (Except.error Error.sync, (osRemove env w₃ (path ++ ".part")).2)
              | (true, w₃) =>
                match osRename env w₃ (path ++ ".part") path with
                | (false, w₄) =>
                  (Except.error Error.rename, (osRemove env w₄ (path ++ ".part")).2)
                | (true, w₄) =>
                  (Except.ok
                    { Name := name
                      Path := path
                      Size := (n : Int)
                      Format := detectFormatByName name
                      SHA256 := hexString (env.sha256 hashed) }, w₄)

/-- Go: `func (m *LocalManager) DeleteImage`. -/
def DeleteImage (env : Env) (m : LocalManager) (w : World) (name : String) :
    Except Error Unit × World :=
  match imagePath m name with
  | Except.error err => (Except.error err, w)
  | Except.ok path =>
    match osRemove env w path with
    | (Except.error cause, w₁) => (Except.error (Error.remove cause), w₁)
    | (Except.ok _, w₁) => (Except.ok (), w₁)

/-- Go: `io.Copy(dst, src)` between the two files of `CreateDiskFromBase`: the bytes
the source holds at that moment are appended to the destination; a failing copy has
appended the first `env.copied` of them. -/
def copyFile (env : Env) (w : World) (src dst : String) : Bool × World :=
  if env.fails w.log.length (Access.copy src dst) then
    (false, { w.logged (Access.copy src dst) with
      files := w.files.insert dst ((w.files.lookup dst).getD [] ++
        ((w.files.lookup src).getD []).take env.copied) })
  else
    (true, { w.logged (Access.copy src dst) with
      files := w.files.insert dst ((w.files.lookup dst).getD [] ++
        (w.files.lookup src).getD []) })

/-- Go: `func (m *LocalManager) CreateDiskFromBase`; `sizeBytes` is not used. -/
def CreateDiskFromBase (env : Env) (m : LocalManager) (w : World)
    (baseImageName diskName : String) (_sizeBytes : Int) : Except Error String × World :=
  match imagePath m baseImageName with
  | Except.error err => (Except.error err, w)
  | Except.ok base =>
    match imagePath m diskName with
    | Except.error err => (Except.error err, w)
    | Except.ok out =>
      match osOpen env w base with
      | (false, w₁) => (Except.error Error.openBase, w₁)
      | (true, w₁) =>
        match osCreate env w₁ out with
        | (false, w₂) => (Except.error Error.createDisk, w₂)
        | (true, w₂) =>
          match copyFile env w₂ base out with
          | (false, w₃) => (Except.error Error.copy, (osRemove env w₃ out).2)
          | (true, w₃) =>
            match fileSync env w₃ out with
            | (false, w₄) => (Except.error Error.sync, (osRemove env w₄ out).2)
            | (true, w₄) => (Except.ok out, w₄)

/-- The name ends with the suffix when the two are compared without regard to the
case of the ASCII letters: the last characters of the name, as many as the suffix has,
are those of the suffix up to case. -/
def endsWithIgnoringCase (name suffix : String) : Prop :=
  ∃ front back : List Char, name.data = front ++ back ∧
    back.map Char.toLower = suffix.data.map Char.toLower

/-! ## ListImages (`storage.go`, lines 99-118)

The world holds the regular files by path, so the entries of a directory are read off
the paths: the file at `path` is the entry `name` of `dir` when `name` is a file name
and `filepath.Join(dir, name)` is `path`. -/

/-- The last element of a path: what follows its last separator. -/
def lastElement (path : String) : String :=
  String.mk (path.data.reverse.takeWhile fun c => c ≠ '/').reverse

/-- The names a directory entry can have: not empty, not `.` or `..`, no separator. -/
def isFileName (name : String) : Bool :=
  name ≠ "" ∧ name ≠ "." ∧ name ≠ ".." ∧ '/' ∉ name.data

/-- The name under which the file at `path` is an entry of the directory `dir`, if it
is one. -/
def entryName (dir path : String) : Option String :=
  if isFileName (lastElement path) = true ∧ filepathJoin [dir, lastElement path] = path
  then some (lastElement path) else none

/-- Go: the order `os.ReadDir` sorts file names by, `a <= b` on strings: the order of
the bytes, which on UTF-8 is the order of the code points. -/
def nameLE : List Char → List Char → Bool
  | [], _ => true
  | _ :: _, [] => false
  | a :: s, b :: t => decide (a.toNat < b.toNat) || (decide (a = b) && nameLE s t)

/-- Go: `os.ReadDir(dir)` followed by `e.Info()`: the entries of the directory, as
name and content, sorted by name. -/
def readDir (dir : String) (files : AList fun _ : String => Bytes) : List (String × Bytes) :=
  (files.entries.filterMap fun e => (entryName dir e.1).map fun name => (name, e.2)).insertionSort
    fun a b => nameLE a.1.data b.1.data = true

/-- Go: the body of the loop of `ListImages`: the record of one entry, without digest. -/
def imageOfEntry (m : LocalManager) (e : String × Bytes) : Image :=
  { Name := e.1
    Path := filepathJoin [m.imagesDir, e.1]
    Size := (e.2.length : Int)
    Format := detectFormatByName e.1
    SHA256 := "" }

/-- Go: `func (m *LocalManager) ListImages`. -/
def ListImages (env : Env) (m : LocalManager) (w : World) : Except Error (List Image) × World :=
  if env.fails w.log.length (Access.readDir m.imagesDir) then
    (Except.error Error.readdir, w.logged (Access.readDir m.imagesDir))
  else
    (Except.ok ((readDir m.imagesDir w.files).map (imageOfEntry m)),
      w.logged (Access.readDir m.imagesDir))

/-! ## The worlds a call goes through

`SaveImageFromURL` and `CreateDiskFromBase` return the world after their last access.
The functions below list the world after each of their accesses, in order. -/

/-- The worlds after each write of `copyBody`. -/
def copyBodySteps (env : Env) (tmp : String) : List Bytes → World → List World
  | [], _ => []
  | chunk :: rest, w =>
    match fileWrite env w tmp chunk with
    | (false, w') => [w']
    | (true, w') => w' :: copyBodySteps env tmp rest w'

/-- The worlds after each access of `SaveImageFromURL`. -/
def SaveImageFromURLSteps (env : Env) (m : LocalManager) (w : World)
    (name sourceURL : String) : List World :=
  match imagePath m name with
  | Except.error _ => []
  | Except.ok path =>
    if env.validURL sourceURL = false then []
    else
      match env.httpDo sourceURL with
      | none => [w.logged (Access.httpGet sourceURL)]
      | some resp =>
        if resp.StatusCode < 200 ∨ resp.StatusCode ≥ 300 then
          [w.logged (Access.httpGet sourceURL)]
        else
          match osCreate env (w.logged (Access.httpGet sourceURL)) (path ++ ".part") with
          | (false, w₁) => [w.logged (Access.httpGet sourceURL), w₁]
          | (true, w₁) =>
            [w.logged (Access.httpGet sourceURL), w₁] ++
            copyBodySteps env (path ++ ".part") resp.body w₁ ++
            match copyBody env (path ++ ".part") resp.body resp.bodyFails 0 [] w₁ with
            | (false, _, _, w₂) => [(osRemove env w₂ (path ++ ".part")).2]
            | (true, _, _, w₂) =>
              match fileSync env w₂ (path ++ ".part") with
              | (false, w₃) => [w₃, (osRemove env w₃ (path ++ ".part")).2]
              | (true, w₃) =>
                match osRename env w₃ (path ++ ".part") path with
                | (false, w₄) => [w₃, w₄, (osRemove env w₄ (path ++ ".part")).2]
                | (true, w₄) => [w₃, w₄]

/-- The worlds after each access of `CreateDiskFromBase`. -/
def CreateDiskFromBaseSteps (env : Env) (m : LocalManager) (w : World)
    (baseImageName diskName : String) (_sizeBytes : Int) : List World :=
  match imagePath m baseImageName with
  | Except.error _ => []
  | Except.ok base =>
    match imagePath m diskName with
    | Except.error _ => []
    | Except.ok out =>
      match osOpen env w base with
      | (false, w₁) => [w₁]
      | (true, w₁) =>
        match osCreate env w₁ out with
        | (false, w₂) => [w₁, w₂]
        | (true, w₂) =>
          match copyFile env w₂ base out with
          | (false, w₃) => [w₁, w₂, w₃, (osRemove env w₃ out).2]
          | (true, w₃) =>
            match fileSync env w₃ out with
            | (false, w₄) => [w₁, w₂, w₃, w₄, (osRemove env w₄ out).2]
            | (true, w₄) => [w₁, w₂, w₃, w₄]

/-! ## Sample inputs -/

/-- A store over the directory `/var/lib/deusvm/images`. -/
def sampleManager : LocalManager := ⟨"/var/lib/deusvm/images"⟩

/-- A world with one image in the repository and no access made yet. -/
def sampleWorld : World :=
  ⟨(∅ : AList fun _ : String => Bytes).insert "/var/lib/deusvm/images/base.qcow2" [1, 2, 3], []⟩

/-- An outside where every URL parses, a GET returns `200 OK` with a body of three bytes
in two chunks and no access fails. The digest function is a stand-in (the length of
the input), the samples do not look at it. -/
def sampleEnv : Env where
  validURL := fun _ => true
  httpDo := fun _ => some ⟨200, "200 OK", [[7, 8], [9]], false⟩
  fails := fun _ _ => false
  copied := 0
  sha256 := fun data => [data.length]

/-- An outside like `sampleEnv` but for the body of the GET: its transfer fails after
two bytes. -/
def brokenEnv : Env where
  validURL := fun _ => true
  httpDo := fun _ => some ⟨200, "200 OK", [[7, 8]], true⟩
  fails := fun _ _ => false
  copied := 0
  sha256 := fun data => [data.length]

/-- A world like `sampleWorld` with a second image in the repository, named
`new.raw.part`. -/
def stagedWorld : World :=
  ⟨((∅ : AList fun _ : String => Bytes).insert "/var/lib/deusvm/images/base.qcow2"
    [1, 2, 3]).insert "/var/lib/deusvm/images/new.raw.part" [4, 5, 6, 7], []⟩

end Storage

namespace Kvm

/-! ## The libvirt backend (`libvirt_linux.go`)

The control plane is outside the program. A `ControlPlane` holds the answers it gives
to the calls of one method: whether a connection opens, the domain a lookup or a
definition returns, the domains it lists. A `Domain` holds the answers of one domain
to the queries and commands of the backend. What the commands change in the control
plane is not modelled. -/

/-- Go: `libvirt.DomainInfo`, the fields of `virDomainInfo`: `State` is a
`DomainState`, `MaxMem`, `Memory` (in KiB) and `CpuTime` are `uint64`, `NrVirtCpu` is
`uint`. -/
structure DomainInfo where
  State : Nat
  MaxMem : Nat
  Memory : Nat
  NrVirtCpu : Nat
  CpuTime : Nat
  deriving DecidableEq, Repr

/-- Go: `libvirt.DOMAIN_RUNNING`, the state `VIR_DOMAIN_RUNNING = 1`. -/
def DOMAIN_RUNNING : Nat := 1

/-- A domain, by its answers: `GetName`, `GetUUIDString` and `GetInfo` (`none` when
the call fails), `IsActive`, and whether `Undefine`, `Create` and `Shutdown` succeed. -/
structure Domain where
  name : Option String
  uuid : Option String
  info : Option DomainInfo
  active : Bool
  undefines : Bool
  starts : Bool
  shutsDown : Bool
  deriving DecidableEq, Repr

/-- The control plane, by its answers: `libvirt.NewConnect`, `DomainDefineXML`,
`LookupDomainByUUIDString`, `LookupDomainByName` and `ListAllDomains` (`none` when the
call fails). -/
structure ControlPlane where
  connects : Bool
  defineXML : String → Option Domain
  byUUID : String → Option Domain
  byName : String → Option Domain
  allDomains : Option (List Domain)

/-- Go: `type LibvirtManager struct`. -/
structure LibvirtManager where
  address : String
  deriving DecidableEq, Repr

/-- Go: `func NewLibvirtManager`. -/
def NewLibvirtManager (address : String) : LibvirtManager :=
  if address = "" then ⟨"qemu:///system"⟩ else ⟨address⟩

/-- Go: the domain description `CreateVM` prints with `fmt.Sprintf`. -/
def domainXML (name : String) (memoryKiB : Int) (cpu : Int) (diskType image : String) :
    String :=
  "\n<domain type='kvm'>\n  <name>" ++ name ++ "</name>\n  <memory unit='KiB'>" ++
  toString memoryKiB ++ "</memory>\n  <vcpu>" ++ toString cpu ++
  "</vcpu>\n  <os>\n    <type arch='x86_64'>hvm</type>\n  </os>\n  <devices>\n" ++
  "    <disk type='file' device='disk'>\n      <driver name='qemu' type='" ++ diskType ++
  "'/>\n      <source file='" ++ image ++
  "'/>\n      <target dev='vda' bus='virtio'/>\n    </disk>\n" ++
  "    <graphics type='vnc' autoport='yes'/>\n  </devices>\n</domain>"

/-- Go: the lookup of `DeleteVM`, `StartVM`, `StopVM` and `GetVM`: by UUID, and by
name when that fails. -/
def lookupDomain (cp : ControlPlane) (id : String) : Option Domain :=
  match cp.byUUID id with
  | some dom => some dom
  | none => cp.byName id

/-- Go: `func (l *LibvirtManager) CreateVM`. -/
def LibvirtManager.CreateVM (_l : LibvirtManager) (cp : ControlPlane) (req : CreateVMRequest)
    (now : Nat) : Except Error VM :=
  if req.Name = "" ∨ req.CPU ≤ 0 ∨ req.MemoryBytes ≤ 0 ∨ req.Image = "" then
    Except.error Error.invalidCreateRequest
  else if cp.connects = false then Except.error Error.libvirtConnect
  else
    match cp.defineXML (domainXML req.Name (Int.tdiv req.MemoryBytes 1024) req.CPU
        (if Storage.stringsHasSuffix (Storage.stringsToLower req.Image) ".qcow2"
          then "qcow2" else "raw") req.Image) with
    | none => Except.error Error.defineDomain
    | some dom =>
      Except.ok
        { ID := dom.uuid.getD ""
          Name := req.Name
          CPU := req.CPU
          MemoryBytes := req.MemoryBytes
          DiskBytes := req.DiskBytes
          Image := req.Image
          Status := VMStatusStopped
          CreatedAt := now }

/-- Go: `func (l *LibvirtManager) DeleteVM`. The forced stop of an active domain
(`dom.Destroy()`, its error dropped) does not enter the result. -/
def LibvirtManager.DeleteVM (_l : LibvirtManager) (cp : ControlPlane) (id : String) :
    Except Error Unit :=
  if cp.connects = false then Except.error Error.libvirtConnect
  else
    match lookupDomain cp id with
    | none => Except.error Error.lookupDomain
    | some dom => if dom.undefines then Except.ok () else Except.error Error.undefine

/-- Go: `func (l *LibvirtManager) StartVM`. -/
def LibvirtManager.StartVM (_l : LibvirtManager) (cp : ControlPlane) (id : String) :
    Except Error Unit :=
  if cp.connects = false then Except.error Error.libvirtConnect
  else
    match lookupDomain cp id with
    | none => Except.error Error.lookupDomain
    | some dom => if dom.starts then Except.ok () else Except.error Error.start

/-- Go: `func (l *LibvirtManager) StopVM`. -/
def LibvirtManager.StopVM (_l : LibvirtManager) (cp : ControlPlane) (id : String) :
    Except Error Unit :=
  if cp.connects = false then Except.error Error.libvirtConnect
  else
    match lookupDomain cp id with
    | none => Except.error Error.lookupDomain
    | some dom => if dom.shutsDown then Except.ok () else Except.error Error.shutdown

/-- Go: `func (l *LibvirtManager) GetVM`. The fields the literal leaves out, `DiskBytes`,
`Image` and `CreatedAt`, have their zero values. -/
def LibvirtManager.GetVM (_l : LibvirtManager) (cp : ControlPlane) (id : String) :
    Except Error VM :=
  if cp.connects = false then Except.error Error.libvirtConnect
  else
    match lookupDomain cp id with
    | none => Except.error Error.lookupDomain
    | some dom =>
      match dom.info with
      | none => Except.error Error.getInfo
      | some info =>
        Except.ok
          { ID := dom.uuid.getD ""
            Name := dom.name.getD ""
            CPU := toInt64 info.NrVirtCpu
            MemoryBytes := toInt64 (toInt64 info.Memory * 1024)
            DiskBytes := 0
            Image := ""
            Status := if info.State = DOMAIN_RUNNING then VMStatusRunning else VMStatusStopped
            CreatedAt := 0 }

/-- Go: the body of the loop of `ListVMs` for one domain. The record reads
`info.NrVirtCpu` and `info.Memory`; when `GetInfo` failed `info` is `nil` and the read
panics: the result is `none`. -/
def listedVM (dom : Domain) : Option VM :=
  match dom.info with
  | none => none
  | some info =>
    some
      { ID := dom.uuid.getD ""
        Name := dom.name.getD ""
        CPU := toInt64 info.NrVirtCpu
        MemoryBytes := toInt64 (toInt64 info.Memory * 1024)
        DiskBytes := 0
        Image := ""
        Status := if info.State = DOMAIN_RUNNING then VMStatusRunning else VMStatusStopped
        CreatedAt := 0 }

/-- Go: the loop `for _, d := range doms` of `ListVMs`, with the records appended to
`out` so far; `none` when a round panics. -/
def listLoop : List Domain → List VM → Option (List VM)
  | [], out => some out
  | d :: ds, out =>
    match listedVM d with
    | none => none
    | some vm => listLoop ds (out ++ [vm])

/-- Go: `func (l *LibvirtManager) ListVMs`. The result is `none` when the call panics. -/
def LibvirtManager.ListVMs (_l : LibvirtManager) (cp : ControlPlane) :
    Option (Except Error (List VM)) :=
  if cp.connects = false then some (Except.error Error.libvirtConnect)
  else
    match cp.allDomains with
    | none => some (Except.error Error.listDomains)
    | some doms =>
      match listLoop doms [] with
      | none => none
      | some out => some (Except.ok out)

/-- The record the libvirt backend makes of a domain with the info `info`: no disk size,
no image, no creation time, as memory the reported KiB times 1024 when that is below
`2^63`, and the status Running exactly for a running domain, Stopped otherwise. -/
def RecordOf (info : DomainInfo) (vm : VM) : Prop :=
  vm.DiskBytes = 0 ∧ vm.Image = "" ∧ vm.CreatedAt = 0 ∧
  (info.Memory < 9007199254740992 → vm.MemoryBytes = (info.Memory : Int) * 1024) ∧
  (vm.Status = VMStatusRunning ↔ info.State = DOMAIN_RUNNING) ∧
  (vm.Status = VMStatusStopped ↔ info.State ≠ DOMAIN_RUNNING)

/-! ## Sample inputs -/

/-- A running domain with 2 vCPUs and 1 GiB of memory. -/
def webDomain : Domain :=
  { name := some "web"
    uuid := some "6f1c2b1e-0a4d-4c6b-9d53-0f4f3c2a1b10"
    info := some ⟨1, 1048576, 1048576, 2, 0⟩
    active := true
    undefines := true
    starts := true
    shutsDown := true }

/-- A shut-off domain that reports `2^53` KiB of memory. -/
def hugeDomain : Domain :=
  { name := some "huge"
    uuid := some "0b9d6c1a-7e2f-4a38-8c11-5d2e9f7a6b21"
    info := some ⟨5, 9007199254740992, 9007199254740992, 1, 0⟩
    active := false
    undefines := true
    starts := true
    shutsDown := true }

/-- A control plane with the domains `web` and `huge`. -/
def sampleControlPlane : ControlPlane :=
  { connects := true
    defineXML := fun _ => some webDomain
    byUUID := fun id =>
      if id = "6f1c2b1e-0a4d-4c6b-9d53-0f4f3c2a1b10" then some webDomain
      else if id = "0b9d6c1a-7e2f-4a38-8c11-5d2e9f7a6b21" then some hugeDomain else none
    byName := fun id =>
      if id = "web" then some webDomain else if id = "huge" then some hugeDomain else none
    allDomains := some [webDomain, hugeDomain] }

/-- The libvirt backend of the samples. -/
def sampleLibvirt : LibvirtManager := NewLibvirtManager ""

/-- A domain that was listed and is gone when it is asked: `GetName`, `GetInfo` and
`GetUUIDString` fail. -/
def goneDomain : Domain :=
  { name := none
    uuid := none
    info := none
    active := false
    undefines := false
    starts := false
    shutsDown := false }

/-- A control plane like `sampleControlPlane` that lists `web` and a domain that is
gone. -/
def racyControlPlane : ControlPlane :=
  { sampleControlPlane with allDomains := some [webDomain, goneDomain] }

end Kvm

namespace Api

/-! ## The HTTP transport (`internal/api/server.go`)

A handler is modelled from its inputs, the decoded body or the URL parameter of the
request, to the response it writes: the status and the value it encodes as JSON. The
backend and the store are the interfaces `kvm.Manager` and `storage.Manager`: records
of the results their methods give to the calls of one request. -/

/-- Go: the bytes of a string, its UTF-8 encoding: the bytes of one character. -/
def utf8Encode (c : Char) : List Nat :=
  if c.toNat < 128 then [c.toNat]
  else if c.toNat < 2048 then [192 + c.toNat / 64, 128 + c.toNat % 64]
  else if c.toNat < 65536 then
    [224 + c.toNat / 4096, 128 + c.toNat / 64 % 64, 128 + c.toNat % 64]
  else
    [240 + c.toNat / 262144, 128 + c.toNat / 4096 % 64, 128 + c.toNat / 64 % 64,
      128 + c.toNat % 64]

/-- Go: the bytes `s[0], ..., s[len(s)-1]` of a string. -/
def goBytes (s : String) : List Nat := s.data.flatMap utf8Encode

/-- Go: the loop of `parseSize` over the bytes of `numStr`, from the value `v`: a byte
that is not a digit ends it with the error, a digit gives `v*10 + int64(b-'0')`. -/
def parseDigits : List Nat → Int → Option Int
  | [], v => some v
  | b :: bs, v =>
    if b < 48 ∨ b > 57 then none
    else parseDigits bs (toInt64 (toInt64 (v * 10) + ((b : Int) - 48)))

/-- Go: `func parseSize(s string) (int64, error)`; `none` is the error `errSize()`. -/
def parseSize (s : String) : Option Int :=
  if (goBytes s).length < 3 then none
  else
    match parseDigits ((goBytes s).take ((goBytes s).length - 2)) 0 with
    | none => none
    | some v =>
      if (goBytes s).drop ((goBytes s).length - 2) = goBytes "GB" then
        some (toInt64 (toInt64 (toInt64 (v * 1024) * 1024) * 1024))
      else if (goBytes s).drop ((goBytes s).length - 2) = goBytes "MB" then
        some (toInt64 (toInt64 (v * 1024) * 1024))
      else none

/-- Go: the status codes of `net/http` the handlers use. -/
def StatusOK : Nat := 200
def StatusCreated : Nat := 201
def StatusNoContent : Nat := 204
def StatusBadRequest : Nat := 400
def StatusUnauthorized : Nat := 401
def StatusNotFound : Nat := 404
def StatusInternalServerError : Nat := 500

/-- Go: `type createVMRequest struct`, the decoded body of `POST /api/v1/vms`. -/
structure createVMRequest where
  Name : String
  Image : String
  CPU : Int
  Memory : String
  Disk : String
  deriving DecidableEq, Repr

/-- Go: `type createImageRequest struct`, the decoded body of `POST /api/v1/images`. -/
structure createImageRequest where
  Name : String
  Source : String
  deriving DecidableEq, Repr

/-- The message of an error response: a fixed text, or `err.Error()` of an error of the
backend or of the store (kept as the error). -/
inductive Message where
  | text (msg : String)
  | kvm (err : Kvm.Error)
  | storage (err : Storage.Error)
  deriving DecidableEq, Repr

/-- The value a handler passes to `writeJSON`. -/
inductive Payload where
  | null
  | error (msg : Message)
  | vm (v : Kvm.VM)
  | vms (l : List Kvm.VM)
  | status (s : String)
  | image (i : Storage.Image)
  | images (l : List Storage.Image)
  deriving DecidableEq, Repr

/-- The response a handler writes: the status and the value encoded as JSON. -/
structure Response where
  status : Nat
  payload : Payload
  deriving DecidableEq, Repr

/-- Go: `func writeJSON(w http.ResponseWriter, status int, v any)`. -/
def writeJSON (status : Nat) (v : Payload) : Response := ⟨status, v⟩

/-- Go: `func writeError(w http.ResponseWriter, status int, msg string)`. -/
def writeError (status : Nat) (msg : Message) : Response :=
  writeJSON status (Payload.error msg)

/-- Go: `type Manager interface` of package `kvm`, by the results of its methods.
`ListVMs` is `none` when the call panics. -/
structure Manager where
  CreateVM : Kvm.CreateVMRequest → Except Kvm.Error Kvm.VM
  DeleteVM : String → Except Kvm.Error Unit
  StartVM : String → Except Kvm.Error Unit
  StopVM : String → Except Kvm.Error Unit
  GetVM : String → Except Kvm.Error Kvm.VM
  ListVMs : Option (Except Kvm.Error (List Kvm.VM))

/-- Go: `type Manager interface` of package `storage`, by the results of its methods. -/
structure Store where
  SaveImageFromURL : String → String → Except Storage.Error Storage.Image
  ListImages : Except Storage.Error (List Storage.Image)
  DeleteImage : String → Except Storage.Error Unit
  CreateDiskFromBase : String → String → Int → Except Storage.Error String

/-- Go: `type Server struct`, the backend and the store of it. -/
structure Server where
  manager : Manager
  store : Store

/-- The in-memory backend in the state `m`, as a `kvm.Manager`. -/
def inMemoryManager (m : Kvm.InMemoryManager) (rnd : Nat → Nat) (now : Nat) : Manager :=
  { CreateVM := fun req => (Kvm.CreateVM m req rnd now).1
    DeleteVM := fun id => (Kvm.DeleteVM m id).1
    StartVM := fun id => (Kvm.StartVM m id).1
    StopVM := fun id => (Kvm.StopVM m id).1
    GetVM := fun id => Kvm.GetVM m id
    ListVMs := some (Except.ok (Kvm.ListVMs m)) }

/-- The libvirt backend in front of the control plane `cp`, as a `kvm.Manager`. -/
def libvirtManager (l : Kvm.LibvirtManager) (cp : Kvm.ControlPlane) (now : Nat) : Manager :=
  { CreateVM := fun req => l.CreateVM cp req now
    DeleteVM := fun id => l.DeleteVM cp id
    StartVM := fun id => l.StartVM cp id
    StopVM := fun id => l.StopVM cp id
    GetVM := fun id => l.GetVM cp id
    ListVMs := l.ListVMs cp }

/-- The image store in the world `w`, as a `storage.Manager`. -/
def localStore (env : Storage.Env) (m : Storage.LocalManager) (w : Storage.World) : Store :=
  { SaveImageFromURL := fun name sourceURL => (Storage.SaveImageFromURL env m w name sourceURL).1
    ListImages := (Storage.ListImages env m w).1
    DeleteImage := fun name => (Storage.DeleteImage env m w name).1
    CreateDiskFromBase := fun baseImageName diskName sizeBytes =>
      (Storage.CreateDiskFromBase env m w baseImageName diskName sizeBytes).1 }

/-- Go: `func (s *Server) createVM`; `body` is `none` when the JSON does not decode. -/
def createVM (s : Server) (body : Option createVMRequest) : Response :=
  match body with
  | none => writeError StatusBadRequest (Message.text "invalid json")
  | some req =>
    match parseSize req.Memory with
    | none => writeError StatusBadRequest (Message.text "invalid memory")
    | some mem =>
      match parseSize req.Disk with
      | none => writeError StatusBadRequest (Message.text "invalid disk")
      | some disk =>
        match s.manager.CreateVM
            { Name := req.Name, CPU := req.CPU, MemoryBytes := mem, DiskBytes := disk,
              Image := req.Image } with
        | Except.error err => writeError StatusBadRequest (Message.kvm err)
        | Except.ok vm => writeJSON StatusCreated (Payload.vm vm)

/-- Go: `func (s *Server) listVMs`; `none` when `ListVMs` panics. -/
def listVMs (s : Server) : Option Response :=
  match s.manager.ListVMs with
  | none => none
  | some (Except.error err) => some (writeError StatusInternalServerError (Message.kvm err))
  | some (Except.ok vms) => some (writeJSON StatusOK (Payload.vms vms))

/-- Go: `func (s *Server) getVM`. -/
def getVM (s : Server) (id : String) : Response :=
  match s.manager.GetVM id with
  | Except.error err => writeError StatusNotFound (Message.kvm err)
  | Except.ok vm => writeJSON StatusOK (Payload.vm vm)

/-- Go: `func (s *Server) startVM`. -/
def startVM (s : Server) (id : String) : Response :=
  match s.manager.StartVM id with
  | Except.error err => writeError StatusNotFound (Message.kvm err)
  | Except.ok _ => writeJSON StatusOK (Payload.status "started")

/-- Go: `func (s *Server) stopVM`. -/
def stopVM (s : Server) (id : String) : Response :=
  match s.manager.StopVM id with
  | Except.error err => writeError StatusNotFound (Message.kvm err)
  | Except.ok _ => writeJSON StatusOK (Payload.status "stopped")

/-- Go: `func (s *Server) deleteVM`. -/
def deleteVM (s : Server) (id : String) : Response :=
  match s.manager.DeleteVM id with
  | Except.error err => writeError StatusNotFound (Message.kvm err)
  | Except.ok _ => writeJSON StatusNoContent Payload.null

/-- Go: `func (s *Server) createImage`; `body` is `none` when the JSON does not decode. -/
def createImage (s : Server) (body : Option createImageRequest) : Response :=
  match body with
  | none => writeError StatusBadRequest (Message.text "invalid json")
  | some req =>
    if req.Name = "" ∨ req.Source = "" then
      writeError StatusBadRequest (Message.text "name and source required")
    else
      match s.store.SaveImageFromURL req.Name req.Source with
      | Except.error err => writeError StatusBadRequest (Message.storage err)
      | Except.ok img => writeJSON StatusCreated (Payload.image img)

/-- Go: `func (s *Server) listImages`. -/
def listImages (s : Server) : Response :=
  match s.store.ListImages with
  | Except.error err => writeError StatusInternalServerError (Message.storage err)
  | Except.ok imgs => writeJSON StatusOK (Payload.images imgs)

/-- Go: `func (s *Server) deleteImage`. -/
def deleteImage (s : Server) (name : String) : Response :=
  if name = "" then writeError StatusBadRequest (Message.text "name required")
  else
    match s.store.DeleteImage name with
    | Except.error err => writeError StatusNotFound (Message.storage err)
    | Except.ok _ => writeJSON StatusNoContent Payload.null

/-! ## The error kinds of the design document

The code has no type of error kinds: its errors are the values of `Kvm.Error` and
`Storage.Error`. The kinds below are those the design document names, and `kindOf`
sorts the errors into them following its words. -/

/-- The five kinds of error of the design document. -/
inductive ErrorKind where
  | InvalidRequest
  | Conflict
  | NotFound
  | Upstream
  | InputOutput
  deriving DecidableEq, Repr

/-- The kind of an error of the backends: invalid input, a duplicate name, an unknown
identifier, and failures talking to the control plane. -/
def kindOfKvm : Kvm.Error → ErrorKind
  | Kvm.Error.invalidCreateRequest => ErrorKind.InvalidRequest
  | Kvm.Error.nameAlreadyExists _ => ErrorKind.Conflict
  | Kvm.Error.vmNotFound _ => ErrorKind.NotFound
  | Kvm.Error.lookupDomain => ErrorKind.NotFound
  | _ => ErrorKind.Upstream

/-- The kind of an error of the store: invalid input, a missing file, failures of the
download source, and failures of the local filesystem. -/
def kindOfStorage : Storage.Error → ErrorKind
  | Storage.Error.invalidImageName => ErrorKind.InvalidRequest
  | Storage.Error.imagesDirRequired => ErrorKind.InvalidRequest
  | Storage.Error.newRequest => ErrorKind.InvalidRequest
  | Storage.Error.download => ErrorKind.Upstream
  | Storage.Error.downloadStatus _ => ErrorKind.Upstream
  | Storage.Error.remove Storage.OSError.notExist => ErrorKind.NotFound
  | _ => ErrorKind.InputOutput

/-- The status is in the class the design document gives to the kind: a client error
(4xx) for InvalidRequest and Conflict, 404 for NotFound, a server error (5xx) for
Upstream and IO. -/
def inClassOf (kind : ErrorKind) (status : Nat) : Prop :=
  match kind with
  | ErrorKind.InvalidRequest => 400 ≤ status ∧ status < 500
  | ErrorKind.Conflict => 400 ≤ status ∧ status < 500
  | ErrorKind.NotFound => status = 404
  | ErrorKind.Upstream => 500 ≤ status ∧ status < 600
  | ErrorKind.InputOutput => 500 ≤ status ∧ status < 600

instance (kind : ErrorKind) (status : Nat) : Decidable (inClassOf kind status) := by
  cases kind <;> unfold inClassOf <;> infer_instance

/-! ## Sample inputs -/

/-- An outside like `sampleEnv` but for the GET: the source cannot be reached. -/
def unreachableEnv : Storage.Env :=
  { Storage.sampleEnv with httpDo := fun _ => none }

/-- An outside like `sampleEnv` but for the filesystem: it refuses every access. -/
def readOnlyEnv : Storage.Env :=
  { Storage.sampleEnv with fails := fun _ _ => true }

/-- A control plane no connection reaches. -/
def downControlPlane : Kvm.ControlPlane :=
  { Kvm.sampleControlPlane with connects := false }

/-! ## Size strings, in the words of the design document

`parseSize` works on bytes. What it accepts is described below on the characters of the
string, to compare the two. -/

/-- The character is an ASCII decimal digit, `'0'` to `'9'`. -/
def asciiDigit (c : Char) : Prop := 48 ≤ c.toNat ∧ c.toNat ≤ 57

instance (c : Char) : Decidable (asciiDigit c) := by unfold asciiDigit; infer_instance

/-- The number a sequence of decimal digits writes. -/
def decimalValue (digits : List Char) : Nat :=
  digits.foldl (fun v c => v * 10 + (c.toNat - 48)) 0

/-- The string is one or more ASCII decimal digits followed by the unit. -/
def IsSizeString (s : String) (digits : List Char) (unit : String) : Prop :=
  digits ≠ [] ∧ (∀ c ∈ digits, asciiDigit c) ∧ s.data = digits ++ unit.data

instance (s : String) (digits : List Char) (unit : String) :
    Decidable (IsSizeString s digits unit) := by
  unfold IsSizeString; infer_instance

/-! ## The auth middleware (`server.go`, lines 27-29 and 145-161) -/

/-- Go: `http.Header`, the values of the headers of a request by name; the names are in
the canonical form the server stores them in. -/
abbrev Header := AList (fun _ : String => List String)

/-- Go: `func (h Header) Get(key string) string`: the first value under the name, the
empty string when there is none. -/
def Header.Get (h : Header) (key : String) : String :=
  match h.lookup key with
  | some (v :: _) => v
  | _ => ""

/-- Go: `*http.Request`, the part of it the middleware reads. -/
structure Request where
  Header : Header

/-- Go: `http.Handler`, by `ServeHTTP`: from the request and the state of what stands
behind the handler to the response written and the state afterwards. -/
abbrev Handler (σ : Type) := Request → σ → Response × σ

/-- Go: `const prefix = "Bearer "` of `authMiddleware`. -/
def bearer : String := "Bearer "

/-- Go: `func (s *Server) authMiddleware(token string) func(http.Handler) http.Handler`.
The slices `h[:len(prefix)]` and `h[len(prefix):]` are slices of the bytes of `h`. -/
def authMiddleware {σ : Type} (token : String) (next : Handler σ) : Handler σ :=
  fun r st =>
    if token = "" then next r st
    else if (goBytes (r.Header.Get "Authorization")).length > (goBytes bearer).length ∧
        (goBytes (r.Header.Get "Authorization")).take (goBytes bearer).length = goBytes bearer ∧
        (goBytes (r.Header.Get "Authorization")).drop (goBytes bearer).length = goBytes token
    then next r st
    else (writeError StatusUnauthorized (Message.text "unauthorized"), st)

/-- Go: the router `NewServer` builds around the routes: `authMiddleware` is in use
when `cfg.API.AuthToken` is not empty. `RequestID`, `RealIP` and `Recoverer` are not
modelled. -/
def Router {σ : Type} (authToken : String) (routes : Handler σ) : Handler σ :=
  if authToken ≠ "" then authMiddleware authToken routes else routes

/-- A request with the header `Authorization: Bearer s3cret`. -/
def bearerRequest : Request :=
  ⟨(∅ : AList fun _ : String => List String).insert "Authorization" ["Bearer s3cret"]⟩

/-- A handler that counts the requests it serves and answers 200. -/
def countingHandler : Handler Nat :=
  fun _ n => (writeJSON StatusOK (Payload.status "served"), n + 1)

end Api

end Deusvm

/-! # Properties of the in-memory backend -/

namespace Deusvm

namespace Kvm

/-! ## Finite maps -/

theorem lookup_insert_ite {V : Type} (m : AList (fun _ : String => V)) (k k' : String) (v : V) :
    (m.insert k v).lookup k' = if k' = k then some v else m.lookup k' := by
  by_cases h : k' = k
  · subst h; simp
  · simp [h]

theorem lookup_erase_ite {V : Type} (m : AList (fun _ : String => V)) (k k' : String) :
    (m.erase k).lookup k' = if k' = k then none else m.lookup k' := by
  by_cases h : k' = k
  · subst h; simp
  · simp [h]

theorem mem_values_iff {V : Type} (m : AList (fun _ : String => V)) (v : V) :
    v ∈ m.entries.map (fun e => e.2) ↔ ∃ k, m.lookup k = some v := by
  constructor
  · intro h
    obtain ⟨⟨k, w⟩, hmem, rfl⟩ := List.mem_map.1 h
    exact ⟨k, Option.mem_def.1 (AList.mem_lookup_iff.2 hmem)⟩
  · rintro ⟨k, hk⟩
    exact List.mem_map.2 ⟨⟨k, v⟩, AList.mem_lookup_iff.1 (Option.mem_def.2 hk), rfl⟩

/-! ## The identifier is a canonical UUID string -/

theorem uuidHex_length (rnd : Nat → Nat) (i n : Nat) : (uuidHex rnd i n).length = 2 * n := by
  induction n generalizing i with
  | zero => rfl
  | succ n ih => simp [uuidHex, hexByte, ih]; omega

theorem uuidNewString_length (rnd : Nat → Nat) : (uuidNewString rnd).length = 36 := by
  simp [uuidNewString, String.length, uuidHex_length]

theorem uuidNewString_ne_empty (rnd : Nat → Nat) : uuidNewString rnd ≠ "" := by
  intro h
  have := uuidNewString_length rnd
  rw [h] at this
  simp at this

/-! ## What each call does to the state -/

theorem CreateVM_invalid (m : InMemoryManager) (req : CreateVMRequest) (rnd : Nat → Nat)
    (now : Nat) (h : ¬ ValidRequest req) :
    CreateVM m req rnd now = (Except.error Error.invalidCreateRequest, m) := by
  have h' : req.Name = "" ∨ req.CPU ≤ 0 ∨ req.MemoryBytes ≤ 0 ∨ req.DiskBytes ≤ 0 := by
    unfold ValidRequest at h
    by_contra hc
    simp only [not_or, not_le] at hc
    exact h ⟨hc.1, hc.2.1, hc.2.2.1, hc.2.2.2⟩
  simp [CreateVM, h']

theorem CreateVM_conflict (m : InMemoryManager) (req : CreateVMRequest) (rnd : Nat → Nat)
    (now : Nat) (h : ValidRequest req) (id : String) (hid : m.nameIdx.lookup req.Name = some id) :
    CreateVM m req rnd now = (Except.error (Error.nameAlreadyExists req.Name), m) := by
  obtain ⟨h1, h2, h3, h4⟩ := h
  have h' : ¬ (req.Name = "" ∨ req.CPU ≤ 0 ∨ req.MemoryBytes ≤ 0 ∨ req.DiskBytes ≤ 0) := by
    simp only [not_or, not_le]; exact ⟨h1, h2, h3, h4⟩
  simp [CreateVM, h', hid]

theorem CreateVM_ok (m : InMemoryManager) (req : CreateVMRequest) (rnd : Nat → Nat)
    (now : Nat) (h : ValidRequest req) (hid : m.nameIdx.lookup req.Name = none) :
    CreateVM m req rnd now =
      (Except.ok ⟨uuidNewString rnd, req.Name, req.CPU, req.MemoryBytes, req.DiskBytes,
          req.Image, VMStatusStopped, now⟩,
        { vms := m.vms.insert (uuidNewString rnd) ⟨uuidNewString rnd, req.Name, req.CPU,
            req.MemoryBytes, req.DiskBytes, req.Image, VMStatusStopped, now⟩,
          nameIdx := m.nameIdx.insert req.Name (uuidNewString rnd) }) := by
  obtain ⟨h1, h2, h3, h4⟩ := h
  have h' : ¬ (req.Name = "" ∨ req.CPU ≤ 0 ∨ req.MemoryBytes ≤ 0 ∨ req.DiskBytes ≤ 0) := by
    simp only [not_or, not_le]; exact ⟨h1, h2, h3, h4⟩
  simp [CreateVM, h', hid]

/-! ## The table and the name index agree when the identifiers returned are new -/

theorem wellFormed_new : WellFormed NewInMemoryManager := by
  constructor
  · intro id vm h; simp [NewInMemoryManager] at h
  · intro name id h; simp [NewInMemoryManager] at h

theorem wellFormed_create (m : InMemoryManager) (req : CreateVMRequest) (rnd : Nat → Nat)
    (now : Nat) (hm : WellFormed m) (hnone : m.vms.lookup (uuidNewString rnd) = none) :
    WellFormed (CreateVM m req rnd now).2 := by
  by_cases hv : ValidRequest req
  · cases hidx : m.nameIdx.lookup req.Name with
    | some id => rw [CreateVM_conflict m req rnd now hv id hidx]; exact hm
    | none =>
      rw [CreateVM_ok m req rnd now hv hidx]
      constructor
      · intro id vm h
        simp only [lookup_insert_ite] at h ⊢
        by_cases hid : id = uuidNewString rnd
        · rw [if_pos hid] at h
          cases h
          simp [hid]
        · rw [if_neg hid] at h
          obtain ⟨h1, h2⟩ := hm.1 id vm h
          have hne : vm.Name ≠ req.Name := by
            intro he; rw [he, hidx] at h2; cases h2
          exact ⟨h1, by rw [if_neg hne]; exact h2⟩
      · intro name id h
        simp only [lookup_insert_ite] at h ⊢
        by_cases hn : name = req.Name
        · rw [if_pos hn] at h
          cases h
          exact ⟨_, by rw [if_pos rfl], hn.symm⟩
        · rw [if_neg hn] at h
          obtain ⟨vm, h1, h2⟩ := hm.2 name id h
          have hne : id ≠ uuidNewString rnd := by
            intro he; rw [he, hnone] at h1; cases h1
          exact ⟨vm, by rw [if_neg hne]; exact h1, h2⟩
  · rw [CreateVM_invalid m req rnd now hv]; exact hm

theorem wellFormed_delete (m : InMemoryManager) (id : String) (hm : WellFormed m) :
    WellFormed (DeleteVM m id).2 := by
  unfold DeleteVM
  cases hl : m.vms.lookup id with
  | none => exact hm
  | some vm =>
    obtain ⟨_, hvidx⟩ := hm.1 id vm hl
    constructor
    · intro id' vm' h
      simp only [lookup_erase_ite] at h ⊢
      by_cases hid : id' = id
      · rw [if_pos hid] at h; cases h
      · rw [if_neg hid] at h
        obtain ⟨h1, h2⟩ := hm.1 id' vm' h
        have hne : vm'.Name ≠ vm.Name := by
          intro he; rw [he, hvidx] at h2; exact hid (Option.some.inj h2).symm
        exact ⟨h1, by rw [if_neg hne]; exact h2⟩
    · intro name id' h
      simp only [lookup_erase_ite] at h ⊢
      by_cases hn : name = vm.Name
      · rw [if_pos hn] at h; cases h
      · rw [if_neg hn] at h
        obtain ⟨vm', h1, h2⟩ := hm.2 name id' h
        have hne : id' ≠ id := by
          intro he; rw [he, hl] at h1
          exact hn (by rw [← h2, ← Option.some.inj h1])
        exact ⟨vm', by rw [if_neg hne]; exact h1, h2⟩

theorem wellFormed_setStatus (m : InMemoryManager) (id : String) (vm : VM) (st : VMStatus)
    (hm : WellFormed m) (hl : m.vms.lookup id = some vm) :
    WellFormed { m with vms := m.vms.insert id { vm with Status := st } } := by
  obtain ⟨hvid, hvidx⟩ := hm.1 id vm hl
  constructor
  · intro id' vm' h
    simp only [lookup_insert_ite] at h
    by_cases hid : id' = id
    · rw [if_pos hid] at h
      cases h
      exact ⟨by rw [hid]; exact hvid, by rw [hid]; exact hvidx⟩
    · rw [if_neg hid] at h
      exact hm.1 id' vm' h
  · intro name id' h
    obtain ⟨vm', h1, h2⟩ := hm.2 name id' h
    simp only [lookup_insert_ite]
    by_cases hid : id' = id
    · rw [if_pos hid]
      rw [hid, hl] at h1
      exact ⟨_, rfl, by rw [← h2, ← Option.some.inj h1]⟩
    · rw [if_neg hid]; exact ⟨vm', h1, h2⟩

theorem wellFormed_start (m : InMemoryManager) (id : String) (hm : WellFormed m) :
    WellFormed (StartVM m id).2 := by
  unfold StartVM
  cases hl : m.vms.lookup id with
  | none => exact hm
  | some vm => exact wellFormed_setStatus m id vm VMStatusRunning hm hl

theorem wellFormed_stop (m : InMemoryManager) (id : String) (hm : WellFormed m) :
    WellFormed (StopVM m id).2 := by
  unfold StopVM
  cases hl : m.vms.lookup id with
  | none => exact hm
  | some vm => exact wellFormed_setStatus m id vm VMStatusStopped hm hl

theorem wellFormed_step (m : InMemoryManager) (c : Call) (hm : WellFormed m)
    (hc : c.freshIn m) : WellFormed (step m c) := by
  cases c with
  | create req rnd now =>
    by_cases hv : ValidRequest req
    · cases hidx : m.nameIdx.lookup req.Name with
      | some id =>
        simp only [step]
        rw [CreateVM_conflict m req rnd now hv id hidx]; exact hm
      | none =>
        refine wellFormed_create m req rnd now hm (hc _ ?_)
        simp [returnedID, CreateVM_ok m req rnd now hv hidx]
    · simp only [step]
      rw [CreateVM_invalid m req rnd now hv]; exact hm
  | delete id => exact wellFormed_delete m id hm
  | start id => exact wellFormed_start m id hm
  | stop id => exact wellFormed_stop m id hm
  | get id => exact hm
  | list => exact hm

theorem wellFormed_run (cs : List Call) (m : InMemoryManager) (hm : WellFormed m)
    (hcs : FreshIDs m cs) : WellFormed (run m cs) := by
  induction cs generalizing m with
  | nil => exact hm
  | cons c cs ih => exact ih (step m c) (wellFormed_step m c hm hcs.1) hcs.2

/-- In a well-formed state a name is in the index exactly when a live record has it. -/
theorem nameIdx_none_iff (m : InMemoryManager) (hm : WellFormed m) (name : String) :
    m.nameIdx.lookup name = none ↔ NameUnused m name := by
  constructor
  · intro h id vm hl he
    have := (hm.1 id vm hl).2
    rw [he, h] at this; cases this
  · intro h
    cases hl : m.nameIdx.lookup name with
    | none => rfl
    | some id =>
      obtain ⟨vm, h1, h2⟩ := hm.2 name id hl
      exact absurd h2 (h id vm h1)

/-- A map that holds under one key only a value with the property `p` lists exactly
one such value. -/
theorem filter_values_length_one (t : AList (fun _ : String => VM)) (p : VM → Bool)
    (k : String) (v : VM) (hk : t.lookup k = some v) (hp : p v = true)
    (huniq : ∀ k' v', t.lookup k' = some v' → p v' = true → k' = k) :
    ((t.entries.map (fun e => e.2)).filter p).length = 1 := by
  rw [List.filter_map, List.length_map]
  set F := t.entries.filter (p ∘ fun e => e.2) with hF
  have hmem : (⟨k, v⟩ : Sigma fun _ : String => VM) ∈ F := by
    rw [hF, List.mem_filter]
    exact ⟨AList.mem_lookup_iff.1 (Option.mem_def.2 hk), by simpa using hp⟩
  have hall : ∀ e ∈ F, (⟨k, v⟩ : Sigma fun _ : String => VM) = e := by
    intro e he
    rw [hF, List.mem_filter] at he
    obtain ⟨k', v'⟩ := e
    have hl : t.lookup k' = some v' := Option.mem_def.1 (AList.mem_lookup_iff.2 he.1)
    have hkk : k' = k := huniq k' v' hl (by simpa using he.2)
    subst hkk
    rw [hk] at hl
    cases hl
    rfl
  have hnd : F.Nodup := (List.NodupKeys.nodup t.nodupKeys).sublist (List.filter_sublist _)
  have h1 : F.count ⟨k, v⟩ = F.length := List.count_eq_length.2 hall
  have h2 : F.count ⟨k, v⟩ ≤ 1 := List.nodup_iff_count_le_one.1 hnd _
  have h3 : 0 < F.count ⟨k, v⟩ := List.count_pos_iff.2 hmem
  omega

/-- The identifiers of the live records of a run were all returned by its `CreateVM`
calls or were live at its start. -/
theorem live_of_run (cs : List Call) (m : InMemoryManager) (id : String)
    (h : id ∈ (run m cs).vms) : id ∈ m.vms ∨ id ∈ returnedIDs m cs := by
  induction cs generalizing m with
  | nil => exact Or.inl h
  | cons c cs ih =>
    have h' := ih (step m c) h
    simp only [returnedIDs, List.mem_append]
    rcases h' with h' | h'
    · cases c with
      | create req rnd now =>
        simp only [step] at h'
        by_cases hv : ValidRequest req
        · cases hidx : m.nameIdx.lookup req.Name with
          | some id0 => rw [CreateVM_conflict m req rnd now hv id0 hidx] at h'; exact Or.inl h'
          | none =>
            rw [CreateVM_ok m req rnd now hv hidx] at h'
            rcases (AList.mem_insert _).1 h' with h' | h'
            · right; left
              simp [returnedID, CreateVM_ok m req rnd now hv hidx, h']
            · exact Or.inl h'
        · rw [CreateVM_invalid m req rnd now hv] at h'; exact Or.inl h'
      | delete id' =>
        simp only [step, DeleteVM] at h'
        cases hl : m.vms.lookup id' with
        | none => rw [hl] at h'; exact Or.inl h'
        | some vm => rw [hl] at h'; exact Or.inl (AList.mem_erase.1 h').2
      | start id' =>
        simp only [step, StartVM] at h'
        cases hl : m.vms.lookup id' with
        | none => rw [hl] at h'; exact Or.inl h'
        | some vm =>
          rw [hl] at h'
          rcases (AList.mem_insert _).1 h' with h' | h'
          · left; rw [h']; exact AList.lookup_isSome.1 (by rw [hl]; rfl)
          · exact Or.inl h'
      | stop id' =>
        simp only [step, StopVM] at h'
        cases hl : m.vms.lookup id' with
        | none => rw [hl] at h'; exact Or.inl h'
        | some vm =>
          rw [hl] at h'
          rcases (AList.mem_insert _).1 h' with h' | h'
          · left; rw [h']; exact AList.lookup_isSome.1 (by rw [hl]; rfl)
          · exact Or.inl h'
      | get id' => exact Or.inl h'
      | list => exact Or.inl h'
    · exact Or.inr (Or.inr h')

/-- An identifier that no `CreateVM` call of a run on a new instance returned is not
the identifier of a live record. -/
theorem not_live_of_not_returned (cs : List Call) (id : String)
    (h : id ∉ returnedIDs NewInMemoryManager cs) :
    (run NewInMemoryManager cs).vms.lookup id = none := by
  rw [AList.lookup_eq_none]
  intro hmem
  rcases live_of_run cs NewInMemoryManager id hmem with h' | h'
  · simp [NewInMemoryManager] at h'
  · exact h h'

/-! ## CreateVM -/

/-- C3: in every state and for every request, `CreateVM` fails with the
invalid-create-request error exactly when the name is empty or cpu, memory or disk is
not positive (the image plays no part), and then the table and the name index are left
as they were. -/
theorem CreateVM_invalid_iff (m : InMemoryManager) (req : CreateVMRequest) (rnd : Nat → Nat)
    (now : Nat) :
    ((CreateVM m req rnd now).1 = Except.error Error.invalidCreateRequest ↔
      (req.Name = "" ∨ req.CPU ≤ 0 ∨ req.MemoryBytes ≤ 0 ∨ req.DiskBytes ≤ 0)) ∧
    ((req.Name = "" ∨ req.CPU ≤ 0 ∨ req.MemoryBytes ≤ 0 ∨ req.DiskBytes ≤ 0) →
      (CreateVM m req rnd now).2 = m) := by
  by_cases hc : req.Name = "" ∨ req.CPU ≤ 0 ∨ req.MemoryBytes ≤ 0 ∨ req.DiskBytes ≤ 0
  · refine ⟨⟨fun _ => hc, fun _ => ?_⟩, fun _ => ?_⟩ <;> simp [CreateVM, hc]
  · refine ⟨⟨fun h => ?_, fun h => absurd h hc⟩, fun h => absurd h hc⟩
    exfalso
    unfold CreateVM at h
    rw [if_neg hc] at h
    cases hl : m.nameIdx.lookup req.Name with
    | none => rw [hl] at h; cases h
    | some id => rw [hl] at h; cases h

/-! ## Unknown identifiers -/

/-- C4: in every state, for an identifier that is not the identifier of a live record,
`DeleteVM`, `StartVM`, `StopVM` and `GetVM` fail with the not-found error and the table
and the name index are unchanged. (`not_live_of_not_returned`: an identifier that no
earlier `CreateVM` returned is such an identifier.) -/
theorem unknown_id_notFound (m : InMemoryManager) (id : String)
    (h : m.vms.lookup id = none) :
    DeleteVM m id = (Except.error (Error.vmNotFound id), m) ∧
    StartVM m id = (Except.error (Error.vmNotFound id), m) ∧
    StopVM m id = (Except.error (Error.vmNotFound id), m) ∧
    GetVM m id = Except.error (Error.vmNotFound id) := by
  simp [DeleteVM, StartVM, StopVM, GetVM, h, notFound]

theorem unknown_id_notFound_witness :
    sampleState.vms.lookup "00000000-0000-4000-8000-000000000000" = none ∧
    DeleteVM sampleState "00000000-0000-4000-8000-000000000000"
      = (Except.error (Error.vmNotFound "00000000-0000-4000-8000-000000000000"), sampleState) ∧
    StartVM sampleState "00000000-0000-4000-8000-000000000000"
      = (Except.error (Error.vmNotFound "00000000-0000-4000-8000-000000000000"), sampleState) ∧
    StopVM sampleState "00000000-0000-4000-8000-000000000000"
      = (Except.error (Error.vmNotFound "00000000-0000-4000-8000-000000000000"), sampleState) ∧
    GetVM sampleState "00000000-0000-4000-8000-000000000000"
      = Except.error (Error.vmNotFound "00000000-0000-4000-8000-000000000000") :=
  ⟨not_live_of_not_returned sampleCalls _ (by decide),
    unknown_id_notFound sampleState _ (not_live_of_not_returned sampleCalls _ (by decide))⟩

/-! ## ListVMs after a batch of creations -/

/-- The names listed after a batch of valid creations with new names and new
identifiers: the names of the batch, latest first, then those listed before. -/
theorem names_createAll (cs : List CreateCall) (m : InMemoryManager)
    (hv : ∀ c ∈ cs, ValidRequest c.req)
    (hnames : (cs.map fun c => c.req.Name).Nodup)
    (hids : (cs.map fun c => uuidNewString c.rnd).Nodup)
    (hm₁ : ∀ c ∈ cs, m.nameIdx.lookup c.req.Name = none)
    (hm₂ : ∀ c ∈ cs, m.vms.lookup (uuidNewString c.rnd) = none) :
    (ListVMs (createAll m cs)).map VM.Name
      = (cs.map fun c => c.req.Name).reverse ++ (ListVMs m).map VM.Name := by
  induction cs generalizing m with
  | nil => simp [createAll]
  | cons c cs ih =>
    have hc := CreateVM_ok m c.req c.rnd c.now (hv c (List.mem_cons_self _ _))
      (hm₁ c (List.mem_cons_self _ _))
    have hstep : createAll m (c :: cs) = createAll (CreateVM m c.req c.rnd c.now).2 cs := rfl
    rw [List.map_cons, List.nodup_cons] at hnames hids
    rw [hstep, ih _ (fun c' hc' => hv c' (List.mem_cons_of_mem _ hc')) hnames.2 hids.2]
    · rw [hc]
      have hnot : uuidNewString c.rnd ∉ m.vms :=
        AList.lookup_eq_none.1 (hm₂ c (List.mem_cons_self _ _))
      simp only [ListVMs, AList.insert_entries_of_neg hnot]
      simp
    · intro c' hc'
      rw [hc]
      have hne : c'.req.Name ≠ c.req.Name := by
        intro he
        exact hnames.1 (List.mem_map.2 ⟨c', hc', he⟩)
      simp only [AList.lookup_insert_ne hne]
      exact hm₁ c' (List.mem_cons_of_mem _ hc')
    · intro c' hc'
      rw [hc]
      have hne : uuidNewString c'.rnd ≠ uuidNewString c.rnd := by
        intro he
        exact hids.1 (List.mem_map.2 ⟨c', hc', he⟩)
      simp only [AList.lookup_insert_ne hne]
      exact hm₂ c' (List.mem_cons_of_mem _ hc')

/-- C5, as it fails: the valid requests `web` and `db` are applied to a new backend
and both calls read the same random bytes. Both succeed, and `ListVMs` returns one
record, named `db`: two requests, one record, and the name `web` is not listed. -/
theorem ListVMs_after_creates_with_one_draw :
    (CreateVM NewInMemoryManager webRequest (sampleRnd 1) 100).1
      = Except.ok ⟨uuidNewString (sampleRnd 1), "web", 2, 1073741824, 10737418240,
          "base.qcow2", VMStatusStopped, 100⟩ ∧
    (CreateVM (CreateVM NewInMemoryManager webRequest (sampleRnd 1) 100).2 dbRequest
      (sampleRnd 1) 200).1
      = Except.ok ⟨uuidNewString (sampleRnd 1), "db", 4, 2147483648, 21474836480,
          "base.raw", VMStatusStopped, 200⟩ ∧
    ListVMs (createAll NewInMemoryManager
      [⟨webRequest, sampleRnd 1, 100⟩, ⟨dbRequest, sampleRnd 1, 200⟩])
      = [⟨uuidNewString (sampleRnd 1), "db", 4, 2147483648, 21474836480, "base.raw",
          VMStatusStopped, 200⟩] := by
  decide

/-- C5, as the code has it: valid creation requests with pairwise distinct names are
applied to a new backend and the identifiers `uuid.NewString()` returns to them are
pairwise distinct. `ListVMs` then returns as many records as there were requests, and
the names of the records are the requested names, each once, in some order. -/
theorem ListVMs_after_creates (cs : List CreateCall)
    (hv : ∀ c ∈ cs, ValidRequest c.req)
    (hnames : (cs.map fun c => c.req.Name).Nodup)
    (hids : (cs.map fun c => uuidNewString c.rnd).Nodup) :
    (ListVMs (createAll NewInMemoryManager cs)).length = cs.length ∧
    ((ListVMs (createAll NewInMemoryManager cs)).map VM.Name).Perm
      (cs.map fun c => c.req.Name) ∧
    ∀ name : String, name ∈ (ListVMs (createAll NewInMemoryManager cs)).map VM.Name ↔
      name ∈ cs.map fun c => c.req.Name := by
  have h := names_createAll cs NewInMemoryManager hv hnames hids
    (fun c _ => by simp [NewInMemoryManager]) (fun c _ => by simp [NewInMemoryManager])
  have h0 : (ListVMs NewInMemoryManager).map VM.Name = [] := rfl
  rw [h0, List.append_nil] at h
  have hperm : ((ListVMs (createAll NewInMemoryManager cs)).map VM.Name).Perm
      (cs.map fun c => c.req.Name) := by
    rw [h]; exact List.reverse_perm _
  refine ⟨?_, hperm, fun name => hperm.mem_iff⟩
  have hl := hperm.length_eq
  simpa using hl

theorem ListVMs_after_creates_witness :
    (ListVMs (createAll NewInMemoryManager
      [⟨⟨"a", 1, 1, 1, ""⟩, sampleRnd 1, 10⟩, ⟨⟨"b", 2, 2, 2, "x.raw"⟩, sampleRnd 2, 20⟩,
        ⟨⟨"c", 3, 3, 3, "y.qcow2"⟩, sampleRnd 3, 30⟩])).length = 3 ∧
    ((ListVMs (createAll NewInMemoryManager
      [⟨⟨"a", 1, 1, 1, ""⟩, sampleRnd 1, 10⟩, ⟨⟨"b", 2, 2, 2, "x.raw"⟩, sampleRnd 2, 20⟩,
        ⟨⟨"c", 3, 3, 3, "y.qcow2"⟩, sampleRnd 3, 30⟩])).map VM.Name).Perm ["a", "b", "c"] :=
  have h := ListVMs_after_creates
    [⟨⟨"a", 1, 1, 1, ""⟩, sampleRnd 1, 10⟩, ⟨⟨"b", 2, 2, 2, "x.raw"⟩, sampleRnd 2, 20⟩,
      ⟨⟨"c", 3, 3, 3, "y.qcow2"⟩, sampleRnd 3, 30⟩]
    (by decide) (by decide) (by decide)
  ⟨h.1, h.2.1⟩

/-! ## StartVM, StopVM and DeleteVM on a live record -/

/-- C6: in every state and for every identifier of a live record, `StartVM` (resp.
`StopVM`) succeeds; afterwards the record under that identifier has status Running
(resp. Stopped) and the identifier, name, cpu, memory, disk, image and creation time it
had, every other identifier holds the record it held, and the name index is the same. -/
theorem StartVM_StopVM_set_status_only (m : InMemoryManager) (id : String) (vm : VM)
    (h : m.vms.lookup id = some vm) :
    ((StartVM m id).1 = Except.ok () ∧
      (∃ vm' : VM, (StartVM m id).2.vms.lookup id = some vm' ∧
        vm'.Status = VMStatusRunning ∧ vm'.ID = vm.ID ∧ vm'.Name = vm.Name ∧
        vm'.CPU = vm.CPU ∧ vm'.MemoryBytes = vm.MemoryBytes ∧ vm'.DiskBytes = vm.DiskBytes ∧
        vm'.Image = vm.Image ∧ vm'.CreatedAt = vm.CreatedAt) ∧
      (∀ id' : String, id' ≠ id → (StartVM m id).2.vms.lookup id' = m.vms.lookup id') ∧
      (StartVM m id).2.nameIdx = m.nameIdx) ∧
    ((StopVM m id).1 = Except.ok () ∧
      (∃ vm' : VM, (StopVM m id).2.vms.lookup id = some vm' ∧
        vm'.Status = VMStatusStopped ∧ vm'.ID = vm.ID ∧ vm'.Name = vm.Name ∧
        vm'.CPU = vm.CPU ∧ vm'.MemoryBytes = vm.MemoryBytes ∧ vm'.DiskBytes = vm.DiskBytes ∧
        vm'.Image = vm.Image ∧ vm'.CreatedAt = vm.CreatedAt) ∧
      (∀ id' : String, id' ≠ id → (StopVM m id).2.vms.lookup id' = m.vms.lookup id') ∧
      (StopVM m id).2.nameIdx = m.nameIdx) := by
  constructor
  · simp only [StartVM, h]
    refine ⟨trivial, ⟨_, AList.lookup_insert _, rfl, rfl, rfl, rfl, rfl, rfl, rfl, rfl⟩, ?_,
      trivial⟩
    intro id' hne
    exact AList.lookup_insert_ne hne
  · simp only [StopVM, h]
    refine ⟨trivial, ⟨_, AList.lookup_insert _, rfl, rfl, rfl, rfl, rfl, rfl, rfl, rfl⟩, ?_,
      trivial⟩
    intro id' hne
    exact AList.lookup_insert_ne hne

theorem StartVM_StopVM_set_status_only_witness :
    sampleState.vms.lookup (uuidNewString (sampleRnd 2))
      = some ⟨uuidNewString (sampleRnd 2), "db", 4, 2147483648, 21474836480, "base.raw",
          VMStatusStopped, 200⟩ ∧
    (StartVM sampleState (uuidNewString (sampleRnd 2))).1 = Except.ok () ∧
    (StartVM sampleState (uuidNewString (sampleRnd 2))).2.nameIdx = sampleState.nameIdx ∧
    (StopVM sampleState (uuidNewString (sampleRnd 2))).1 = Except.ok () :=
  have h := StartVM_StopVM_set_status_only sampleState (uuidNewString (sampleRnd 2))
    ⟨uuidNewString (sampleRnd 2), "db", 4, 2147483648, 21474836480, "base.raw",
      VMStatusStopped, 200⟩ (by decide)
  ⟨by decide, h.1.1, h.1.2.2.2, h.2.1⟩

end Kvm

end Deusvm


/-! # Properties of the image store -/

namespace Deusvm

namespace Storage

/-! ## The name check of `imagePath` -/

theorem stringsContains_iff (s substr : String) :
    stringsContains s substr = true ↔ List.IsInfix substr.data s.data := by
  unfold stringsContains
  rw [List.any_eq_true, List.infix_iff_prefix_suffix]
  constructor
  · rintro ⟨t, ht, hp⟩
    exact ⟨t, List.isPrefixOf_iff_prefix.1 hp, (List.mem_tails _ _).1 ht⟩
  · rintro ⟨t, hp, ht⟩
    exact ⟨t, (List.mem_tails _ _).2 ht, List.isPrefixOf_iff_prefix.2 hp⟩

theorem stringsContainsRune_iff (s : String) (r : Char) :
    stringsContainsRune s r = true ↔ r ∈ s.data := by
  unfold stringsContainsRune
  rw [List.any_eq_true]
  constructor
  · rintro ⟨c, hc, he⟩
    have : c = r := by simpa using he
    rw [← this]; exact hc
  · intro h
    exact ⟨r, h, by simp⟩

/-- The check of `imagePath` fails on these names: the empty name, a name in which `..`
occurs, a name in which the separator `/` occurs. -/
theorem nameCheck_iff (name : String) :
    (name = "" ∨ stringsContains name ".." = true ∨
        stringsContainsRune name Separator = true) ↔
      (name = "" ∨ List.IsInfix ['.', '.'] name.data ∨ '/' ∈ name.data) := by
  have h1 := stringsContains_iff name ".."
  have h2 := stringsContainsRune_iff name Separator
  have hd : ("..".data : List Char) = ['.', '.'] := rfl
  rw [hd] at h1
  rw [h1, h2]
  rfl

theorem imagePath_of_invalid (m : LocalManager) (name : String)
    (h : name = "" ∨ List.IsInfix ['.', '.'] name.data ∨ '/' ∈ name.data) :
    imagePath m name = Except.error Error.invalidImageName := by
  unfold imagePath
  rw [if_pos ((nameCheck_iff name).2 h)]

theorem imagePath_of_valid (m : LocalManager) (name : String)
    (h : ¬ (name = "" ∨ List.IsInfix ['.', '.'] name.data ∨ '/' ∈ name.data)) :
    imagePath m name = Except.ok (filepathJoin [m.imagesDir, name]) := by
  unfold imagePath
  rw [if_neg (fun hc => h ((nameCheck_iff name).1 hc))]

/-- C9: for every image name that is empty, contains `..` or contains the path
separator, `SaveImageFromURL`, `DeleteImage` and `CreateDiskFromBase` (the name being
its base image name or its disk name) fail with the invalid-image-name error, and the
world is the one before the call: no network or filesystem access is logged and the
files are unchanged. -/
theorem invalid_name_rejected_before_any_access (env : Env) (m : LocalManager) (w : World)
    (name other sourceURL : String) (sizeBytes : Int)
    (h : name = "" ∨ List.IsInfix ['.', '.'] name.data ∨ '/' ∈ name.data) :
    SaveImageFromURL env m w name sourceURL = (Except.error Error.invalidImageName, w) ∧
    DeleteImage env m w name = (Except.error Error.invalidImageName, w) ∧
    CreateDiskFromBase env m w name other sizeBytes
      = (Except.error Error.invalidImageName, w) ∧
    CreateDiskFromBase env m w other name sizeBytes
      = (Except.error Error.invalidImageName, w) := by
  have he := imagePath_of_invalid m name h
  refine ⟨by simp [SaveImageFromURL, he], by simp [DeleteImage, he],
    by simp [CreateDiskFromBase, he], ?_⟩
  unfold CreateDiskFromBase
  by_cases ho : other = "" ∨ List.IsInfix ['.', '.'] other.data ∨ '/' ∈ other.data
  · rw [imagePath_of_invalid m other ho]
  · rw [imagePath_of_valid m other ho, he]

theorem invalid_name_rejected_before_any_access_witness :
    List.IsInfix ['.', '.'] "../../etc/passwd".data ∧
    SaveImageFromURL sampleEnv sampleManager sampleWorld "../../etc/passwd" "http://mirror/x"
      = (Except.error Error.invalidImageName, sampleWorld) ∧
    DeleteImage sampleEnv sampleManager sampleWorld "../../etc/passwd"
      = (Except.error Error.invalidImageName, sampleWorld) ∧
    CreateDiskFromBase sampleEnv sampleManager sampleWorld "../../etc/passwd" "disk0.qcow2" 1024
      = (Except.error Error.invalidImageName, sampleWorld) ∧
    CreateDiskFromBase sampleEnv sampleManager sampleWorld "disk0.qcow2" "../../etc/passwd" 1024
      = (Except.error Error.invalidImageName, sampleWorld) :=
  ⟨by decide,
    invalid_name_rejected_before_any_access sampleEnv sampleManager sampleWorld
      "../../etc/passwd" "disk0.qcow2" "http://mirror/x" 1024 (Or.inr (Or.inl (by decide)))⟩

/-! ## The name `.` -/

/-- C10, at the name `.`: `imagePath` accepts the name and resolves it to the
repository directory itself, not to a child of it. `DeleteImage` then calls
`os.Remove` on the repository directory, and `SaveImageFromURL` creates its temporary
file `images.part` beside the repository directory, not inside it. -/
theorem imagePath_dot_is_the_repository_directory :
    imagePath sampleManager "." = Except.ok "/var/lib/deusvm/images" ∧
    (DeleteImage sampleEnv sampleManager sampleWorld ".").2.log
      = [Access.remove "/var/lib/deusvm/images"] ∧
    (SaveImageFromURL sampleEnv sampleManager sampleWorld "." "http://mirror/x").2.log.take 2
      = [Access.httpGet "http://mirror/x", Access.create "/var/lib/deusvm/images.part"] :=
  ⟨rfl, by decide, by decide⟩

end Storage

end Deusvm

/-! # Properties of a download -/

namespace Deusvm

namespace Storage

/-! ## The primitive accesses, file by file -/

theorem osCreate_lookup (env : Env) (w : World) (path p : String) :
    (osCreate env w path).2.files.lookup p =
      if (osCreate env w path).1 = true ∧ p = path then some [] else w.files.lookup p := by
  unfold osCreate
  by_cases hf : env.fails w.log.length (Access.create path) = true
  · simp [hf, World.logged]
  · by_cases hp : p = path
    · subst hp; simp [hf, World.logged]
    · simp [hf, hp, World.logged]

theorem fileWrite_lookup (env : Env) (w : World) (path p : String) (data : Bytes) :
    (fileWrite env w path data).2.files.lookup p =
      if (fileWrite env w path data).1 = true ∧ p = path
      then some ((w.files.lookup path).getD [] ++ data) else w.files.lookup p := by
  unfold fileWrite
  by_cases hf : env.fails w.log.length (Access.write path data) = true
  · simp [hf, World.logged]
  · by_cases hp : p = path
    · subst hp; simp [hf, World.logged]
    · simp [hf, hp, World.logged]

theorem fileSync_files (env : Env) (w : World) (path : String) :
    (fileSync env w path).2.files = w.files := rfl

theorem osRemove_lookup (env : Env) (w : World) (path p : String) :
    (osRemove env w path).2.files.lookup p =
      if (osRemove env w path).1 = Except.ok () ∧ p = path then none
      else w.files.lookup p := by
  unfold osRemove
  by_cases hf : env.fails w.log.length (Access.remove path) = true
  · simp [hf, World.logged]
  · by_cases hl : w.files.lookup path = none
    · simp [hf, hl, World.logged]
    · by_cases hp : p = path
      · subst hp; simp [hf, hl, World.logged]
      · simp [hf, hl, hp, World.logged]

/-- After `os.Remove(path)` that the filesystem does not refuse there is no file at
`path`: the file is removed, or there was none. -/
theorem osRemove_absent (env : Env) (w : World) (path : String)
    (h : env.fails w.log.length (Access.remove path) = false) :
    (osRemove env w path).2.files.lookup path = none := by
  unfold osRemove
  by_cases hl : w.files.lookup path = none
  · simp [h, hl, World.logged]
  · simp [h, hl, World.logged]

theorem osRename_lookup (env : Env) (w : World) (oldpath newpath p : String) :
    (osRename env w oldpath newpath).2.files.lookup p =
      if (osRename env w oldpath newpath).1 = true then
        (if p = newpath then w.files.lookup oldpath
          else if p = oldpath then none else w.files.lookup p)
      else w.files.lookup p := by
  unfold osRename
  cases hl : w.files.lookup oldpath with
  | none => simp [World.logged]
  | some data =>
    by_cases hf : env.fails w.log.length (Access.rename oldpath newpath) = true
    · simp [hf, World.logged]
    · by_cases hp : p = newpath
      · subst hp; simp [hf, World.logged]
      · by_cases hp' : p = oldpath
        · subst hp'; simp [hf, hp, World.logged]
        · simp [hf, hp, hp', World.logged]

/-! ## The copy of the body -/

/-- The copy of the body touches no file but the temporary one. -/
theorem copyBody_frame (env : Env) (tmp : String) (chunks : List Bytes) (bodyFails : Bool)
    (n : Nat) (hashed : Bytes) (w : World) (p : String) (hp : p ≠ tmp) :
    (copyBody env tmp chunks bodyFails n hashed w).2.2.2.files.lookup p = w.files.lookup p := by
  induction chunks generalizing n hashed w with
  | nil => rfl
  | cons chunk rest ih =>
    unfold copyBody
    have hw := fileWrite_lookup env w tmp p chunk
    rcases hfw : fileWrite env w tmp chunk with ⟨b, w'⟩
    rw [hfw] at hw
    simp only [hp, and_false, if_false] at hw
    cases b with
    | false => exact hw
    | true => simp only; rw [ih, hw]

/-- A copy of the body that succeeds has read the whole body, has counted and hashed
the bytes of all chunks in order, and has appended them to the temporary file. -/
theorem copyBody_ok (env : Env) (tmp : String) (chunks : List Bytes) (bodyFails : Bool)
    (n : Nat) (hashed : Bytes) (w : World) (data : Bytes)
    (hdata : w.files.lookup tmp = some data)
    (h : (copyBody env tmp chunks bodyFails n hashed w).1 = true) :
    bodyFails = false ∧
    (copyBody env tmp chunks bodyFails n hashed w).2.1 = n + chunks.flatten.length ∧
    (copyBody env tmp chunks bodyFails n hashed w).2.2.1 = hashed ++ chunks.flatten ∧
    (copyBody env tmp chunks bodyFails n hashed w).2.2.2.files.lookup tmp
      = some (data ++ chunks.flatten) := by
  induction chunks generalizing n hashed w data with
  | nil =>
    simp only [copyBody] at h ⊢
    refine ⟨by simpa using h, by simp, by simp, by simpa using hdata⟩
  | cons chunk rest ih =>
    unfold copyBody at h ⊢
    have hw := fileWrite_lookup env w tmp tmp chunk
    rcases hfw : fileWrite env w tmp chunk with ⟨b, w'⟩
    rw [hfw] at hw h
    cases b with
    | false => simp at h
    | true =>
      simp only at h ⊢
      simp only [and_self, if_true, hdata, Option.getD_some] at hw
      obtain ⟨h1, h2, h3, h4⟩ := ih (n + chunk.length) (hashed ++ chunk) w' (data ++ chunk) hw h
      refine ⟨h1, ?_, ?_, ?_⟩
      · rw [h2]; simp [Nat.add_assoc]
      · rw [h3]; simp
      · rw [h4]; simp

/-- A body whose last read fails makes the copy fail. -/
theorem copyBody_bodyFails (env : Env) (tmp : String) (chunks : List Bytes)
    (n : Nat) (hashed : Bytes) (w : World) :
    (copyBody env tmp chunks true n hashed w).1 = false := by
  induction chunks generalizing n hashed w with
  | nil => rfl
  | cons chunk rest ih =>
    unfold copyBody
    rcases hfw : fileWrite env w tmp chunk with ⟨b, w'⟩
    cases b with
    | false => rfl
    | true => exact ih _ _ _

/-- With a filesystem that refuses nothing, a body that ends well is copied. -/
theorem copyBody_noFault (env : Env) (tmp : String) (chunks : List Bytes)
    (n : Nat) (hashed : Bytes) (w : World) (hfs : ∀ k a, env.fails k a = false) :
    (copyBody env tmp chunks false n hashed w).1 = true := by
  induction chunks generalizing n hashed w with
  | nil => rfl
  | cons chunk rest ih =>
    unfold copyBody
    have : fileWrite env w tmp chunk = (true, (fileWrite env w tmp chunk).2) := by
      simp [fileWrite, hfs]
    rw [this]
    exact ih _ _ _

end Storage

end Deusvm

namespace Deusvm

namespace Storage

/-! ## SaveImageFromURL once the download has started -/

/-- The digits of `%x` are lower-case hexadecimal digits. -/
theorem hexDigit_mem (n : Nat) : hexDigit n ∈ "0123456789abcdef".data := by
  have h : n % 16 < 16 := Nat.mod_lt _ (by decide)
  unfold hexDigit
  generalize n % 16 = k at h
  interval_cases k <;> decide

theorem hexString_lowercase (digest : Bytes) :
    ∀ c ∈ (hexString digest).data, c ∈ "0123456789abcdef".data := by
  intro c hc
  simp only [hexString, List.mem_flatMap] at hc
  obtain ⟨b, _, hb⟩ := hc
  simp only [hexByte, List.mem_cons, List.mem_singleton, List.not_mem_nil, or_false] at hb
  rcases hb with rfl | rfl <;> exact hexDigit_mem _

theorem hexString_length (digest : Bytes) : (hexString digest).length = 2 * digest.length := by
  simp only [hexString, String.length]
  induction digest with
  | nil => rfl
  | cons b bs ih => simp [List.flatMap_cons, hexByte, ih]; omega

/-- What `SaveImageFromURL` does after the name is accepted, the request is built and
a response with a 2xx status has arrived. -/
theorem SaveImageFromURL_started (env : Env) (m : LocalManager) (w : World)
    (name sourceURL path : String) (resp : Response)
    (hpath : imagePath m name = Except.ok path) (hurl : env.validURL sourceURL = true)
    (hget : env.httpDo sourceURL = some resp)
    (hstatus : 200 ≤ resp.StatusCode ∧ resp.StatusCode < 300) :
    SaveImageFromURL env m w name sourceURL =
      match osCreate env (w.logged (Access.httpGet sourceURL)) (path ++ ".part") with
      | (false, w₁) => (Except.error Error.createTmp, w₁)
      | (true, w₁) =>
        match copyBody env (path ++ ".part") resp.body resp.bodyFails 0 [] w₁ with
        | (false, _, _, w₂) =>
          (Except.error Error.write, (osRemove env w₂ (path ++ ".part")).2)
        | (true, n, hashed, w₂) =>
          match fileSync env w₂ (path ++ ".part") with
          | (false, w₃) => (Except.error Error.sync, (osRemove env w₃ (path ++ ".part")).2)
          | (true, w₃) =>
            match osRename env w₃ (path ++ ".part") path with
            | (false, w₄) =>
              (Except.error Error.rename, (osRemove env w₄ (path ++ ".part")).2)
            | (true, w₄) =>
              (Except.ok
                { Name := name
                  Path := path
                  Size := (n : Int)
                  Format := detectFormatByName name
                  SHA256 := hexString (env.sha256 hashed) }, w₄) := by
  have hs : ¬ (resp.StatusCode < 200 ∨ resp.StatusCode ≥ 300) := by omega
  unfold SaveImageFromURL
  simp only [hpath, hurl, hget, hs, if_false, Bool.true_eq_false]

end Storage

end Deusvm

namespace Deusvm

namespace Storage

/-- C11: the name is accepted and the source answers a GET with a 2xx status and a
body that ends well, delivered in the chunks `resp.body`, whatever they are. A record
returned by `SaveImageFromURL` then has as size the number of bytes of the body and as
digest the lower-case hexadecimal of the SHA-256 of the body, and the file under the
final name holds the bytes of the body; and a record is returned when the filesystem
refuses no access. -/
theorem SaveImageFromURL_size_digest_content (env : Env) (m : LocalManager) (w : World)
    (name sourceURL path : String) (resp : Response)
    (hpath : imagePath m name = Except.ok path) (hurl : env.validURL sourceURL = true)
    (hget : env.httpDo sourceURL = some resp)
    (hstatus : 200 ≤ resp.StatusCode ∧ resp.StatusCode < 300)
    (hbody : resp.bodyFails = false) :
    (∀ (img : Image) (w' : World),
      SaveImageFromURL env m w name sourceURL = (Except.ok img, w') →
        img.Size = (resp.body.flatten.length : Int) ∧
        img.SHA256 = hexString (env.sha256 resp.body.flatten) ∧
        (∀ c ∈ img.SHA256.data, c ∈ "0123456789abcdef".data) ∧
        img.Name = name ∧ img.Path = path ∧
        w'.files.lookup path = some resp.body.flatten) ∧
    ((∀ k a, env.fails k a = false) →
      ∃ (img : Image) (w' : World),
        SaveImageFromURL env m w name sourceURL = (Except.ok img, w')) := by
  rw [SaveImageFromURL_started env m w name sourceURL path resp hpath hurl hget hstatus]
  have hc := osCreate_lookup env (w.logged (Access.httpGet sourceURL)) (path ++ ".part")
    (path ++ ".part")
  constructor
  · intro img w' h
    rcases h₁ : osCreate env (w.logged (Access.httpGet sourceURL)) (path ++ ".part")
      with ⟨b₁, w₁⟩
    rw [h₁] at h hc
    cases b₁ with
    | false => simp at h
    | true =>
      simp only [and_self, if_true] at hc
      dsimp only at h
      have hk := copyBody_ok env (path ++ ".part") resp.body resp.bodyFails 0 [] w₁ [] hc
      rcases h₂ : copyBody env (path ++ ".part") resp.body resp.bodyFails 0 [] w₁
        with ⟨b₂, n, hashed, w₂⟩
      rw [h₂] at h hk
      cases b₂ with
      | false => simp at h
      | true =>
        obtain ⟨_, hn, hh, hf⟩ := hk rfl
        simp only [Nat.zero_add, List.nil_append] at hn hh hf
        dsimp only at h
        have hs := fileSync_files env w₂ (path ++ ".part")
        rcases h₃ : fileSync env w₂ (path ++ ".part") with ⟨b₃, w₃⟩
        rw [h₃] at h hs
        cases b₃ with
        | false => simp at h
        | true =>
          dsimp only at h
          have hr := osRename_lookup env w₃ (path ++ ".part") path path
          rcases h₄ : osRename env w₃ (path ++ ".part") path with ⟨b₄, w₄⟩
          rw [h₄] at h hr
          cases b₄ with
          | false => simp at h
          | true =>
            simp only [if_true] at hr
            dsimp only at h
            simp only [Prod.mk.injEq, Except.ok.injEq] at h
            obtain ⟨himg, hw⟩ := h
            subst himg
            subst hw
            subst hn
            subst hh
            refine ⟨rfl, rfl, hexString_lowercase _, rfl, rfl, ?_⟩
            rw [hr]
            simp only at hs
            rw [hs, hf]
  · intro hfs
    have h₁ : osCreate env (w.logged (Access.httpGet sourceURL)) (path ++ ".part")
        = (true, (osCreate env (w.logged (Access.httpGet sourceURL)) (path ++ ".part")).2) := by
      simp [osCreate, hfs]
    rw [h₁] at hc ⊢
    simp only [and_self, if_true] at hc
    dsimp only
    generalize (osCreate env (w.logged (Access.httpGet sourceURL)) (path ++ ".part")).2 = w₁
      at hc ⊢
    have hb := copyBody_noFault env (path ++ ".part") resp.body 0 [] w₁ hfs
    rw [hbody]
    have hk := copyBody_ok env (path ++ ".part") resp.body false 0 [] w₁ [] hc hb
    rcases h₂ : copyBody env (path ++ ".part") resp.body false 0 [] w₁
      with ⟨b₂, n, hashed, w₂⟩
    rw [h₂] at hb hk
    simp only at hb
    subst hb
    dsimp only
    have h₃ : fileSync env w₂ (path ++ ".part") = (true, w₂.logged (Access.sync (path ++ ".part"))) := by
      simp [fileSync, hfs]
    rw [h₃]
    dsimp only
    have hl : (w₂.logged (Access.sync (path ++ ".part"))).files.lookup (path ++ ".part")
        = some ([] ++ resp.body.flatten) := hk.2.2.2
    have h₄ : (osRename env (w₂.logged (Access.sync (path ++ ".part"))) (path ++ ".part")
        path).1 = true := by
      simp [osRename, hl, hfs]
    rcases h₅ : osRename env (w₂.logged (Access.sync (path ++ ".part"))) (path ++ ".part")
      path with ⟨b₄, w₄⟩
    rw [h₅] at h₄
    simp only at h₄
    subst h₄
    exact ⟨_, _, rfl⟩

theorem osCreate_refused (env : Env) (w : World) (path : String) :
    (osCreate env w path).1 = false → (osCreate env w path).2.files = w.files := by
  unfold osCreate
  split
  · intro _; rfl
  · intro h; cases h

/-- C12, as it fails: the repository holds the image `base.qcow2`; a download under that
name whose transfer fails after two bytes returns the `write` error, and afterwards the
repository still holds the file `base.qcow2`, with the bytes it had. -/
theorem failed_transfer_keeps_the_existing_image :
    sampleWorld.files.lookup "/var/lib/deusvm/images/base.qcow2" = some [1, 2, 3] ∧
    (SaveImageFromURL brokenEnv sampleManager sampleWorld "base.qcow2" "http://mirror/x").1
      = Except.error Error.write ∧
    (SaveImageFromURL brokenEnv sampleManager sampleWorld "base.qcow2"
      "http://mirror/x").2.files.lookup "/var/lib/deusvm/images/base.qcow2"
      = some [1, 2, 3] := by
  decide

/-- C12, as the code has it: the name is accepted and the source answers a GET with a
2xx status and a body whose transfer fails after the chunks `resp.body`.
`SaveImageFromURL` then returns an error and the file under the final name is what it
was before the call (none if there was none); when `os.Remove` of the temporary file is
not refused, no temporary file is left: there is no file at the temporary path, or
`os.Create` was refused and no file was touched. -/
theorem SaveImageFromURL_failed_transfer (env : Env) (m : LocalManager) (w : World)
    (name sourceURL path : String) (resp : Response)
    (hpath : imagePath m name = Except.ok path) (hurl : env.validURL sourceURL = true)
    (hget : env.httpDo sourceURL = some resp)
    (hstatus : 200 ≤ resp.StatusCode ∧ resp.StatusCode < 300)
    (hbody : resp.bodyFails = true)
    (hrm : ∀ k, env.fails k (Access.remove (path ++ ".part")) = false) :
    (∃ err : Error, (SaveImageFromURL env m w name sourceURL).1 = Except.error err) ∧
    (SaveImageFromURL env m w name sourceURL).2.files.lookup path = w.files.lookup path ∧
    ((SaveImageFromURL env m w name sourceURL).2.files.lookup (path ++ ".part") = none ∨
      (SaveImageFromURL env m w name sourceURL).2.files = w.files) := by
  have hne : path ≠ path ++ ".part" := by
    intro h
    have := congrArg String.length h
    simp [String.length_append] at this
    exact absurd this (by decide)
  rw [SaveImageFromURL_started env m w name sourceURL path resp hpath hurl hget hstatus]
  have hc := osCreate_lookup env (w.logged (Access.httpGet sourceURL)) (path ++ ".part") path
  have hcf := osCreate_refused env (w.logged (Access.httpGet sourceURL)) (path ++ ".part")
  rcases h₁ : osCreate env (w.logged (Access.httpGet sourceURL)) (path ++ ".part")
    with ⟨b₁, w₁⟩
  rw [h₁] at hc hcf
  simp only [hne, and_false, if_false] at hc
  cases b₁ with
  | false => exact ⟨⟨_, rfl⟩, hc, Or.inr (hcf rfl)⟩
  | true =>
    dsimp only
    have hb := copyBody_bodyFails env (path ++ ".part") resp.body 0 [] w₁
    have hfr := copyBody_frame env (path ++ ".part") resp.body true 0 [] w₁ path hne
    rw [hbody]
    rcases h₂ : copyBody env (path ++ ".part") resp.body true 0 [] w₁
      with ⟨b₂, n, hashed, w₂⟩
    rw [h₂] at hb hfr
    simp only at hb hfr
    subst hb
    dsimp only
    refine ⟨⟨_, rfl⟩, ?_, Or.inl (osRemove_absent env w₂ _ (hrm _))⟩
    rw [osRemove_lookup, if_neg (fun h => hne h.2)]
    rw [hfr, hc]
    rfl

end Storage

end Deusvm

/-! # Paths: `filepath.Join` of a directory and a file name -/

namespace Deusvm

namespace Storage

theorem cleanLoop_nil (r : Bool) (f : Nat) (out : List Char) (dd : Nat) :
    cleanLoop r f [] out dd = out := by
  cases f <;> rfl

theorem dropWhile_notSep_length (c : Char) (rest : List Char) (hc : c ≠ '/') :
    (List.dropWhile (fun x => x ≠ '/') (c :: rest)).length ≤ rest.length := by
  rw [List.dropWhile_cons_of_pos (by simpa using hc)]
  exact (List.dropWhile_sublist _).length_le

/-- The rounds of `cleanLoop` are bounded by the length of the path: more fuel changes
nothing. -/
theorem cleanLoop_fuel (r : Bool) (f₁ : Nat) :
    ∀ (f₂ : Nat) (path out : List Char) (dd : Nat), path.length ≤ f₁ → path.length ≤ f₂ →
      cleanLoop r f₁ path out dd = cleanLoop r f₂ path out dd := by
  induction f₁ with
  | zero =>
    intro f₂ path out dd h₁ _
    have : path = [] := List.length_eq_zero.1 (by omega)
    subst this
    rw [cleanLoop_nil, cleanLoop_nil]
  | succ f₁ ih =>
    intro f₂ path out dd h₁ h₂
    cases path with
    | nil => rw [cleanLoop_nil, cleanLoop_nil]
    | cons c rest =>
      cases f₂ with
      | zero => simp at h₂
      | succ f₂ =>
        have hr : rest.length ≤ f₁ := by simpa using h₁
        have hr₂ : rest.length ≤ f₂ := by simpa using h₂
        have ht : rest.tail.length ≤ rest.length := by simp
        by_cases h1 : c = '/'
        · simp only [cleanLoop, if_pos h1]
          exact ih _ _ _ _ hr hr₂
        · have hd := dropWhile_notSep_length c rest h1
          simp only [cleanLoop, if_neg h1]
          split_ifs <;> apply ih <;> omega

end Storage

end Deusvm

namespace Deusvm

namespace Storage

theorem head?_append_sep (l p : List Char) :
    (l ++ '/' :: p).head? = some '/' ↔ l = [] ∨ l.head? = some '/' := by
  cases l with
  | nil => simp
  | cons a t => simp

theorem head?_append_dot (l p : List Char) :
    (l ++ '/' :: p).head? = some '.' ↔ l.head? = some '.' := by
  cases l with
  | nil => simp
  | cons a t => simp

/-- The test for a `.` element gives the same answer when a separator and more follow
the path. -/
theorem dotElement_append (c : Char) (rest p : List Char) :
    (c = '.' ∧ (rest ++ '/' :: p = [] ∨ (rest ++ '/' :: p).head? = some '/')) ↔
      (c = '.' ∧ (rest = [] ∨ rest.head? = some '/')) := by
  rw [head?_append_sep]
  simp

/-- The test for a `..` element gives the same answer when a separator and more
follow the path. -/
theorem dotdotElement_append (c : Char) (rest p : List Char) :
    (c = '.' ∧ (rest ++ '/' :: p).head? = some '.' ∧
        ((rest ++ '/' :: p).tail = [] ∨ (rest ++ '/' :: p).tail.head? = some '/')) ↔
      (c = '.' ∧ rest.head? = some '.' ∧ (rest.tail = [] ∨ rest.tail.head? = some '/')) := by
  rw [head?_append_dot]
  cases rest with
  | nil => simp
  | cons a t =>
    simp only [List.cons_append, List.tail_cons, head?_append_sep]
    simp

theorem takeWhile_notSep_append (l p : List Char) :
    List.takeWhile (fun x => x ≠ '/') (l ++ '/' :: p) = List.takeWhile (fun x => x ≠ '/') l := by
  induction l with
  | nil => rw [List.nil_append, List.takeWhile_cons_of_neg (by simp)]; rfl
  | cons a t ih =>
    by_cases ha : a = '/'
    · rw [List.cons_append, List.takeWhile_cons_of_neg (by simpa using ha),
        List.takeWhile_cons_of_neg (by simpa using ha)]
    · rw [List.cons_append, List.takeWhile_cons_of_pos (by simpa using ha),
        List.takeWhile_cons_of_pos (by simpa using ha), ih]

theorem dropWhile_notSep_append (l p : List Char) :
    List.dropWhile (fun x => x ≠ '/') (l ++ '/' :: p)
      = List.dropWhile (fun x => x ≠ '/') l ++ '/' :: p := by
  induction l with
  | nil => rw [List.nil_append, List.dropWhile_cons_of_neg (by simp)]; rfl
  | cons a t ih =>
    by_cases ha : a = '/'
    · rw [List.cons_append, List.dropWhile_cons_of_neg (by simpa using ha),
        List.dropWhile_cons_of_neg (by simpa using ha)]
      rfl
    · rw [List.cons_append, List.dropWhile_cons_of_pos (by simpa using ha),
        List.dropWhile_cons_of_pos (by simpa using ha), ih]

/-- One round of the loop of `filepath.Clean`. -/
theorem cleanLoop_cons (r : Bool) (f : Nat) (c : Char) (rest out : List Char) (dd : Nat) :
    cleanLoop r (f + 1) (c :: rest) out dd =
      if c = '/' then cleanLoop r f rest out dd
      else if c = '.' ∧ (rest = [] ∨ rest.head? = some '/') then cleanLoop r f rest out dd
      else if c = '.' ∧ rest.head? = some '.' ∧
          (rest.tail = [] ∨ rest.tail.head? = some '/') then
        if dd < out.length then
          cleanLoop r f rest.tail (out.take (cleanBackUp out dd (out.length - 1))) dd
        else if r = false then
          cleanLoop r f rest.tail
            ((if 0 < out.length then out ++ ['/'] else out) ++ ['.', '.'])
            ((if 0 < out.length then out ++ ['/'] else out) ++ ['.', '.']).length
        else
          cleanLoop r f rest.tail out dd
      else
        cleanLoop r f (List.dropWhile (fun x => x ≠ '/') (c :: rest))
          ((if (r = true ∧ out.length ≠ 1) ∨ (r = false ∧ out.length ≠ 0)
              then out ++ ['/'] else out) ++ List.takeWhile (fun x => x ≠ '/') (c :: rest))
          dd := by
  simp only [cleanLoop]

/-- The loop of `filepath.Clean` reads a path element by element: on `p₁` followed by a
separator and `p₂` it is, after `p₁`, in the state in which it ends on `p₁` alone. -/
theorem cleanLoop_append (r : Bool) (n : Nat) :
    ∀ (p₁ : List Char), p₁.length ≤ n → ∀ (out : List Char) (dd : Nat),
      ∃ (out₁ : List Char) (dd₁ : Nat),
        (∀ f, p₁.length ≤ f → cleanLoop r f p₁ out dd = out₁) ∧
        (∀ (p₂ : List Char) (f : Nat), p₁.length + 1 + p₂.length ≤ f →
          cleanLoop r f (p₁ ++ '/' :: p₂) out dd
            = cleanLoop r (p₂.length + 1) ('/' :: p₂) out₁ dd₁) := by
  induction n with
  | zero =>
    intro p₁ hp out dd
    have : p₁ = [] := List.length_eq_zero.1 (by omega)
    subst this
    refine ⟨out, dd, fun f _ => cleanLoop_nil r f out dd, fun p₂ f hf => ?_⟩
    exact cleanLoop_fuel r f _ _ _ _ (by simp at hf ⊢; omega) (by simp)
  | succ n ih =>
    intro p₁ hp out dd
    cases p₁ with
    | nil =>
      refine ⟨out, dd, fun f _ => cleanLoop_nil r f out dd, fun p₂ f hf => ?_⟩
      exact cleanLoop_fuel r f _ _ _ _ (by simp at hf ⊢; omega) (by simp)
    | cons c rest =>
      have hrest : rest.length ≤ n := by simpa using hp
      by_cases h1 : c = '/'
      · obtain ⟨out₁, dd₁, ha, hb⟩ := ih rest hrest out dd
        refine ⟨out₁, dd₁, fun f hf => ?_, fun p₂ f hf => ?_⟩
        · cases f with
          | zero => simp at hf
          | succ f =>
            rw [cleanLoop_cons, if_pos h1]
            exact ha f (by simpa using hf)
        · cases f with
          | zero => simp at hf
          | succ f =>
            rw [List.cons_append, cleanLoop_cons, if_pos h1]
            exact hb p₂ f (by simp at hf; omega)
      · by_cases h2 : c = '.' ∧ (rest = [] ∨ rest.head? = some '/')
        · obtain ⟨out₁, dd₁, ha, hb⟩ := ih rest hrest out dd
          refine ⟨out₁, dd₁, fun f hf => ?_, fun p₂ f hf => ?_⟩
          · cases f with
            | zero => simp at hf
            | succ f =>
              rw [cleanLoop_cons, if_neg h1, if_pos h2]
              exact ha f (by simpa using hf)
          · cases f with
            | zero => simp at hf
            | succ f =>
              rw [List.cons_append, cleanLoop_cons, if_neg h1, if_pos ((dotElement_append c rest p₂).2 h2)]
              exact hb p₂ f (by simp at hf; omega)
        · have h2' := fun p₂ => mt (dotElement_append c rest p₂).1 h2
          by_cases h3 : c = '.' ∧ rest.head? = some '.' ∧
              (rest.tail = [] ∨ rest.tail.head? = some '/')
          · have h3' := fun p₂ => (dotdotElement_append c rest p₂).2 h3
            have htl : rest.tail.length ≤ n := le_trans (by simp) hrest
            have hne : rest ≠ [] := by
              intro h; rw [h] at h3; simp at h3
            have htail : ∀ p₂ : List Char, (rest ++ '/' :: p₂).tail = rest.tail ++ '/' :: p₂ :=
              fun p₂ => List.tail_append_of_ne_nil hne
            have hlen : rest.tail.length + 1 = rest.length := by
              cases rest with
              | nil => exact absurd rfl hne
              | cons a t => simp
            by_cases h4 : dd < out.length
            · obtain ⟨out₁, dd₁, ha, hb⟩ := ih rest.tail htl
                (out.take (cleanBackUp out dd (out.length - 1))) dd
              refine ⟨out₁, dd₁, fun f hf => ?_, fun p₂ f hf => ?_⟩
              · cases f with
                | zero => simp at hf
                | succ f =>
                  rw [cleanLoop_cons, if_neg h1, if_neg h2, if_pos h3, if_pos h4]
                  exact ha f (by simp at hf; omega)
              · cases f with
                | zero => simp at hf
                | succ f =>
                  rw [List.cons_append, cleanLoop_cons, if_neg h1, if_neg (h2' p₂), if_pos (h3' p₂), if_pos h4, htail]
                  exact hb p₂ f (by simp at hf; omega)
            · by_cases h5 : r = false
              · obtain ⟨out₁, dd₁, ha, hb⟩ := ih rest.tail htl
                  ((if 0 < out.length then out ++ ['/'] else out) ++ ['.', '.'])
                  ((if 0 < out.length then out ++ ['/'] else out) ++ ['.', '.']).length
                refine ⟨out₁, dd₁, fun f hf => ?_, fun p₂ f hf => ?_⟩
                · cases f with
                  | zero => simp at hf
                  | succ f =>
                    rw [cleanLoop_cons, if_neg h1, if_neg h2, if_pos h3, if_neg h4, if_pos h5]
                    exact ha f (by simp at hf; omega)
                · cases f with
                  | zero => simp at hf
                  | succ f =>
                    rw [List.cons_append, cleanLoop_cons, if_neg h1, if_neg (h2' p₂), if_pos (h3' p₂), if_neg h4, if_pos h5, htail]
                    exact hb p₂ f (by simp at hf; omega)
              · obtain ⟨out₁, dd₁, ha, hb⟩ := ih rest.tail htl out dd
                refine ⟨out₁, dd₁, fun f hf => ?_, fun p₂ f hf => ?_⟩
                · cases f with
                  | zero => simp at hf
                  | succ f =>
                    rw [cleanLoop_cons, if_neg h1, if_neg h2, if_pos h3, if_neg h4, if_neg h5]
                    exact ha f (by simp at hf; omega)
                · cases f with
                  | zero => simp at hf
                  | succ f =>
                    rw [List.cons_append, cleanLoop_cons, if_neg h1, if_neg (h2' p₂), if_pos (h3' p₂), if_neg h4, if_neg h5, htail]
                    exact hb p₂ f (by simp at hf; omega)
          · have h3' := fun p₂ => mt (dotdotElement_append c rest p₂).1 h3
            have hd := dropWhile_notSep_length c rest h1
            obtain ⟨out₁, dd₁, ha, hb⟩ := ih (List.dropWhile (fun x => x ≠ '/') (c :: rest))
              (le_trans hd hrest)
              ((if (r = true ∧ out.length ≠ 1) ∨ (r = false ∧ out.length ≠ 0)
                  then out ++ ['/'] else out) ++ List.takeWhile (fun x => x ≠ '/') (c :: rest))
              dd
            refine ⟨out₁, dd₁, fun f hf => ?_, fun p₂ f hf => ?_⟩
            · cases f with
              | zero => simp at hf
              | succ f =>
                rw [cleanLoop_cons, if_neg h1, if_neg h2, if_neg h3]
                exact ha f (by simp at hf; omega)
            · cases f with
              | zero => simp at hf
              | succ f =>
                have ht := takeWhile_notSep_append (c :: rest) p₂
                have hdw := dropWhile_notSep_append (c :: rest) p₂
                simp only [List.cons_append] at ht hdw
                rw [List.cons_append, cleanLoop_cons, if_neg h1, if_neg (h2' p₂), if_neg (h3' p₂), ht, hdw]
                exact hb p₂ f (by simp at hf; omega)

end Storage

end Deusvm

namespace Deusvm

namespace Storage

/-- The loop of `filepath.Clean` on a single element that is a file name: the element
is appended to the buffer, after a separator where one is needed. -/
theorem cleanLoop_fileName (r : Bool) (f : Nat) (l out : List Char) (dd : Nat)
    (hl : l ≠ []) (hdot : l ≠ ['.']) (hdd : l ≠ ['.', '.']) (hsep : '/' ∉ l)
    (hf : l.length ≤ f) :
    cleanLoop r f l out dd =
      (if (r = true ∧ out.length ≠ 1) ∨ (r = false ∧ out.length ≠ 0)
        then out ++ ['/'] else out) ++ l := by
  cases l with
  | nil => exact absurd rfl hl
  | cons c rest =>
    cases f with
    | zero => simp at hf
    | succ f =>
      have h1 : c ≠ '/' := fun h => hsep (by rw [h]; exact List.mem_cons_self _ _)
      have hrest : '/' ∉ rest := fun h => hsep (List.mem_cons_of_mem _ h)
      have hhead : ∀ t : List Char, '/' ∉ t → t.head? ≠ some '/' := by
        intro t ht h
        cases t with
        | nil => simp at h
        | cons a t' =>
          simp only [List.head?_cons, Option.some.injEq] at h
          exact ht (by rw [h]; exact List.mem_cons_self _ _)
      have h2 : ¬ (c = '.' ∧ (rest = [] ∨ rest.head? = some '/')) := by
        rintro ⟨hc, hr | hr⟩
        · exact hdot (by rw [hc, hr])
        · exact hhead rest hrest hr
      have h3 : ¬ (c = '.' ∧ rest.head? = some '.' ∧
          (rest.tail = [] ∨ rest.tail.head? = some '/')) := by
        rintro ⟨hc, hh, ht⟩
        cases rest with
        | nil => simp at hh
        | cons a t =>
          simp only [List.head?_cons, Option.some.injEq] at hh
          simp only [List.tail_cons] at ht
          rcases ht with ht | ht
          · exact hdd (by rw [hc, hh, ht])
          · exact hhead t (fun h => hrest (List.mem_cons_of_mem _ h)) ht
      have hall : ∀ x ∈ c :: rest, (fun x => decide (x ≠ '/')) x = true := by
        intro x hx
        simp only [decide_eq_true_eq]
        intro h
        exact hsep (by rw [← h]; exact hx)
      have htake : List.takeWhile (fun x => x ≠ '/') (c :: rest) = c :: rest :=
        List.takeWhile_eq_self_iff.2 hall
      have hdrop : List.dropWhile (fun x => x ≠ '/') (c :: rest) = [] :=
        List.dropWhile_eq_nil_iff.2 hall
      rw [cleanLoop_cons, if_neg h1, if_neg h2, if_neg h3, htake, hdrop, cleanLoop_nil]

/-- The loop of `filepath.Clean` on the single element `.`: the buffer is unchanged. -/
theorem cleanLoop_dot (r : Bool) (f : Nat) (out : List Char) (dd : Nat) :
    cleanLoop r (f + 1) ['.'] out dd = out := by
  rw [cleanLoop_cons, if_neg (by decide), if_pos ⟨rfl, Or.inl rfl⟩, cleanLoop_nil]

theorem string_ne_empty_of_data (s : String) (h : s.data ≠ []) : s ≠ "" := by
  intro hs
  rw [hs] at h
  exact h rfl

theorem isFileName_iff (n : String) :
    isFileName n = true ↔
      n.data ≠ [] ∧ n.data ≠ ['.'] ∧ n.data ≠ ['.', '.'] ∧ '/' ∉ n.data := by
  have e1 : n = "" ↔ n.data = [] := by
    constructor
    · intro h; rw [h]
    · intro h; exact String.ext h
  have e2 : n = "." ↔ n.data = ['.'] := by
    constructor
    · intro h; rw [h]
    · intro h; exact String.ext h
  have e3 : n = ".." ↔ n.data = ['.', '.'] := by
    constructor
    · intro h; rw [h]
    · intro h; exact String.ext h
  simp only [isFileName, decide_eq_true_eq, ne_eq, e1, e2, e3]

theorem filepathClean_rooted (path : String) (h : path.data.head? = some '/') :
    (filepathClean path).data =
      if cleanLoop true path.data.length path.data.tail ['/'] 1 = [] then ['.']
      else cleanLoop true path.data.length path.data.tail ['/'] 1 := by
  have hne : path ≠ "" := by
    apply string_ne_empty_of_data
    intro h'
    rw [h'] at h
    simp at h
  unfold filepathClean
  rw [if_neg hne]
  simp only [h, decide_True, if_true]

theorem filepathClean_unrooted (path : String) (hne : path.data ≠ [])
    (h : path.data.head? ≠ some '/') :
    (filepathClean path).data =
      if cleanLoop false path.data.length path.data [] 0 = [] then ['.']
      else cleanLoop false path.data.length path.data [] 0 := by
  unfold filepathClean
  rw [if_neg (string_ne_empty_of_data path hne)]
  simp only [h, decide_False, Bool.false_eq_true, if_false]

/-- `filepath.Join(dir, name)` for the file names `name`: a prefix that only depends
on `dir`, followed by the name. The prefix is the cleaned directory `out₁`, with a
separator where one is needed, and `filepath.Join(dir, ".")` is `out₁` itself (`.` if
`out₁` is empty). -/
theorem filepathJoin_fileName (dir : String) :
    ∃ (out₁ sep : List Char), (sep = out₁ ∨ sep = out₁ ++ ['/']) ∧
      (filepathJoin [dir, "."]).data = (if out₁ = [] then ['.'] else out₁) ∧
      ∀ n : String, isFileName n = true → (filepathJoin [dir, n]).data = sep ++ n.data := by
  have hdot : (".":String).data = ['.'] := rfl
  by_cases hdir : dir = ""
  · subst hdir
    refine ⟨[], [], Or.inl rfl, rfl, fun n hn => ?_⟩
    obtain ⟨h1, h2, h3, h4⟩ := (isFileName_iff n).1 hn
    have hne : n ≠ "" := string_ne_empty_of_data n h1
    have hroot : n.data.head? ≠ some '/' := by
      intro h
      cases hd : n.data with
      | nil => exact h1 hd
      | cons a t =>
        rw [hd] at h h4
        simp only [List.head?_cons, Option.some.injEq] at h
        exact h4 (by rw [h]; exact List.mem_cons_self _ _)
    have hj : filepathJoin ["", n] = filepathClean n := by
      simp [filepathJoin, hne, String.intercalate, String.intercalate.go]
    rw [hj, filepathClean_unrooted n h1 hroot,
      cleanLoop_fileName false _ n.data [] 0 h1 h2 h3 h4 (le_refl _)]
    simp [h1]
  · have hd : dir.data ≠ [] := fun h => hdir (String.ext h)
    have hj : ∀ n : String, filepathJoin [dir, n] = filepathClean (dir ++ "/" ++ n) := by
      intro n
      simp [filepathJoin, hdir, String.intercalate, String.intercalate.go]
    have hdata : ∀ n : String, (dir ++ "/" ++ n).data = dir.data ++ '/' :: n.data := by
      intro n; simp
    have hhead : ∀ n : String, (dir.data ++ '/' :: n.data).head? = dir.data.head? := by
      intro n
      cases hdd : dir.data with
      | nil => exact absurd hdd hd
      | cons a t => rfl
    have htail : ∀ n : String,
        (dir.data ++ '/' :: n.data).tail = dir.data.tail ++ '/' :: n.data :=
      fun n => List.tail_append_of_ne_nil hd
    have hlen : ∀ n : String,
        (dir.data ++ '/' :: n.data).length = dir.data.length + 1 + n.data.length := by
      intro n
      rw [List.length_append, List.length_cons]
      omega
    have htl : dir.data.tail.length + 1 = dir.data.length := by
      cases hdd : dir.data with
      | nil => exact absurd hdd hd
      | cons a t => simp
    by_cases hroot : dir.data.head? = some '/'
    · obtain ⟨out₁, dd₁, _, hb⟩ :=
        cleanLoop_append true dir.data.tail.length dir.data.tail (le_refl _) ['/'] 1
      have hstep : ∀ n : String,
          cleanLoop true (dir.data ++ '/' :: n.data).length (dir.data ++ '/' :: n.data).tail
            ['/'] 1 = cleanLoop true n.data.length n.data out₁ dd₁ := by
        intro n
        rw [htail, hlen, hb _ _ (by omega), cleanLoop_cons, if_pos rfl]
      refine ⟨out₁, if (true = true ∧ out₁.length ≠ 1) ∨ (true = false ∧ out₁.length ≠ 0)
        then out₁ ++ ['/'] else out₁, ?_, ?_, fun n hn => ?_⟩
      · split
        · exact Or.inr rfl
        · exact Or.inl rfl
      · rw [hj, filepathClean_rooted _ (by rw [hdata, hhead]; exact hroot), hdata, hstep, hdot]
        rw [show cleanLoop true ['.'].length ['.'] out₁ dd₁ = out₁ from
          cleanLoop_dot true 0 out₁ dd₁]
      · obtain ⟨h1, h2, h3, h4⟩ := (isFileName_iff n).1 hn
        rw [hj, filepathClean_rooted _ (by rw [hdata, hhead]; exact hroot), hdata, hstep,
          cleanLoop_fileName true _ n.data out₁ dd₁ h1 h2 h3 h4 (le_refl _)]
        rw [if_neg (by simp [h1])]
    · obtain ⟨out₁, dd₁, _, hb⟩ :=
        cleanLoop_append false dir.data.length dir.data (le_refl _) [] 0
      have hstep : ∀ n : String,
          cleanLoop false (dir.data ++ '/' :: n.data).length (dir.data ++ '/' :: n.data)
            [] 0 = cleanLoop false n.data.length n.data out₁ dd₁ := by
        intro n
        rw [hlen, hb _ _ (le_refl _), cleanLoop_cons, if_pos rfl]
      have hne : ∀ n : String, (dir ++ "/" ++ n).data ≠ [] := by
        intro n
        rw [hdata]
        simp
      refine ⟨out₁, if (false = true ∧ out₁.length ≠ 1) ∨ (false = false ∧ out₁.length ≠ 0)
        then out₁ ++ ['/'] else out₁, ?_, ?_, fun n hn => ?_⟩
      · split
        · exact Or.inr rfl
        · exact Or.inl rfl
      · rw [hj, filepathClean_unrooted _ (hne _) (by rw [hdata, hhead]; exact hroot), hdata,
          hstep, hdot]
        rw [show cleanLoop false ['.'].length ['.'] out₁ dd₁ = out₁ from
          cleanLoop_dot false 0 out₁ dd₁]
      · obtain ⟨h1, h2, h3, h4⟩ := (isFileName_iff n).1 hn
        rw [hj, filepathClean_unrooted _ (hne _) (by rw [hdata, hhead]; exact hroot), hdata,
          hstep, cleanLoop_fileName false _ n.data out₁ dd₁ h1 h2 h3 h4 (le_refl _)]
        rw [if_neg (by simp [h1])]

end Storage

end Deusvm

/-! # Properties of DeleteImage and ListImages -/

namespace Deusvm

namespace Storage

/-- Two file names that `filepath.Join` puts at the same path of a directory are the
same name. -/
theorem filepathJoin_injective (dir n₁ n₂ : String) (h₁ : isFileName n₁ = true)
    (h₂ : isFileName n₂ = true) (h : filepathJoin [dir, n₁] = filepathJoin [dir, n₂]) :
    n₁ = n₂ := by
  obtain ⟨out₁, sep, _, _, hj⟩ := filepathJoin_fileName dir
  have e := congrArg String.data h
  rw [hj n₁ h₁, hj n₂ h₂] at e
  exact String.ext (List.append_cancel_left e)

/-- The path `filepath.Join(dir, ".")` is not the path of a file name in `dir`. -/
theorem filepathJoin_dot_ne (dir n : String) (hn : isFileName n = true) :
    filepathJoin [dir, "."] ≠ filepathJoin [dir, n] := by
  obtain ⟨out₁, sep, hsep, hdot, hj⟩ := filepathJoin_fileName dir
  obtain ⟨h1, h2, _, h4⟩ := (isFileName_iff n).1 hn
  intro h
  have e := congrArg String.data h
  rw [hdot, hj n hn] at e
  have hlen := congrArg List.length e
  by_cases ho : out₁ = []
  · subst ho
    rw [if_pos rfl] at e
    rcases hsep with hs | hs
    · rw [hs] at e
      exact h2 e.symm
    · rw [hs] at e
      simp only [List.nil_append, List.singleton_append] at e
      have := (List.cons.inj e).1
      exact absurd this (by decide)
  · rw [if_neg ho] at hlen
    rcases hsep with hs | hs
    · rw [hs, List.length_append] at hlen
      have : n.data.length = 0 := by omega
      exact h1 (List.length_eq_zero.1 this)
    · rw [hs] at hlen
      simp only [List.length_append, List.length_singleton] at hlen
      omega

/-- A name that `imagePath` accepts is a file name or `.`, and its path is
`filepath.Join(imagesDir, name)`. -/
theorem imagePath_ok (m : LocalManager) (name path : String)
    (h : imagePath m name = Except.ok path) :
    path = filepathJoin [m.imagesDir, name] ∧ (isFileName name = true ∨ name = ".") := by
  by_cases hc : name = "" ∨ List.IsInfix ['.', '.'] name.data ∨ '/' ∈ name.data
  · rw [imagePath_of_invalid m name hc] at h
    cases h
  · rw [imagePath_of_valid m name hc] at h
    refine ⟨(Except.ok.inj h).symm, ?_⟩
    by_cases hd : name = "."
    · exact Or.inr hd
    · left
      rw [isFileName_iff]
      simp only [not_or] at hc
      refine ⟨fun h' => hc.1 (String.ext h'), fun h' => hd (String.ext h'), fun h' => ?_, hc.2.2⟩
      exact hc.2.1 (by rw [h'])

theorem entryName_some (dir path n : String) (h : entryName dir path = some n) :
    isFileName n = true ∧ filepathJoin [dir, n] = path := by
  unfold entryName at h
  split at h
  · rename_i hc
    cases h
    exact hc
  · cases h

/-- The records `ListImages` returns: one for every file of the world that is an entry
of the repository directory, with the name of the entry and the size of the file. -/
theorem mem_ListImages (env : Env) (m : LocalManager) (w : World) (imgs : List Image)
    (h : (ListImages env m w).1 = Except.ok imgs) (img : Image) :
    img ∈ imgs ↔ ∃ (p : String) (data : Bytes) (n : String),
      w.files.lookup p = some data ∧ entryName m.imagesDir p = some n ∧
      img = imageOfEntry m (n, data) := by
  unfold ListImages at h
  split at h
  · cases h
  · cases h
    simp only [readDir, List.mem_map, List.mem_insertionSort, List.mem_filterMap,
      Option.map_eq_some']
    constructor
    · rintro ⟨e, ⟨⟨p, data⟩, hmem, n, hn, rfl⟩, rfl⟩
      exact ⟨p, data, n, Option.mem_def.1 (AList.mem_lookup_iff.2 hmem), hn, rfl⟩
    · rintro ⟨p, data, n, hl, hn, rfl⟩
      exact ⟨(n, data), ⟨⟨p, data⟩, AList.mem_lookup_iff.1 (Option.mem_def.2 hl), n, hn, rfl⟩,
        rfl⟩

/-- C14: the name is accepted and the filesystem does not refuse the removal. If a file
exists at the path of the name, `DeleteImage` succeeds and a following `ListImages` has
no entry with that name and has every entry with another name that was listed before;
if no file exists there, `DeleteImage` fails with the `remove` error that wraps the
no-such-file error of the filesystem and the files are unchanged. -/
theorem DeleteImage_then_ListImages (env : Env) (m : LocalManager) (w : World)
    (name path : String) (hpath : imagePath m name = Except.ok path)
    (hrm : env.fails w.log.length (Access.remove path) = false) :
    (∀ data : Bytes, w.files.lookup path = some data →
      (DeleteImage env m w name).1 = Except.ok () ∧
      (env.fails (DeleteImage env m w name).2.log.length (Access.readDir m.imagesDir) = false →
        ∃ after : List Image,
          (ListImages env m (DeleteImage env m w name).2).1 = Except.ok after) ∧
      ∀ after : List Image,
        (ListImages env m (DeleteImage env m w name).2).1 = Except.ok after →
          (∀ img ∈ after, img.Name ≠ name) ∧
          ∀ before : List Image, (ListImages env m w).1 = Except.ok before →
            ∀ img ∈ before, img.Name ≠ name → img ∈ after) ∧
    (w.files.lookup path = none →
      (DeleteImage env m w name).1 = Except.error (Error.remove OSError.notExist) ∧
      (DeleteImage env m w name).2.files = w.files) := by
  obtain ⟨hp, hname⟩ := imagePath_ok m name path hpath
  constructor
  · intro data hdata
    have hdel : DeleteImage env m w name
        = (Except.ok (), { w.logged (Access.remove path) with files := w.files.erase path }) := by
      simp [DeleteImage, hpath, osRemove, hrm, hdata]
    rw [hdel]
    refine ⟨rfl, fun hrd => ⟨_, by simp only [ListImages, hrd]; rfl⟩, fun after hafter => ⟨?_, ?_⟩⟩
    · intro img himg hn
      obtain ⟨p, d, n, hl, he, rfl⟩ := (mem_ListImages env m _ after hafter img).1 himg
      obtain ⟨_, hj⟩ := entryName_some _ _ _ he
      have hn' : n = name := hn
      have : p = path := by rw [hp, ← hj, hn']
      rw [this] at hl
      simp at hl
    · intro before hbefore img himg hn
      obtain ⟨p, d, n, hl, he, rfl⟩ := (mem_ListImages env m _ before hbefore img).1 himg
      obtain ⟨hfn, hj⟩ := entryName_some _ _ _ he
      have hne : p ≠ path := by
        intro hpp
        rw [hpp, hp] at hj
        rcases hname with hname | hname
        · exact hn (filepathJoin_injective _ _ _ hfn hname hj)
        · rw [hname] at hj
          exact filepathJoin_dot_ne _ _ hfn hj.symm
      refine (mem_ListImages env m _ after hafter _).2 ⟨p, d, n, ?_, he, rfl⟩
      simp only [AList.lookup_erase_ne hne]
      exact hl
  · intro hnone
    simp [DeleteImage, hpath, osRemove, hrm, hnone, World.logged]

end Storage

end Deusvm

/-! # Samples of a download, of a failed transfer and of a removal -/

namespace Deusvm

namespace Storage

theorem SaveImageFromURL_size_digest_content_witness :
    imagePath sampleManager "new.raw" = Except.ok "/var/lib/deusvm/images/new.raw" ∧
    ∃ (img : Image) (w' : World),
      SaveImageFromURL sampleEnv sampleManager sampleWorld "new.raw" "http://mirror/x"
        = (Except.ok img, w') ∧
      img.Size = 3 ∧ img.SHA256 = "03" ∧
      w'.files.lookup "/var/lib/deusvm/images/new.raw" = some [7, 8, 9] :=
  have h := SaveImageFromURL_size_digest_content sampleEnv sampleManager sampleWorld "new.raw"
    "http://mirror/x" "/var/lib/deusvm/images/new.raw" ⟨200, "200 OK", [[7, 8], [9]], false⟩
    rfl rfl rfl (by decide) rfl
  match h.2 (fun _ _ => rfl) with
  | ⟨img, w', e⟩ => ⟨rfl, img, w', e, (h.1 img w' e).1, (h.1 img w' e).2.1, (h.1 img w' e).2.2.2.2.2⟩

theorem SaveImageFromURL_failed_transfer_witness :
    imagePath sampleManager "new.raw" = Except.ok "/var/lib/deusvm/images/new.raw" ∧
    (∃ err : Error,
      (SaveImageFromURL brokenEnv sampleManager sampleWorld "new.raw" "http://mirror/x").1
        = Except.error err) ∧
    (SaveImageFromURL brokenEnv sampleManager sampleWorld "new.raw"
      "http://mirror/x").2.files.lookup "/var/lib/deusvm/images/new.raw" = none ∧
    (SaveImageFromURL brokenEnv sampleManager sampleWorld "new.raw"
      "http://mirror/x").2.files.lookup "/var/lib/deusvm/images/new.raw.part" = none :=
  have h := SaveImageFromURL_failed_transfer brokenEnv sampleManager sampleWorld "new.raw"
    "http://mirror/x" "/var/lib/deusvm/images/new.raw" ⟨200, "200 OK", [[7, 8]], true⟩
    rfl rfl rfl (by decide) rfl (fun _ => rfl)
  ⟨rfl, h.1, h.2.1, by decide⟩

theorem DeleteImage_then_ListImages_witness :
    imagePath sampleManager "base.qcow2" = Except.ok "/var/lib/deusvm/images/base.qcow2" ∧
    sampleWorld.files.lookup "/var/lib/deusvm/images/base.qcow2" = some [1, 2, 3] ∧
    (ListImages sampleEnv sampleManager sampleWorld).1
      = Except.ok [⟨"base.qcow2", "/var/lib/deusvm/images/base.qcow2", 3, "qcow2", ""⟩] ∧
    (DeleteImage sampleEnv sampleManager sampleWorld "base.qcow2").1 = Except.ok () ∧
    (ListImages sampleEnv sampleManager
      (DeleteImage sampleEnv sampleManager sampleWorld "base.qcow2").2).1 = Except.ok [] ∧
    (DeleteImage sampleEnv sampleManager
      (DeleteImage sampleEnv sampleManager sampleWorld "base.qcow2").2 "base.qcow2").1
      = Except.error (Error.remove OSError.notExist) :=
  have h := DeleteImage_then_ListImages sampleEnv sampleManager sampleWorld "base.qcow2"
    "/var/lib/deusvm/images/base.qcow2" rfl rfl
  have h' := DeleteImage_then_ListImages sampleEnv sampleManager
    (DeleteImage sampleEnv sampleManager sampleWorld "base.qcow2").2 "base.qcow2"
    "/var/lib/deusvm/images/base.qcow2" rfl rfl
  ⟨rfl, by decide, by decide, (h.1 [1, 2, 3] (by decide)).1, by decide, (h'.2 (by decide)).1⟩

end Storage

end Deusvm

/-! # The worlds between the accesses of a call -/

namespace Deusvm

namespace Storage

/-- The writes of the body touch no file but the temporary one, in any of the worlds
they go through. -/
theorem copyBodySteps_frame (env : Env) (tmp : String) (chunks : List Bytes) (w : World)
    (p : String) (hp : p ≠ tmp) :
    ∀ w' ∈ copyBodySteps env tmp chunks w, w'.files.lookup p = w.files.lookup p := by
  induction chunks generalizing w with
  | nil => intro w' h; simp [copyBodySteps] at h
  | cons chunk rest ih =>
    intro w' h
    unfold copyBodySteps at h
    have hw := fileWrite_lookup env w tmp p chunk
    rcases hfw : fileWrite env w tmp chunk with ⟨b, w₁⟩
    rw [hfw] at hw h
    rw [if_neg (fun hc => hp hc.2)] at hw
    cases b with
    | false =>
      dsimp only at h
      rw [List.mem_singleton] at h
      rw [h]; exact hw
    | true =>
      dsimp only at h
      rcases List.mem_cons.1 h with h | h
      · rw [h]; exact hw
      · rw [ih w₁ w' h]; exact hw

/-- The last of the worlds the writes of the body go through is the world `copyBody`
returns. -/
theorem copyBodySteps_last (env : Env) (tmp : String) (chunks : List Bytes) (bodyFails : Bool)
    (n : Nat) (hashed : Bytes) (w : World) :
    ((copyBodySteps env tmp chunks w).getLast?).getD w
      = (copyBody env tmp chunks bodyFails n hashed w).2.2.2 := by
  induction chunks generalizing n hashed w with
  | nil => rfl
  | cons chunk rest ih =>
    unfold copyBodySteps copyBody
    rcases hfw : fileWrite env w tmp chunk with ⟨b, w₁⟩
    cases b with
    | false => rfl
    | true =>
      dsimp only
      rw [← ih (n + chunk.length) (hashed ++ chunk) w₁]
      cases hs : copyBodySteps env tmp rest w₁ with
      | nil => rfl
      | cons a t =>
        rw [List.getLast?_cons_cons, List.getLast?_eq_getLast _ (List.cons_ne_nil a t)]
        rfl

/-- C13, as it fails: in a world `SaveImageFromURL` goes through, `ListImages` shows the
entry `new.raw.part` with 2 of the 3 bytes of the download; in a world
`CreateDiskFromBase` goes through, it shows the disk under its final name `disk0.qcow2`
with none of the 3 bytes of the base image. -/
theorem partial_files_are_listed :
    (∃ w' ∈ SaveImageFromURLSteps sampleEnv sampleManager sampleWorld "new.raw"
        "http://mirror/x",
      (ListImages sampleEnv sampleManager w').1 = Except.ok
        [⟨"base.qcow2", "/var/lib/deusvm/images/base.qcow2", 3, "qcow2", ""⟩,
          ⟨"new.raw.part", "/var/lib/deusvm/images/new.raw.part", 2, "unknown", ""⟩]) ∧
    (∃ w' ∈ CreateDiskFromBaseSteps sampleEnv sampleManager sampleWorld "base.qcow2"
        "disk0.qcow2" 3,
      (ListImages sampleEnv sampleManager w').1 = Except.ok
        [⟨"base.qcow2", "/var/lib/deusvm/images/base.qcow2", 3, "qcow2", ""⟩,
          ⟨"disk0.qcow2", "/var/lib/deusvm/images/disk0.qcow2", 0, "qcow2", ""⟩]) := by
  decide

end Storage

end Deusvm

namespace Deusvm

namespace Storage

theorem path_ne_part (path : String) : path ≠ path ++ ".part" := by
  intro h
  have := congrArg String.length h
  simp [String.length_append] at this
  exact absurd this (by decide)

theorem getLast?_append_cons {α : Type} (l t : List α) (a : α) (d : α) :
    ((l ++ a :: t).getLast?).getD d = ((a :: t).getLast?).getD d := by
  rw [List.getLast?_append]
  rw [List.getLast?_eq_getLast _ (List.cons_ne_nil a t)]
  rfl

/-- C13, for the final name of `SaveImageFromURL`: the worlds the call goes through
end with the world it returns, and in every one of them the file under the final name
is the file that was there before the call (none if there was none) or holds all the
bytes of a body that ended well. -/
theorem SaveImageFromURL_final_name_whole (env : Env) (m : LocalManager) (w : World)
    (name sourceURL path : String) (hpath : imagePath m name = Except.ok path) :
    ((SaveImageFromURLSteps env m w name sourceURL).getLast?).getD w
      = (SaveImageFromURL env m w name sourceURL).2 ∧
    ∀ w' ∈ SaveImageFromURLSteps env m w name sourceURL,
      w'.files.lookup path = w.files.lookup path ∨
      ∃ resp : Response, env.httpDo sourceURL = some resp ∧ resp.bodyFails = false ∧
        w'.files.lookup path = some resp.body.flatten := by
  have hne := path_ne_part path
  unfold SaveImageFromURLSteps SaveImageFromURL
  rw [hpath]
  dsimp only
  by_cases hurl : env.validURL sourceURL = false
  · rw [if_pos hurl, if_pos hurl]
    exact ⟨rfl, fun w' h => by simp at h⟩
  rw [if_neg hurl, if_neg hurl]
  cases hget : env.httpDo sourceURL with
  | none =>
    dsimp only
    refine ⟨rfl, fun w' h => ?_⟩
    rw [List.mem_singleton] at h
    rw [h]; exact Or.inl rfl
  | some resp =>
    dsimp only
    by_cases hs : resp.StatusCode < 200 ∨ resp.StatusCode ≥ 300
    · rw [if_pos hs, if_pos hs]
      refine ⟨rfl, fun w' h => ?_⟩
      rw [List.mem_singleton] at h
      rw [h]; exact Or.inl rfl
    rw [if_neg hs, if_neg hs]
    have hc := osCreate_lookup env (w.logged (Access.httpGet sourceURL)) (path ++ ".part") path
    have hct := osCreate_lookup env (w.logged (Access.httpGet sourceURL)) (path ++ ".part")
      (path ++ ".part")
    rw [if_neg (fun h => hne h.2)] at hc
    rcases h₁ : osCreate env (w.logged (Access.httpGet sourceURL)) (path ++ ".part")
      with ⟨b₁, w₁⟩
    rw [h₁] at hc hct
    have hc' : w₁.files.lookup path = w.files.lookup path := hc
    cases b₁ with
    | false =>
      dsimp only
      refine ⟨rfl, fun w' h => ?_⟩
      simp only [List.mem_cons, List.mem_singleton, List.not_mem_nil, or_false] at h
      rcases h with h | h
      · rw [h]; exact Or.inl rfl
      · rw [h]; exact Or.inl hc'
    | true =>
      dsimp only
      simp only [and_self, if_true] at hct
      have hsteps := copyBodySteps_frame env (path ++ ".part") resp.body w₁ path hne
      have hfr := copyBody_frame env (path ++ ".part") resp.body resp.bodyFails 0 [] w₁ path hne
      have hk := copyBody_ok env (path ++ ".part") resp.body resp.bodyFails 0 [] w₁ [] hct
      rcases h₂ : copyBody env (path ++ ".part") resp.body resp.bodyFails 0 [] w₁
        with ⟨b₂, n, hashed, w₂⟩
      rw [h₂] at hfr hk
      have hw₂ : w₂.files.lookup path = w.files.lookup path := by rw [← hc']; exact hfr
      have hhead : ∀ w' ∈ [w.logged (Access.httpGet sourceURL), w₁] ++
          copyBodySteps env (path ++ ".part") resp.body w₁,
          w'.files.lookup path = w.files.lookup path := by
        intro w' h
        simp only [List.mem_append, List.mem_cons, List.mem_singleton, List.not_mem_nil,
          or_false] at h
        rcases h with (h | h) | h
        · rw [h]; rfl
        · rw [h]; exact hc'
        · rw [hsteps w' h]; exact hc'
      have hrm : ∀ w₀ : World, w₀.files.lookup path = w.files.lookup path →
          (osRemove env w₀ (path ++ ".part")).2.files.lookup path = w.files.lookup path := by
        intro w₀ h
        rw [osRemove_lookup, if_neg (fun hc => hne hc.2)]
        exact h
      cases b₂ with
      | false =>
        dsimp only
        refine ⟨getLast?_append_cons _ _ _ _, fun w' h => ?_⟩
        rcases List.mem_append.1 h with h | h
        · exact Or.inl (hhead w' h)
        · rw [List.mem_singleton] at h
          rw [h]; exact Or.inl (hrm w₂ hw₂)
      | true =>
        dsimp only
        obtain ⟨hbf, _, _, hf⟩ := hk rfl
        simp only [List.nil_append] at hf
        have hs₃ := fileSync_files env w₂ (path ++ ".part")
        rcases h₃ : fileSync env w₂ (path ++ ".part") with ⟨b₃, w₃⟩
        rw [h₃] at hs₃
        have hw₃ : w₃.files.lookup path = w.files.lookup path := by
          rw [show w₃.files = w₂.files from hs₃]; exact hw₂
        cases b₃ with
        | false =>
          dsimp only
          refine ⟨getLast?_append_cons _ _ _ _, fun w' h => ?_⟩
          rcases List.mem_append.1 h with h | h
          · exact Or.inl (hhead w' h)
          · simp only [List.mem_cons, List.mem_singleton, List.not_mem_nil, or_false] at h
            rcases h with h | h
            · rw [h]; exact Or.inl hw₃
            · rw [h]; exact Or.inl (hrm w₃ hw₃)
        | true =>
          dsimp only
          have hr := osRename_lookup env w₃ (path ++ ".part") path path
          rcases h₄ : osRename env w₃ (path ++ ".part") path with ⟨b₄, w₄⟩
          rw [h₄] at hr
          cases b₄ with
          | false =>
            dsimp only
            simp only [Bool.false_eq_true, if_false] at hr
            have hw₄ : w₄.files.lookup path = w.files.lookup path := by rw [hr]; exact hw₃
            refine ⟨getLast?_append_cons _ _ _ _, fun w' h => ?_⟩
            rcases List.mem_append.1 h with h | h
            · exact Or.inl (hhead w' h)
            · simp only [List.mem_cons, List.mem_singleton, List.not_mem_nil, or_false] at h
              rcases h with h | h | h
              · rw [h]; exact Or.inl hw₃
              · rw [h]; exact Or.inl hw₄
              · rw [h]; exact Or.inl (hrm w₄ hw₄)
          | true =>
            dsimp only
            simp only [if_true] at hr
            refine ⟨getLast?_append_cons _ _ _ _, fun w' h => ?_⟩
            rcases List.mem_append.1 h with h | h
            · exact Or.inl (hhead w' h)
            · simp only [List.mem_cons, List.mem_singleton, List.not_mem_nil, or_false] at h
              rcases h with h | h
              · rw [h]; exact Or.inl hw₃
              · rw [h]
                refine Or.inr ⟨resp, rfl, hbf, ?_⟩
                rw [hr, show w₃.files = w₂.files from hs₃, hf]

end Storage

end Deusvm

/-! # Properties of CreateDiskFromBase and of detectFormatByName -/

namespace Deusvm

namespace Storage

theorem SaveImageFromURL_final_name_whole_witness :
    imagePath sampleManager "new.raw" = Except.ok "/var/lib/deusvm/images/new.raw" ∧
    ∀ w' ∈ SaveImageFromURLSteps sampleEnv sampleManager sampleWorld "new.raw"
        "http://mirror/x",
      w'.files.lookup "/var/lib/deusvm/images/new.raw"
        = sampleWorld.files.lookup "/var/lib/deusvm/images/new.raw" ∨
      ∃ resp : Response, sampleEnv.httpDo "http://mirror/x" = some resp ∧
        resp.bodyFails = false ∧
        w'.files.lookup "/var/lib/deusvm/images/new.raw" = some resp.body.flatten :=
  ⟨rfl, (SaveImageFromURL_final_name_whole sampleEnv sampleManager sampleWorld "new.raw"
    "http://mirror/x" "/var/lib/deusvm/images/new.raw" rfl).2⟩

/-- C15, at `diskName = baseImageName`: the base image `base.qcow2` holds 3 bytes;
`CreateDiskFromBase("base.qcow2", "base.qcow2", 3)` succeeds and returns the path of the
image, and afterwards the file under that name holds no byte: `os.Create` has
truncated the base image before the copy read it. -/
theorem CreateDiskFromBase_onto_itself_empties_the_base :
    sampleWorld.files.lookup "/var/lib/deusvm/images/base.qcow2" = some [1, 2, 3] ∧
    (CreateDiskFromBase sampleEnv sampleManager sampleWorld "base.qcow2" "base.qcow2" 3).1
      = Except.ok "/var/lib/deusvm/images/base.qcow2" ∧
    (CreateDiskFromBase sampleEnv sampleManager sampleWorld "base.qcow2" "base.qcow2"
      3).2.files.lookup "/var/lib/deusvm/images/base.qcow2" = some [] := by
  decide

/-- A `CreateDiskFromBase` that succeeds with two different paths leaves under the
disk name the bytes of the base image, and the base image as it was. -/
theorem CreateDiskFromBase_copies (env : Env) (m : LocalManager) (w : World)
    (baseImageName diskName base out : String) (sizeBytes : Int) (data : Bytes)
    (hbase : imagePath m baseImageName = Except.ok base)
    (hout : imagePath m diskName = Except.ok out) (hne : base ≠ out)
    (hdata : w.files.lookup base = some data) (w' : World) (p : String)
    (h : CreateDiskFromBase env m w baseImageName diskName sizeBytes = (Except.ok p, w')) :
    p = out ∧ w'.files.lookup out = some data ∧ w'.files.lookup base = some data := by
  unfold CreateDiskFromBase at h
  rw [hbase, hout] at h
  dsimp only at h
  have ho : (osOpen env w base).2.files = w.files := rfl
  rcases h₁ : osOpen env w base with ⟨b₁, w₁⟩
  rw [h₁] at h ho
  cases b₁ with
  | false => simp at h
  | true =>
    dsimp only at h ho
    have hc₁ := osCreate_lookup env w₁ out out
    have hc₂ := osCreate_lookup env w₁ out base
    rw [if_neg (fun hc => hne hc.2)] at hc₂
    rcases h₂ : osCreate env w₁ out with ⟨b₂, w₂⟩
    rw [h₂] at h hc₁ hc₂
    cases b₂ with
    | false => simp at h
    | true =>
      dsimp only at h hc₁ hc₂
      simp only [and_self, if_true] at hc₁
      rw [ho, hdata] at hc₂
      have hcp : (copyFile env w₂ base out).1 = true →
          (copyFile env w₂ base out).2.files.lookup out = some data ∧
          (copyFile env w₂ base out).2.files.lookup base = some data := by
        unfold copyFile
        split
        · intro hf; cases hf
        · intro _
          simp [World.logged, hc₁, hc₂, AList.lookup_insert_ne hne]
      rcases h₃ : copyFile env w₂ base out with ⟨b₃, w₃⟩
      rw [h₃] at h hcp
      cases b₃ with
      | false => simp at h
      | true =>
        dsimp only at h
        obtain ⟨hk₁, hk₂⟩ := hcp rfl
        have hs := fileSync_files env w₃ out
        rcases h₄ : fileSync env w₃ out with ⟨b₄, w₄⟩
        rw [h₄] at h hs
        cases b₄ with
        | false => simp at h
        | true =>
          dsimp only at h hs
          simp only [Prod.mk.injEq, Except.ok.injEq] at h
          obtain ⟨hp, hw⟩ := h
          subst hp
          subst hw
          rw [hs]
          exact ⟨rfl, hk₁, hk₂⟩

/-! ## detectFormatByName -/

theorem stringsHasSuffix_toLower_iff (name suffix : String)
    (hs : suffix.data.map Char.toLower = suffix.data) :
    stringsHasSuffix (stringsToLower name) suffix = true ↔ endsWithIgnoringCase name suffix := by
  unfold stringsHasSuffix stringsToLower endsWithIgnoringCase
  rw [List.isSuffixOf_iff_suffix, hs]
  constructor
  · rintro ⟨t, ht⟩
    obtain ⟨front, back, h1, _, h3⟩ := List.map_eq_append_iff.1 ht.symm
    exact ⟨front, back, h1, h3⟩
  · rintro ⟨front, back, h1, h2⟩
    refine ⟨front.map Char.toLower, ?_⟩
    show _ = List.map Char.toLower name.data
    rw [h1, List.map_append, h2]

/-- A name does not end both with `.qcow2` and with `.raw`. -/
theorem not_qcow2_of_raw (name : String) (h : endsWithIgnoringCase name ".raw") :
    ¬ endsWithIgnoringCase name ".qcow2" := by
  rintro ⟨f₂, b₂, e₂, hb₂⟩
  obtain ⟨f₁, b₁, e₁, hb₁⟩ := h
  have h₁ : (name.data.map Char.toLower).getLast? = some 'w' := by
    rw [e₁, List.map_append, hb₁]
    simp [List.getLast?_append]
  have h₂ : (name.data.map Char.toLower).getLast? = some '2' := by
    rw [e₂, List.map_append, hb₂]
    simp [List.getLast?_append]
  rw [h₁] at h₂
  exact absurd h₂ (by decide)

/-- C16: for every file name, `detectFormatByName` is `qcow2` exactly when the name
ends with `.qcow2` compared without regard to case, `raw` exactly when it ends so with
`.raw`, and `unknown` otherwise; it is always one of the three. -/
theorem detectFormatByName_by_suffix (name : String) :
    (detectFormatByName name = "qcow2" ↔ endsWithIgnoringCase name ".qcow2") ∧
    (detectFormatByName name = "raw" ↔ endsWithIgnoringCase name ".raw") ∧
    (detectFormatByName name = "unknown" ↔
      ¬ endsWithIgnoringCase name ".qcow2" ∧ ¬ endsWithIgnoringCase name ".raw") ∧
    (detectFormatByName name = "qcow2" ∨ detectFormatByName name = "raw" ∨
      detectFormatByName name = "unknown") := by
  have hq := stringsHasSuffix_toLower_iff name ".qcow2" (by decide)
  have hr := stringsHasSuffix_toLower_iff name ".raw" (by decide)
  have hnq := not_qcow2_of_raw name
  unfold detectFormatByName
  by_cases h1 : stringsHasSuffix (stringsToLower name) ".qcow2" = true
  · have e1 := hq.1 h1
    rw [if_pos h1]
    refine ⟨⟨fun _ => e1, fun _ => rfl⟩, ⟨fun h => absurd h (by decide), fun h => absurd e1 (hnq h)⟩,
      ⟨fun h => absurd h (by decide), fun h => absurd e1 h.1⟩, Or.inl rfl⟩
  · have e1 : ¬ endsWithIgnoringCase name ".qcow2" := fun h => h1 (hq.2 h)
    rw [if_neg h1]
    by_cases h2 : stringsHasSuffix (stringsToLower name) ".raw" = true
    · have e2 := hr.1 h2
      rw [if_pos h2]
      refine ⟨⟨fun h => absurd h (by decide), fun h => absurd h e1⟩, ⟨fun _ => e2, fun _ => rfl⟩,
        ⟨fun h => absurd h (by decide), fun h => absurd e2 h.2⟩, Or.inr (Or.inl rfl)⟩
    · have e2 : ¬ endsWithIgnoringCase name ".raw" := fun h => h2 (hr.2 h)
      rw [if_neg h2]
      refine ⟨⟨fun h => absurd h (by decide), fun h => absurd h e1⟩,
        ⟨fun h => absurd h (by decide), fun h => absurd h e2⟩,
        ⟨fun _ => ⟨e1, e2⟩, fun _ => rfl⟩, Or.inr (Or.inr rfl)⟩

end Storage

end Deusvm

/-! # Properties of the libvirt backend -/

namespace Deusvm

namespace Kvm

/-- The in-memory `CreateVM` returns the invalid-create-request error exactly on the
condition of its first `if`. -/
theorem inMemory_invalid_iff (m : InMemoryManager) (req : CreateVMRequest) (rnd : Nat → Nat)
    (now : Nat) :
    (CreateVM m req rnd now).1 = Except.error Error.invalidCreateRequest ↔
      (req.Name = "" ∨ req.CPU ≤ 0 ∨ req.MemoryBytes ≤ 0 ∨ req.DiskBytes ≤ 0) := by
  by_cases hc : req.Name = "" ∨ req.CPU ≤ 0 ∨ req.MemoryBytes ≤ 0 ∨ req.DiskBytes ≤ 0
  · simp [CreateVM, hc]
  · refine ⟨fun h => ?_, fun h => absurd h hc⟩
    exfalso
    unfold CreateVM at h
    rw [if_neg hc] at h
    cases hl : m.nameIdx.lookup req.Name with
    | none => rw [hl] at h; cases h
    | some id => rw [hl] at h; cases h

/-- C17, as it fails: a request with disk size 0 and an image is rejected as invalid by
the in-memory backend and not by the libvirt backend; a request with a disk size and no
image is rejected as invalid by the libvirt backend and not by the in-memory backend. -/
theorem backends_validate_differently :
    (CreateVM NewInMemoryManager ⟨"web", 2, 1073741824, 0, "base.qcow2"⟩ (sampleRnd 1) 0).1
      = Except.error Error.invalidCreateRequest ∧
    LibvirtManager.CreateVM sampleLibvirt sampleControlPlane
      ⟨"web", 2, 1073741824, 0, "base.qcow2"⟩ 0 ≠ Except.error Error.invalidCreateRequest ∧
    (CreateVM NewInMemoryManager ⟨"web", 2, 1073741824, 10737418240, ""⟩ (sampleRnd 1) 0).1
      ≠ Except.error Error.invalidCreateRequest ∧
    LibvirtManager.CreateVM sampleLibvirt sampleControlPlane
      ⟨"web", 2, 1073741824, 10737418240, ""⟩ 0 = Except.error Error.invalidCreateRequest := by
  decide

/-- C17, as the code has it: `LibvirtManager.CreateVM` rejects a request as invalid
exactly when the name is empty or cpu <= 0 or memoryBytes <= 0 or the image is empty;
it does not look at diskBytes. On the requests with an image and a positive disk size
it rejects exactly the requests the in-memory backend rejects. -/
theorem LibvirtManager_CreateVM_invalid_iff (l : LibvirtManager) (cp : ControlPlane)
    (req : CreateVMRequest) (now : Nat) :
    (l.CreateVM cp req now = Except.error Error.invalidCreateRequest ↔
      (req.Name = "" ∨ req.CPU ≤ 0 ∨ req.MemoryBytes ≤ 0 ∨ req.Image = "")) ∧
    (∀ (m : InMemoryManager) (rnd : Nat → Nat), req.Image ≠ "" → 0 < req.DiskBytes →
      (l.CreateVM cp req now = Except.error Error.invalidCreateRequest ↔
        (CreateVM m req rnd now).1 = Except.error Error.invalidCreateRequest)) := by
  have h1 : l.CreateVM cp req now = Except.error Error.invalidCreateRequest ↔
      (req.Name = "" ∨ req.CPU ≤ 0 ∨ req.MemoryBytes ≤ 0 ∨ req.Image = "") := by
    by_cases hc : req.Name = "" ∨ req.CPU ≤ 0 ∨ req.MemoryBytes ≤ 0 ∨ req.Image = ""
    · simp [LibvirtManager.CreateVM, hc]
    · refine ⟨fun h => ?_, fun h => absurd h hc⟩
      exfalso
      unfold LibvirtManager.CreateVM at h
      rw [if_neg hc] at h
      by_cases hcon : cp.connects = false
      · rw [if_pos hcon] at h; cases h
      · rw [if_neg hcon] at h
        split at h <;> cases h
  refine ⟨h1, fun m rnd himg hdisk => ?_⟩
  rw [h1, inMemory_invalid_iff]
  constructor
  · rintro (h | h | h | h)
    · exact Or.inl h
    · exact Or.inr (Or.inl h)
    · exact Or.inr (Or.inr (Or.inl h))
    · exact absurd h himg
  · rintro (h | h | h | h)
    · exact Or.inl h
    · exact Or.inr (Or.inl h)
    · exact Or.inr (Or.inr (Or.inl h))
    · exact absurd h (not_le.2 hdisk)

/-! ## The records of GetVM and ListVMs -/

theorem toInt64_of_range (n : Int) (h₁ : -9223372036854775808 ≤ n)
    (h₂ : n < 9223372036854775808) : toInt64 n = n := by
  unfold toInt64
  omega

theorem memoryBytes_of_small (k : Nat) (h : k < 9007199254740992) :
    toInt64 (toInt64 (k : Int) * 1024) = (k : Int) * 1024 := by
  rw [toInt64_of_range (k : Int) (by omega) (by omega)]
  exact toInt64_of_range _ (by omega) (by omega)

theorem recordOf_fields (dom : Domain) (info : DomainInfo) :
    RecordOf info
      { ID := dom.uuid.getD ""
        Name := dom.name.getD ""
        CPU := toInt64 info.NrVirtCpu
        MemoryBytes := toInt64 (toInt64 info.Memory * 1024)
        DiskBytes := 0
        Image := ""
        Status := if info.State = DOMAIN_RUNNING then VMStatusRunning else VMStatusStopped
        CreatedAt := 0 } := by
  refine ⟨rfl, rfl, rfl, fun h => memoryBytes_of_small info.Memory h, ?_, ?_⟩
  · by_cases hs : info.State = DOMAIN_RUNNING
    · simp [hs]
    · simp only [hs, if_false, iff_false]
      decide
  · by_cases hs : info.State = DOMAIN_RUNNING
    · simp only [hs, if_true, ne_eq, not_true_eq_false, iff_false]
      decide
    · simp [hs]

/-- C19, as it fails: the control plane reports a shut-off domain with `2^53` KiB of
memory; the record `GetVM` makes of it has `-2^63` bytes of memory, not `2^53 * 1024`. -/
theorem GetVM_memory_wraps :
    lookupDomain sampleControlPlane "huge" = some hugeDomain ∧
    hugeDomain.info = some ⟨5, 9007199254740992, 9007199254740992, 1, 0⟩ ∧
    LibvirtManager.GetVM sampleLibvirt sampleControlPlane "huge" = Except.ok
      ⟨"0b9d6c1a-7e2f-4a38-8c11-5d2e9f7a6b21", "huge", 1, -9223372036854775808, 0, "",
        VMStatusStopped, 0⟩ ∧
    (-9223372036854775808 : Int) ≠ 9007199254740992 * 1024 := by
  decide

/-- C19, as the code has it: for every domain the control plane reports together with
its info, the record of `GetVM`, and of `ListVMs` when every listed domain reports its
info, has disk size 0, an empty image and the zero creation time, as memory the
reported KiB times 1024 when the KiB are below `2^53`, and the status Running exactly
when the state is running and Stopped otherwise. -/
theorem libvirt_record_of_domain (l : LibvirtManager) (cp : ControlPlane)
    (hcon : cp.connects = true) :
    (∀ (id : String) (dom : Domain) (info : DomainInfo), lookupDomain cp id = some dom →
      dom.info = some info → ∃ vm : VM, l.GetVM cp id = Except.ok vm ∧ RecordOf info vm) ∧
    (∀ doms : List Domain, cp.allDomains = some doms → (∀ dom ∈ doms, dom.info ≠ none) →
      ∃ vms : List VM, l.ListVMs cp = some (Except.ok vms) ∧
        List.Forall₂ (fun dom vm => ∃ info : DomainInfo, dom.info = some info ∧ RecordOf info vm)
          doms vms) := by
  constructor
  · intro id dom info hl hi
    refine ⟨_, ?_, recordOf_fields dom info⟩
    simp [LibvirtManager.GetVM, hcon, hl, hi]
  · intro doms hall hinfo
    have hloop : ∀ (ds : List Domain) (out : List VM), (∀ dom ∈ ds, dom.info ≠ none) →
        ∃ vms : List VM, listLoop ds out = some (out ++ vms) ∧
          List.Forall₂
            (fun dom vm => ∃ info : DomainInfo, dom.info = some info ∧ RecordOf info vm)
            ds vms := by
      intro ds
      induction ds with
      | nil => intro out _; exact ⟨[], by simp [listLoop], List.Forall₂.nil⟩
      | cons d ds ih =>
        intro out hds
        cases hd : d.info with
        | none => exact absurd hd (hds d (List.mem_cons_self _ _))
        | some info =>
          obtain ⟨vms, hv, hf⟩ := ih (out ++ [_])
            (fun dom hdm => hds dom (List.mem_cons_of_mem _ hdm))
          refine ⟨_ :: vms, ?_, List.Forall₂.cons ⟨info, hd, recordOf_fields d info⟩ hf⟩
          simp only [listLoop, listedVM, hd]
          rw [hv]
          simp
    obtain ⟨vms, hv, hf⟩ := hloop doms [] hinfo
    refine ⟨vms, ?_, hf⟩
    simp only [List.nil_append] at hv
    simp [LibvirtManager.ListVMs, hcon, hall, hv]

theorem libvirt_record_of_domain_witness :
    sampleControlPlane.connects = true ∧
    (∃ vm : VM, LibvirtManager.GetVM sampleLibvirt sampleControlPlane "web" = Except.ok vm ∧
      RecordOf ⟨1, 1048576, 1048576, 2, 0⟩ vm) ∧
    ∃ vms : List VM, LibvirtManager.ListVMs sampleLibvirt sampleControlPlane
        = some (Except.ok vms) ∧
      List.Forall₂ (fun dom vm => ∃ info : DomainInfo, dom.info = some info ∧ RecordOf info vm)
        [webDomain, hugeDomain] vms :=
  have h := libvirt_record_of_domain sampleLibvirt sampleControlPlane rfl
  ⟨rfl, h.1 "web" webDomain ⟨1, 1048576, 1048576, 2, 0⟩ rfl rfl,
    h.2 [webDomain, hugeDomain] rfl (by decide)⟩

end Kvm

end Deusvm

/-! # Identifiers -/

namespace Deusvm

namespace Kvm

theorem hexDigit_injective : ∀ a b : Fin 16, hexDigit a = hexDigit b → a = b := by
  decide

theorem hexDigit_mod (n : Nat) : hexDigit n = hexDigit (n % 16) := by
  unfold hexDigit
  rw [Nat.mod_mod]

theorem hexByte_injective (a b : Nat) (ha : a < 256) (hb : b < 256)
    (h : hexByte a = hexByte b) : a = b := by
  unfold hexByte at h
  rw [Nat.mod_eq_of_lt ha, Nat.mod_eq_of_lt hb] at h
  simp only [List.cons.injEq, and_true] at h
  obtain ⟨h1, h2⟩ := h
  rw [hexDigit_mod a, hexDigit_mod b] at h2
  have e1 := hexDigit_injective ⟨a / 16, by omega⟩ ⟨b / 16, by omega⟩ h1
  have e2 := hexDigit_injective ⟨a % 16, Nat.mod_lt _ (by decide)⟩
    ⟨b % 16, Nat.mod_lt _ (by decide)⟩ h2
  have e1' : a / 16 = b / 16 := congrArg Fin.val e1
  have e2' : a % 16 = b % 16 := congrArg Fin.val e2
  omega

theorem uuidByte_lt (rnd : Nat → Nat) (i : Nat) : uuidByte rnd i < 256 := by
  unfold uuidByte
  split
  · omega
  · split
    · omega
    · exact Nat.mod_lt _ (by decide)

theorem uuidHex_injective (rnd₁ rnd₂ : Nat → Nat) (n : Nat) :
    ∀ i : Nat, uuidHex rnd₁ i n = uuidHex rnd₂ i n →
      ∀ k < n, uuidByte rnd₁ (i + k) = uuidByte rnd₂ (i + k) := by
  induction n with
  | zero => intro i _ k hk; omega
  | succ n ih =>
    intro i h k hk
    simp only [uuidHex] at h
    obtain ⟨h1, h2⟩ := List.append_inj h (by simp [hexByte])
    cases k with
    | zero => exact hexByte_injective _ _ (uuidByte_lt _ _) (uuidByte_lt _ _) h1
    | succ k =>
      have := ih (i + 1) h2 k (by omega)
      rw [show i + (k + 1) = i + 1 + k by omega]
      exact this

/-- Two draws that give the same identifier give the same 16 bytes: the identifier
determines the 122 random bits that enter it. -/
theorem uuidNewString_injective (rnd₁ rnd₂ : Nat → Nat)
    (h : uuidNewString rnd₁ = uuidNewString rnd₂) : uuidBytes rnd₁ = uuidBytes rnd₂ := by
  unfold uuidNewString at h
  have hd := congrArg String.data h
  simp only [List.append_assoc, List.cons_append] at hd
  obtain ⟨a1, r1⟩ := List.append_inj hd (by simp [uuidHex_length])
  obtain ⟨a2, r2⟩ := List.append_inj (List.cons.inj r1).2 (by simp [uuidHex_length])
  obtain ⟨a3, r3⟩ := List.append_inj (List.cons.inj r2).2 (by simp [uuidHex_length])
  obtain ⟨a4, r4⟩ := List.append_inj (List.cons.inj r3).2 (by simp [uuidHex_length])
  have a5 := (List.cons.inj r4).2
  have b1 := uuidHex_injective rnd₁ rnd₂ 4 0 a1
  have b2 := uuidHex_injective rnd₁ rnd₂ 2 4 a2
  have b3 := uuidHex_injective rnd₁ rnd₂ 2 6 a3
  have b4 := uuidHex_injective rnd₁ rnd₂ 2 8 a4
  have b5 := uuidHex_injective rnd₁ rnd₂ 6 10 a5
  unfold uuidBytes
  apply List.map_congr_left
  intro i hi
  have hi' : i < 16 := List.mem_range.1 hi
  by_cases c1 : i < 4
  · have := b1 i c1
    simpa using this
  · by_cases c2 : i < 6
    · have := b2 (i - 4) (by omega)
      rw [show 4 + (i - 4) = i by omega] at this
      exact this
    · by_cases c3 : i < 8
      · have := b3 (i - 6) (by omega)
        rw [show 6 + (i - 6) = i by omega] at this
        exact this
      · by_cases c4 : i < 10
        · have := b4 (i - 8) (by omega)
          rw [show 8 + (i - 8) = i by omega] at this
          exact this
        · have := b5 (i - 10) (by omega)
          rw [show 10 + (i - 10) = i by omega] at this
          exact this

/-- The identifiers a run returns are those of the random bytes it read. -/
theorem returnedIDs_eq_drawn (cs : List Call) (m : InMemoryManager) :
    returnedIDs m cs = (drawn m cs).map uuidNewString := by
  induction cs generalizing m with
  | nil => rfl
  | cons c cs ih =>
    simp only [returnedIDs, drawn, List.map_append, ih]
    congr 1
    cases c with
    | create req rnd now =>
      by_cases hv : ValidRequest req
      · cases hidx : m.nameIdx.lookup req.Name with
        | some id => simp [returnedID, CreateVM_conflict m req rnd now hv id hidx]
        | none => simp [returnedID, CreateVM_ok m req rnd now hv hidx]
      · simp [returnedID, CreateVM_invalid m req rnd now hv]
    | delete id => rfl
    | start id => rfl
    | stop id => rfl
    | get id => rfl
    | list => rfl

theorem nodup_map_of_nodup_map {α β γ : Type} (f : α → β) (g : α → γ)
    (hfg : ∀ x y, f x = f y → g x = g y) (l : List α) (h : (l.map g).Nodup) :
    (l.map f).Nodup := by
  induction l with
  | nil => exact List.nodup_nil
  | cons a t ih =>
    rw [List.map_cons, List.nodup_cons] at h ⊢
    refine ⟨fun hmem => h.1 ?_, ih h.2⟩
    obtain ⟨y, hy, hfy⟩ := List.mem_map.1 hmem
    exact List.mem_map.2 ⟨y, hy, hfg y a hfy⟩

/-- A run whose returned identifiers are pairwise different and not live at its start
never returns the identifier of a live record. -/
theorem freshIDs_of_nodup (cs : List Call) (m : InMemoryManager)
    (hnd : (returnedIDs m cs).Nodup)
    (hnew : ∀ id ∈ returnedIDs m cs, m.vms.lookup id = none) : FreshIDs m cs := by
  induction cs generalizing m with
  | nil => trivial
  | cons c cs ih =>
    simp only [returnedIDs] at hnd hnew
    refine ⟨fun id hid => hnew id (List.mem_append_left _ (by simpa using hid)), ?_⟩
    apply ih (step m c) (List.Nodup.of_append_right hnd)
    intro id hid
    rw [AList.lookup_eq_none]
    intro hlive
    have hrun : id ∈ (run m [c]).vms := hlive
    rcases live_of_run [c] m id hrun with h | h
    · have := hnew id (List.mem_append_right _ hid)
      exact (AList.lookup_eq_none.1 this) h
    · simp only [returnedIDs, List.append_nil] at h
      exact (List.disjoint_of_nodup_append hnd) h hid

/-- C18, as it fails: two `CreateVM` calls that read the same random bytes return the
same identifier, and the record of the second replaces the record of the first, which
stays in the name index; the same happens when the first record was deleted before. -/
theorem CreateVM_repeats_identifier :
    (CreateVM NewInMemoryManager webRequest (sampleRnd 1) 100).1
      = Except.ok ⟨uuidNewString (sampleRnd 1), "web", 2, 1073741824, 10737418240,
          "base.qcow2", VMStatusStopped, 100⟩ ∧
    (CreateVM (CreateVM NewInMemoryManager webRequest (sampleRnd 1) 100).2 dbRequest
      (sampleRnd 1) 200).1
      = Except.ok ⟨uuidNewString (sampleRnd 1), "db", 4, 2147483648, 21474836480,
          "base.raw", VMStatusStopped, 200⟩ ∧
    (ListVMs (CreateVM (CreateVM NewInMemoryManager webRequest (sampleRnd 1) 100).2 dbRequest
      (sampleRnd 1) 200).2).length = 1 ∧
    (CreateVM (DeleteVM (CreateVM NewInMemoryManager webRequest (sampleRnd 1) 100).2
      (uuidNewString (sampleRnd 1))).2 dbRequest (sampleRnd 1) 200).1
      = Except.ok ⟨uuidNewString (sampleRnd 1), "db", 4, 2147483648, 21474836480,
          "base.raw", VMStatusStopped, 200⟩ := by
  decide

/-- C18, as the code has it: the identifier of a successful `CreateVM` is the UUID of
the 16 random bytes the call reads, and nothing compares it with earlier identifiers.
In a run on a new backend in which the successful `CreateVM` calls read pairwise
different UUID bytes, the identifiers returned are pairwise different, deleted records
included, and no `CreateVM` returns the identifier of a live record. -/
theorem identifiers_new_when_draws_differ (cs : List Call)
    (h : ((drawn NewInMemoryManager cs).map uuidBytes).Nodup) :
    (returnedIDs NewInMemoryManager cs).Nodup ∧ FreshIDs NewInMemoryManager cs := by
  have hnd : (returnedIDs NewInMemoryManager cs).Nodup := by
    rw [returnedIDs_eq_drawn]
    exact nodup_map_of_nodup_map uuidNewString uuidBytes uuidNewString_injective _ h
  exact ⟨hnd, freshIDs_of_nodup cs _ hnd (fun id _ => by simp [NewInMemoryManager])⟩

theorem identifiers_new_when_draws_differ_witness :
    ((drawn NewInMemoryManager sampleCalls).map uuidBytes).Nodup ∧
    (returnedIDs NewInMemoryManager sampleCalls).Nodup ∧
    FreshIDs NewInMemoryManager sampleCalls :=
  ⟨by decide, identifiers_new_when_draws_differ sampleCalls (by decide)⟩

end Kvm

end Deusvm

/-! # Properties of the HTTP transport -/

namespace Deusvm

namespace Api

/-- C20, as it fails: the download source cannot be reached, `SaveImageFromURL` fails
with the `download` error, an Upstream failure, and `createImage` answers 400; the
filesystem refuses the removal of an existing image, `DeleteImage` fails with an IO
failure, and `deleteImage` answers 404; no connection to the control plane opens,
`GetVM` fails with the `libvirt connect` error, an Upstream failure, and `getVM`
answers 404. None of the three is a server-error status. -/
theorem errors_answered_by_handler_not_by_kind :
    (Storage.SaveImageFromURL unreachableEnv Storage.sampleManager Storage.sampleWorld
      "new.raw" "http://mirror/x").1 = Except.error Storage.Error.download ∧
    kindOfStorage Storage.Error.download = ErrorKind.Upstream ∧
    (createImage ⟨inMemoryManager Kvm.sampleState (Kvm.sampleRnd 9) 0,
        localStore unreachableEnv Storage.sampleManager Storage.sampleWorld⟩
      (some ⟨"new.raw", "http://mirror/x"⟩)).status = 400 ∧
    ¬ inClassOf ErrorKind.Upstream 400 ∧
    (Storage.DeleteImage readOnlyEnv Storage.sampleManager Storage.sampleWorld
      "base.qcow2").1 = Except.error (Storage.Error.remove Storage.OSError.other) ∧
    kindOfStorage (Storage.Error.remove Storage.OSError.other) = ErrorKind.InputOutput ∧
    (deleteImage ⟨inMemoryManager Kvm.sampleState (Kvm.sampleRnd 9) 0,
        localStore readOnlyEnv Storage.sampleManager Storage.sampleWorld⟩
      "base.qcow2").status = 404 ∧
    ¬ inClassOf ErrorKind.InputOutput 404 ∧
    Kvm.LibvirtManager.GetVM Kvm.sampleLibvirt downControlPlane "web"
      = Except.error Kvm.Error.libvirtConnect ∧
    kindOfKvm Kvm.Error.libvirtConnect = ErrorKind.Upstream ∧
    (getVM ⟨libvirtManager Kvm.sampleLibvirt downControlPlane 0,
        localStore unreachableEnv Storage.sampleManager Storage.sampleWorld⟩ "web").status
      = 404 ∧
    ¬ inClassOf ErrorKind.Upstream 404 := by
  decide

/-- C20, as the code has it: a handler answers every error of its core operation with
one status, whatever the error is: 400 for `createVM` and `createImage`, 404 for
`getVM`, `startVM`, `stopVM`, `deleteVM` and `deleteImage`, 500 for `listVMs` and
`listImages`. -/
theorem handler_answers_errors_with_one_status (s : Server) :
    (∀ (req : createVMRequest) (mem disk : Int) (err : Kvm.Error),
      parseSize req.Memory = some mem → parseSize req.Disk = some disk →
      s.manager.CreateVM ⟨req.Name, req.CPU, mem, disk, req.Image⟩ = Except.error err →
        createVM s (some req) = ⟨400, Payload.error (Message.kvm err)⟩) ∧
    (∀ (id : String) (err : Kvm.Error), s.manager.GetVM id = Except.error err →
      getVM s id = ⟨404, Payload.error (Message.kvm err)⟩) ∧
    (∀ (id : String) (err : Kvm.Error), s.manager.StartVM id = Except.error err →
      startVM s id = ⟨404, Payload.error (Message.kvm err)⟩) ∧
    (∀ (id : String) (err : Kvm.Error), s.manager.StopVM id = Except.error err →
      stopVM s id = ⟨404, Payload.error (Message.kvm err)⟩) ∧
    (∀ (id : String) (err : Kvm.Error), s.manager.DeleteVM id = Except.error err →
      deleteVM s id = ⟨404, Payload.error (Message.kvm err)⟩) ∧
    (∀ err : Kvm.Error, s.manager.ListVMs = some (Except.error err) →
      listVMs s = some ⟨500, Payload.error (Message.kvm err)⟩) ∧
    (∀ (req : createImageRequest) (err : Storage.Error), req.Name ≠ "" → req.Source ≠ "" →
      s.store.SaveImageFromURL req.Name req.Source = Except.error err →
        createImage s (some req) = ⟨400, Payload.error (Message.storage err)⟩) ∧
    (∀ (name : String) (err : Storage.Error), name ≠ "" →
      s.store.DeleteImage name = Except.error err →
        deleteImage s name = ⟨404, Payload.error (Message.storage err)⟩) ∧
    (∀ err : Storage.Error, s.store.ListImages = Except.error err →
      listImages s = ⟨500, Payload.error (Message.storage err)⟩) := by
  refine ⟨?_, ?_, ?_, ?_, ?_, ?_, ?_, ?_, ?_⟩
  · intro req mem disk err hm hd he
    simp only [createVM, hm, hd, he]
    rfl
  · intro id err he
    simp only [getVM, he]
    rfl
  · intro id err he
    simp only [startVM, he]
    rfl
  · intro id err he
    simp only [stopVM, he]
    rfl
  · intro id err he
    simp only [deleteVM, he]
    rfl
  · intro err he
    simp only [listVMs, he]
    rfl
  · intro req err hn hs he
    have hc : ¬ (req.Name = "" ∨ req.Source = "") := fun h => h.elim hn hs
    simp only [createImage, if_neg hc, he]
    rfl
  · intro name err hn he
    simp only [deleteImage, if_neg hn, he]
    rfl
  · intro err he
    simp only [listImages, he]
    rfl

end Api

end Deusvm

/-! # The size strings of the HTTP layer -/

namespace Deusvm

namespace Api

/-! ## The bytes of a string -/

theorem utf8Encode_ascii (c : Char) (h : c.toNat < 128) : utf8Encode c = [c.toNat] := by
  simp [utf8Encode, h]

theorem utf8Encode_high (c : Char) (h : 128 ≤ c.toNat) : ∀ b ∈ utf8Encode c, 128 ≤ b := by
  intro b hb
  unfold utf8Encode at hb
  split_ifs at hb <;> simp at hb <;> omega

theorem utf8Encode_ne_nil (c : Char) : utf8Encode c ≠ [] := by
  unfold utf8Encode
  split_ifs <;> simp

theorem char_eq_of_toNat (c d : Char) (h : c.toNat = d.toNat) : c = d := by
  apply Char.ext
  apply UInt32.ext
  exact h

theorem char_toNat_lt (c : Char) : c.toNat < 1114112 := by
  have h := c.valid
  simp only [UInt32.isValidChar, Nat.isValidChar] at h
  show c.val.toNat < 1114112
  omega

theorem utf8Encode_append_inj (c d : Char) (r s : List Nat)
    (h : utf8Encode c ++ r = utf8Encode d ++ s) : c = d ∧ r = s := by
  have hc := char_toNat_lt c
  have hd := char_toNat_lt d
  unfold utf8Encode at h
  split_ifs at h <;> simp only [List.cons_append, List.nil_append, List.cons.injEq] at h <;>
    first
    | omega
    | exact ⟨char_eq_of_toNat c d (by omega), by simp only [h]⟩

theorem flatMap_utf8Encode_inj (l₁ l₂ : List Char)
    (h : l₁.flatMap utf8Encode = l₂.flatMap utf8Encode) : l₁ = l₂ := by
  induction l₁ generalizing l₂ with
  | nil =>
    cases l₂ with
    | nil => rfl
    | cons d t =>
      simp only [List.flatMap_nil, List.flatMap_cons] at h
      have := utf8Encode_ne_nil d
      cases hd : utf8Encode d with
      | nil => exact absurd hd this
      | cons a b => rw [hd] at h; simp at h
  | cons c t ih =>
    cases l₂ with
    | nil =>
      simp only [List.flatMap_nil, List.flatMap_cons] at h
      have := utf8Encode_ne_nil c
      cases hc : utf8Encode c with
      | nil => exact absurd hc this
      | cons a b => rw [hc] at h; simp at h
    | cons d t₂ =>
      simp only [List.flatMap_cons] at h
      obtain ⟨h1, h2⟩ := utf8Encode_append_inj c d _ _ h
      rw [h1, ih t₂ h2]

theorem goBytes_injective (s t : String) (h : goBytes s = goBytes t) : s = t := by
  have := flatMap_utf8Encode_inj s.data t.data h
  exact String.ext this

theorem goBytes_append (s t : String) : goBytes (s ++ t) = goBytes s ++ goBytes t := by
  simp [goBytes, String.data_append, List.flatMap_append]

theorem flatMap_utf8Encode_ascii (l : List Char) (h : ∀ c ∈ l, c.toNat < 128) :
    l.flatMap utf8Encode = l.map Char.toNat := by
  induction l with
  | nil => rfl
  | cons c t ih =>
    rw [List.flatMap_cons, List.map_cons, utf8Encode_ascii c (h c (List.mem_cons_self _ _)),
      ih (fun d hd => h d (List.mem_cons_of_mem _ hd))]
    rfl

theorem ascii_of_flatMap_utf8Encode (l : List Char)
    (h : ∀ b ∈ l.flatMap utf8Encode, b < 128) : ∀ c ∈ l, c.toNat < 128 := by
  intro c hc
  by_contra hge
  have hne := utf8Encode_ne_nil c
  cases hb : utf8Encode c with
  | nil => exact hne hb
  | cons b t =>
    have hmem : b ∈ utf8Encode c := by rw [hb]; exact List.mem_cons_self _ _
    have h1 := utf8Encode_high c (by omega) b hmem
    have h2 := h b (List.mem_flatMap.2 ⟨c, hc, hmem⟩)
    omega

/-! ## The loop over the digits -/

theorem toInt64_step (v : Int) (d : Int) :
    toInt64 (toInt64 (toInt64 v * 10) + d) = toInt64 (v * 10 + d) := by
  unfold toInt64; omega

theorem parseDigits_digits (bs : List Nat) (v w : Int) (h : parseDigits bs v = some w) :
    ∀ b ∈ bs, 48 ≤ b ∧ b ≤ 57 := by
  induction bs generalizing v with
  | nil => intro b hb; cases hb
  | cons a t ih =>
    intro b hb
    simp only [parseDigits] at h
    split_ifs at h with ha
    rcases List.mem_cons.1 hb with rfl | hb
    · omega
    · exact ih _ h b hb

theorem parseDigits_value (ds : List Char) (hd : ∀ c ∈ ds, asciiDigit c) (n : Nat) :
    parseDigits (ds.map Char.toNat) (toInt64 n) =
      some (toInt64 (ds.foldl (fun v c => v * 10 + (c.toNat - 48)) n : Nat)) := by
  induction ds generalizing n with
  | nil => rfl
  | cons c t ih =>
    have hc := hd c (List.mem_cons_self _ _)
    unfold asciiDigit at hc
    simp only [List.map_cons, parseDigits, List.foldl_cons]
    rw [if_neg (by omega), toInt64_step]
    have : ((n : Int) * 10 + ((c.toNat : Int) - 48)) = ((n * 10 + (c.toNat - 48) : Nat) : Int) := by
      omega
    rw [this]
    exact ih (fun d hd' => hd d (List.mem_cons_of_mem _ hd')) _

theorem map_toNat_eq_pair (l : List Char) (a b : Char)
    (h : l.map Char.toNat = [a.toNat, b.toNat]) : l = [a, b] := by
  cases l with
  | nil => cases h
  | cons x t =>
    cases t with
    | nil => simp at h
    | cons y u =>
      cases u with
      | nil =>
        simp only [List.map_cons, List.map_nil, List.cons.injEq, and_true] at h
        rw [char_eq_of_toNat x a h.1, char_eq_of_toNat y b h.2]
      | cons z r => simp at h

theorem goBytes_of_form (s : String) (ds : List Char) (unit : String)
    (hu : ∀ c ∈ unit.data, c.toNat < 128) (h : IsSizeString s ds unit) :
    goBytes s = ds.map Char.toNat ++ unit.data.map Char.toNat := by
  obtain ⟨_, hd, hs⟩ := h
  unfold goBytes
  rw [hs, flatMap_utf8Encode_ascii, List.map_append]
  intro c hc
  rcases List.mem_append.1 hc with hc | hc
  · have := hd c hc
    unfold asciiDigit at this
    omega
  · exact hu c hc

theorem parseSize_of_form (s : String) (ds : List Char) :
    (IsSizeString s ds "GB" →
      parseSize s = some (toInt64 ((decimalValue ds : Int) * 1073741824))) ∧
    (IsSizeString s ds "MB" →
      parseSize s = some (toInt64 ((decimalValue ds : Int) * 1048576))) := by
  have key : ∀ unit : String, unit.data.length = 2 → (∀ c ∈ unit.data, c.toNat < 128) →
      IsSizeString s ds unit →
      ¬ (goBytes s).length < 3 ∧
      parseDigits ((goBytes s).take ((goBytes s).length - 2)) 0
        = some (toInt64 (decimalValue ds : Nat)) ∧
      (goBytes s).drop ((goBytes s).length - 2) = unit.data.map Char.toNat := by
    intro unit hlen hu h
    have hb := goBytes_of_form s ds unit hu h
    obtain ⟨hne, hd, _⟩ := h
    have hpos : 0 < ds.length := List.length_pos.2 hne
    have hl : (goBytes s).length - 2 = (ds.map Char.toNat).length := by
      rw [hb]; simp only [List.length_append, List.length_map, hlen]; omega
    refine ⟨?_, ?_, ?_⟩
    · rw [hb]; simp only [List.length_append, List.length_map, hlen]; omega
    · rw [hl, hb, List.take_left]
      exact parseDigits_value ds hd 0
    · rw [hl, hb, List.drop_left]
  constructor
  · intro h
    obtain ⟨h1, h2, h3⟩ := key "GB" rfl (by decide) h
    unfold parseSize
    rw [if_neg h1, h2]
    dsimp only
    rw [if_pos (by rw [h3]; rfl)]
    refine congrArg some ?_
    unfold toInt64; omega
  · intro h
    obtain ⟨h1, h2, h3⟩ := key "MB" rfl (by decide) h
    unfold parseSize
    rw [if_neg h1, h2]
    dsimp only
    rw [if_neg (by rw [h3]; decide), if_pos (by rw [h3]; rfl)]
    refine congrArg some ?_
    unfold toInt64; omega

theorem form_of_parseSize (s : String) (v : Int) (h : parseSize s = some v) :
    ∃ ds : List Char, IsSizeString s ds "GB" ∨ IsSizeString s ds "MB" := by
  unfold parseSize at h
  by_cases hlen : (goBytes s).length < 3
  · rw [if_pos hlen] at h; cases h
  rw [if_neg hlen] at h
  rcases hp : parseDigits ((goBytes s).take ((goBytes s).length - 2)) 0 with _ | v'
  · rw [hp] at h; cases h
  · rw [hp] at h
    dsimp only at h
    have hdig := parseDigits_digits _ _ _ hp
    have hunit : ∃ a b : Char, a.toNat < 128 ∧ b.toNat < 128 ∧
        (goBytes s).drop ((goBytes s).length - 2) = [a.toNat, b.toNat] ∧
        ([a, b] = "GB".data ∨ [a, b] = "MB".data) := by
      split_ifs at h with hg hm
      · exact ⟨'G', 'B', by decide, by decide, hg, Or.inl rfl⟩
      · exact ⟨'M', 'B', by decide, by decide, hm, Or.inr rfl⟩
    obtain ⟨a, b, ha, hb, hdrop, hab⟩ := hunit
    have hall : ∀ x ∈ goBytes s, x < 128 := by
      intro x hx
      rw [← List.take_append_drop ((goBytes s).length - 2) (goBytes s)] at hx
      rcases List.mem_append.1 hx with hx | hx
      · have := hdig x hx; omega
      · rw [hdrop] at hx
        simp only [List.mem_cons, List.mem_singleton, List.not_mem_nil, or_false] at hx
        rcases hx with rfl | rfl <;> assumption
    have hascii := ascii_of_flatMap_utf8Encode s.data hall
    have hbytes : goBytes s = s.data.map Char.toNat := flatMap_utf8Encode_ascii s.data hascii
    have hlen' : (goBytes s).length = s.data.length := by rw [hbytes, List.length_map]
    refine ⟨s.data.take (s.data.length - 2), ?_⟩
    have hform : ∀ unit : String, [a, b] = unit.data →
        IsSizeString s (s.data.take (s.data.length - 2)) unit := by
      intro unit hu
      refine ⟨?_, ?_, ?_⟩
      · intro hnil
        have := congrArg List.length hnil
        simp only [List.length_take, List.length_nil] at this
        omega
      · intro c hc
        have : c.toNat ∈ (goBytes s).take ((goBytes s).length - 2) := by
          rw [hbytes, List.length_map, ← List.map_take]
          exact List.mem_map_of_mem _ hc
        exact hdig _ this
      · have hd2 : (s.data.drop (s.data.length - 2)).map Char.toNat = [a.toNat, b.toNat] := by
          rw [List.map_drop, ← hbytes, ← hlen']; exact hdrop
        rw [← hu, ← map_toNat_eq_pair _ a b hd2, List.take_append_drop]
    rcases hab with hab | hab
    · exact Or.inl (hform "GB" hab)
    · exact Or.inr (hform "MB" hab)

/-- C21: `parseSize` accepts a string exactly when it is one or more ASCII decimal
digits followed by `GB` or by `MB`, and rejects every other string; for an accepted
string whose size, the number times the multiplier of the unit, is below `2^63`, it
returns the number times `1024^3` for `GB` and times `1024^2` for `MB`. -/
theorem parseSize_accepts_digits_then_unit (s : String) :
    ((∃ v : Int, parseSize s = some v) ↔
      ∃ ds : List Char, IsSizeString s ds "GB" ∨ IsSizeString s ds "MB") ∧
    (∀ ds : List Char, IsSizeString s ds "GB" → decimalValue ds * 1024 ^ 3 < 2 ^ 63 →
      parseSize s = some ((decimalValue ds : Int) * 1024 ^ 3)) ∧
    (∀ ds : List Char, IsSizeString s ds "MB" → decimalValue ds * 1024 ^ 2 < 2 ^ 63 →
      parseSize s = some ((decimalValue ds : Int) * 1024 ^ 2)) := by
  refine ⟨⟨?_, ?_⟩, ?_, ?_⟩
  · rintro ⟨v, hv⟩
    exact form_of_parseSize s v hv
  · rintro ⟨ds, h | h⟩
    · exact ⟨_, (parseSize_of_form s ds).1 h⟩
    · exact ⟨_, (parseSize_of_form s ds).2 h⟩
  · intro ds h hfit
    rw [(parseSize_of_form s ds).1 h]
    refine congrArg some ?_
    norm_num at hfit ⊢
    exact Kvm.toInt64_of_range _ (by omega) (by omega)
  · intro ds h hfit
    rw [(parseSize_of_form s ds).2 h]
    refine congrArg some ?_
    norm_num at hfit ⊢
    exact Kvm.toInt64_of_range _ (by omega) (by omega)

theorem parseSize_accepts_digits_then_unit_witness :
    parseSize "4GB" = some 4294967296 ∧ parseSize "512MB" = some 536870912 ∧
    parseSize "" = none ∧ parseSize "GB" = none ∧ parseSize "4" = none ∧
    parseSize "4gb" = none ∧ parseSize " 4GB" = none ∧ parseSize "4GB " = none ∧
    parseSize "4 GB" = none ∧ parseSize "-4GB" = none ∧ parseSize "4.5GB" = none ∧
    parseSize "4KB" = none :=
  ⟨(parseSize_accepts_digits_then_unit "4GB").2.1 ['4'] (by decide) (by decide),
    (parseSize_accepts_digits_then_unit "512MB").2.2 ['5', '1', '2'] (by decide) (by decide),
    by decide, by decide, by decide, by decide, by decide, by decide, by decide, by decide,
    by decide, by decide⟩

set_option maxRecDepth 4000 in
/-- C22, as it fails: `9999999999GB` is accepted and the count returned is negative,
`-7709325834783293440`; `17179869184GB` is accepted and the count returned is 0, less
than the number. -/
theorem parseSize_wraps_to_a_negative_count :
    IsSizeString "9999999999GB" "9999999999".data "GB" ∧
    decimalValue "9999999999".data = 9999999999 ∧
    parseSize "9999999999GB" = some (-7709325834783293440) ∧
    IsSizeString "17179869184GB" "17179869184".data "GB" ∧
    decimalValue "17179869184".data = 17179869184 ∧
    parseSize "17179869184GB" = some 0 := by
  decide

/-- C22, as the code has it: for every string `parseSize` accepts, the count returned
is the number times the multiplier of the unit reduced modulo `2^64` into the range of
an `int64`. When the product is below `2^63` the count is the product, it is not
negative and not smaller than the number; when the product is `2^63` or more the count
is not the product. -/
theorem parseSize_value_wrapped (s : String) (v : Int) (h : parseSize s = some v) :
    ∃ (ds : List Char) (mult : Nat),
      (IsSizeString s ds "GB" ∧ mult = 1024 ^ 3 ∨ IsSizeString s ds "MB" ∧ mult = 1024 ^ 2) ∧
      v = toInt64 ((decimalValue ds * mult : Nat) : Int) ∧
      (decimalValue ds * mult < 2 ^ 63 →
        v = ((decimalValue ds * mult : Nat) : Int) ∧ 0 ≤ v ∧ (decimalValue ds : Int) ≤ v) ∧
      (2 ^ 63 ≤ decimalValue ds * mult → v ≠ ((decimalValue ds * mult : Nat) : Int)) := by
  obtain ⟨ds, hform⟩ := form_of_parseSize s v h
  have hval : ∀ mult : Nat, 0 < mult → v = toInt64 ((decimalValue ds * mult : Nat) : Int) →
      (decimalValue ds * mult < 2 ^ 63 →
        v = ((decimalValue ds * mult : Nat) : Int) ∧ 0 ≤ v ∧ (decimalValue ds : Int) ≤ v) ∧
      (2 ^ 63 ≤ decimalValue ds * mult → v ≠ ((decimalValue ds * mult : Nat) : Int)) := by
    intro mult hm hv
    have hle : decimalValue ds ≤ decimalValue ds * mult := Nat.le_mul_of_pos_right _ hm
    generalize decimalValue ds * mult = p at hv hle
    generalize decimalValue ds = n at hle
    constructor
    · intro hfit
      norm_num at hfit
      have : v = (p : Int) := by
        rw [hv]; exact Kvm.toInt64_of_range _ (by omega) (by omega)
      omega
    · intro hbig
      norm_num at hbig
      rw [hv]
      unfold toInt64
      omega
  rcases hform with hg | hm
  · have hv : v = toInt64 ((decimalValue ds * 1024 ^ 3 : Nat) : Int) := by
      have := (parseSize_of_form s ds).1 hg
      rw [h] at this
      rw [Option.some.inj this]
      norm_num
    exact ⟨ds, 1024 ^ 3, Or.inl ⟨hg, rfl⟩, hv, hval _ (by norm_num) hv⟩
  · have hv : v = toInt64 ((decimalValue ds * 1024 ^ 2 : Nat) : Int) := by
      have := (parseSize_of_form s ds).2 hm
      rw [h] at this
      rw [Option.some.inj this]
      norm_num
    exact ⟨ds, 1024 ^ 2, Or.inr ⟨hm, rfl⟩, hv, hval _ (by norm_num) hv⟩

theorem parseSize_value_wrapped_witness :
    parseSize "4GB" = some 4294967296 ∧
    ∃ (ds : List Char) (mult : Nat),
      (IsSizeString "4GB" ds "GB" ∧ mult = 1024 ^ 3 ∨
        IsSizeString "4GB" ds "MB" ∧ mult = 1024 ^ 2) ∧
      (4294967296 : Int) = toInt64 ((decimalValue ds * mult : Nat) : Int) ∧
      (decimalValue ds * mult < 2 ^ 63 →
        (4294967296 : Int) = ((decimalValue ds * mult : Nat) : Int) ∧ (0 : Int) ≤ 4294967296 ∧
          (decimalValue ds : Int) ≤ 4294967296) ∧
      (2 ^ 63 ≤ decimalValue ds * mult →
        (4294967296 : Int) ≠ ((decimalValue ds * mult : Nat) : Int)) :=
  ⟨by decide, parseSize_value_wrapped "4GB" 4294967296 (by decide)⟩

end Api

end Deusvm

/-! # StartVM and StopVM in the target state -/

namespace Deusvm

namespace Kvm

theorem insert_same_lookup {V : Type} (m : AList (fun _ : String => V)) (k : String) (v : V)
    (h : m.lookup k = some v) (k' : String) : (m.insert k v).lookup k' = m.lookup k' := by
  rw [lookup_insert_ite]
  split_ifs with hk
  · rw [hk, h]
  · rfl

theorem insert_same_perm {V : Type} (m : AList (fun _ : String => V)) (k : String) (v : V)
    (h : m.lookup k = some v) : (m.insert k v).entries.Perm m.entries := by
  apply List.lookup_ext (m.insert k v).nodupKeys m.nodupKeys
  intro x y
  have := insert_same_lookup m k v h x
  unfold AList.lookup at this
  rw [this]

/-- C23: in every state and for every live identifier, `StartVM` on a VM that is
Running, and `StopVM` on a VM that is Stopped, succeeds and leaves the state as it was:
every identifier holds the record it held, the name index is the same and `ListVMs`
has the same records (the table is a Go map, it has no order). The operation applied
twice gives the result and the state of the operation applied once, whatever the status
was. -/
theorem StartVM_StopVM_idempotent (m : InMemoryManager) (id : String) (vm : VM)
    (hlive : m.vms.lookup id = some vm) :
    (vm.Status = VMStatusRunning →
      (StartVM m id).1 = Except.ok () ∧
      (∀ k, (StartVM m id).2.vms.lookup k = m.vms.lookup k) ∧
      (StartVM m id).2.nameIdx = m.nameIdx ∧
      (ListVMs (StartVM m id).2).Perm (ListVMs m)) ∧
    (vm.Status = VMStatusStopped →
      (StopVM m id).1 = Except.ok () ∧
      (∀ k, (StopVM m id).2.vms.lookup k = m.vms.lookup k) ∧
      (StopVM m id).2.nameIdx = m.nameIdx ∧
      (ListVMs (StopVM m id).2).Perm (ListVMs m)) ∧
    StartVM (StartVM m id).2 id = (Except.ok (), (StartVM m id).2) ∧
    StopVM (StopVM m id).2 id = (Except.ok (), (StopVM m id).2) := by
  refine ⟨?_, ?_, ?_, ?_⟩
  · intro hs
    have hvm : { vm with Status := VMStatusRunning } = vm := by rw [← hs]
    simp only [StartVM, hlive, hvm, ListVMs]
    exact ⟨trivial, insert_same_lookup m.vms id vm hlive, trivial,
      (insert_same_perm m.vms id vm hlive).map _⟩
  · intro hs
    have hvm : { vm with Status := VMStatusStopped } = vm := by rw [← hs]
    simp only [StopVM, hlive, hvm, ListVMs]
    exact ⟨trivial, insert_same_lookup m.vms id vm hlive, trivial,
      (insert_same_perm m.vms id vm hlive).map _⟩
  · simp [StartVM, hlive]
  · simp [StopVM, hlive]

theorem StartVM_StopVM_idempotent_witness :
    sampleState.vms.lookup (uuidNewString (sampleRnd 2))
      = some ⟨uuidNewString (sampleRnd 2), "db", 4, 2147483648, 21474836480, "base.raw",
          VMStatusStopped, 200⟩ ∧
    (StopVM sampleState (uuidNewString (sampleRnd 2))).1 = Except.ok () ∧
    (ListVMs (StopVM sampleState (uuidNewString (sampleRnd 2))).2).Perm
      (ListVMs sampleState) ∧
    StartVM (StartVM sampleState (uuidNewString (sampleRnd 2))).2 (uuidNewString (sampleRnd 2))
      = (Except.ok (), (StartVM sampleState (uuidNewString (sampleRnd 2))).2) :=
  have h := StartVM_StopVM_idempotent sampleState (uuidNewString (sampleRnd 2))
    ⟨uuidNewString (sampleRnd 2), "db", 4, 2147483648, 21474836480, "base.raw",
      VMStatusStopped, 200⟩ (by decide)
  ⟨by decide, (h.2.1 rfl).1, (h.2.1 rfl).2.2.2, h.2.2.1⟩

end Kvm

end Deusvm

/-! # The files SaveImageFromURL leaves alone -/

namespace Deusvm

namespace Storage

/-- C24, as it fails: the repository holds an image named `new.raw.part`, of 4 bytes.
`SaveImageFromURL("new.raw", ...)` succeeds and afterwards no file `new.raw.part` is
in the repository; with a transfer that fails, the call returns the `write` error and
the file `new.raw.part` is gone as well. -/
theorem SaveImageFromURL_takes_the_part_file :
    imagePath sampleManager "new.raw.part"
      = Except.ok "/var/lib/deusvm/images/new.raw.part" ∧
    stagedWorld.files.lookup "/var/lib/deusvm/images/new.raw.part" = some [4, 5, 6, 7] ∧
    (SaveImageFromURL sampleEnv sampleManager stagedWorld "new.raw" "http://mirror/x").1
      = Except.ok ⟨"new.raw", "/var/lib/deusvm/images/new.raw", 3, "raw", "03"⟩ ∧
    (SaveImageFromURL sampleEnv sampleManager stagedWorld "new.raw"
      "http://mirror/x").2.files.lookup "/var/lib/deusvm/images/new.raw.part" = none ∧
    (SaveImageFromURL brokenEnv sampleManager stagedWorld "new.raw" "http://mirror/x").1
      = Except.error Error.write ∧
    (SaveImageFromURL brokenEnv sampleManager stagedWorld "new.raw"
      "http://mirror/x").2.files.lookup "/var/lib/deusvm/images/new.raw.part" = none := by
  decide

theorem part_is_fileName (name : String) (h : isFileName name = true) :
    isFileName (name ++ ".part") = true := by
  rw [isFileName_iff] at h ⊢
  obtain ⟨h1, _, _, h4⟩ := h
  have hd : (name ++ ".part").data = name.data ++ ['.', 'p', 'a', 'r', 't'] := by
    rw [String.data_append]
  rw [hd]
  refine ⟨by simp, ?_, ?_, ?_⟩
  · intro hc
    have := congrArg List.length hc
    simp at this
  · intro hc
    have := congrArg List.length hc
    simp at this
  · intro hc
    rcases List.mem_append.1 hc with hc | hc
    · exact h4 hc
    · revert hc; decide

/-- C24, as the code has it: for every world, every accepted name and every source,
`SaveImageFromURL` leaves every file as it was but the file under the name and the file
at that path followed by `.part`, whether it succeeds or fails. For a name other than
`.` the second is the entry of the repository named by the name followed by `.part`. -/
theorem SaveImageFromURL_frame (env : Env) (m : LocalManager) (w : World)
    (name sourceURL path : String) (hpath : imagePath m name = Except.ok path) :
    (∀ p : String, p ≠ path → p ≠ path ++ ".part" →
      (SaveImageFromURL env m w name sourceURL).2.files.lookup p = w.files.lookup p) ∧
    (name ≠ "." → path ++ ".part" = filepathJoin [m.imagesDir, name ++ ".part"]) := by
  constructor
  · intro p hp hpt
    unfold SaveImageFromURL
    rw [hpath]
    dsimp only
    split_ifs with hurl
    · rfl
    · rcases hget : env.httpDo sourceURL with _ | resp
      · rfl
      · dsimp only
        split_ifs with hst
        · rfl
        · have hc := osCreate_lookup env (w.logged (Access.httpGet sourceURL))
            (path ++ ".part") p
          rcases h₁ : osCreate env (w.logged (Access.httpGet sourceURL)) (path ++ ".part")
            with ⟨b₁, w₁⟩
          rw [h₁] at hc
          simp only [hpt, and_false, if_false] at hc
          have hc' : w₁.files.lookup p = w.files.lookup p := hc
          cases b₁ with
          | false => exact hc'
          | true =>
            dsimp only
            have hfr := copyBody_frame env (path ++ ".part") resp.body resp.bodyFails 0 []
              w₁ p hpt
            rcases h₂ : copyBody env (path ++ ".part") resp.body resp.bodyFails 0 [] w₁
              with ⟨b₂, n, hashed, w₂⟩
            rw [h₂] at hfr
            simp only at hfr
            cases b₂ with
            | false =>
              dsimp only
              rw [osRemove_lookup, if_neg (fun h => hpt h.2), hfr, hc']
            | true =>
              dsimp only
              rcases h₃ : fileSync env w₂ (path ++ ".part") with ⟨b₃, w₃⟩
              have hs : w₃.files = w₂.files := by
                have := fileSync_files env w₂ (path ++ ".part")
                rw [h₃] at this; exact this
              cases b₃ with
              | false =>
                dsimp only
                rw [osRemove_lookup, if_neg (fun h => hpt h.2), hs, hfr, hc']
              | true =>
                dsimp only
                have hr := osRename_lookup env w₃ (path ++ ".part") path p
                rcases h₄ : osRename env w₃ (path ++ ".part") path with ⟨b₄, w₄⟩
                rw [h₄] at hr
                simp only [hp, hpt, if_false, ite_self] at hr
                cases b₄ with
                | false =>
                  dsimp only
                  rw [osRemove_lookup, if_neg (fun h => hpt h.2), hr, hs, hfr, hc']
                | true =>
                  dsimp only
                  rw [hr, hs, hfr, hc']
  · intro hdot
    obtain ⟨hj, hfn⟩ := imagePath_ok m name path hpath
    rcases hfn with hfn | hfn
    · obtain ⟨out₁, sep, _, _, hjoin⟩ := filepathJoin_fileName m.imagesDir
      apply String.ext
      rw [hjoin _ (part_is_fileName name hfn), String.data_append, hj, hjoin _ hfn,
        String.data_append, List.append_assoc]
    · exact absurd hfn hdot

theorem SaveImageFromURL_frame_witness :
    imagePath sampleManager "new.raw" = Except.ok "/var/lib/deusvm/images/new.raw" ∧
    (SaveImageFromURL sampleEnv sampleManager stagedWorld "new.raw"
      "http://mirror/x").2.files.lookup "/var/lib/deusvm/images/base.qcow2"
      = stagedWorld.files.lookup "/var/lib/deusvm/images/base.qcow2" :=
  ⟨by decide,
    (SaveImageFromURL_frame sampleEnv sampleManager stagedWorld "new.raw" "http://mirror/x"
      "/var/lib/deusvm/images/new.raw" (by decide)).1 "/var/lib/deusvm/images/base.qcow2"
      (by decide) (by decide)⟩

end Storage

end Deusvm

/-! # ListVMs of the libvirt backend on a domain without info -/

namespace Deusvm

namespace Kvm

theorem listLoop_none_iff (doms : List Domain) (out : List VM) :
    listLoop doms out = none ↔ ∃ dom ∈ doms, dom.info = none := by
  induction doms generalizing out with
  | nil => simp [listLoop]
  | cons d ds ih =>
    rcases hi : d.info with _ | info
    · simp [listLoop, listedVM, hi]
    · simp [listLoop, listedVM, hi, ih]

theorem ListVMs_none_iff (l : LibvirtManager) (cp : ControlPlane) :
    l.ListVMs cp = none ↔
      cp.connects = true ∧ ∃ doms, cp.allDomains = some doms ∧ ∃ dom ∈ doms, dom.info = none := by
  unfold LibvirtManager.ListVMs
  by_cases hc : cp.connects = false
  · simp [hc]
  · have hc' : cp.connects = true := by simpa using hc
    rw [if_neg hc]
    rcases ha : cp.allDomains with _ | doms
    · simp
    · dsimp only
      have hiff := listLoop_none_iff doms []
      rcases hl : listLoop doms [] with _ | out
      · dsimp only
        exact ⟨fun _ => ⟨hc', doms, rfl, hiff.1 hl⟩, fun _ => rfl⟩
      · dsimp only
        constructor
        · intro h; cases h
        · rintro ⟨_, doms', hd, h⟩
          cases hd
          rw [hiff.2 h] at hl
          cases hl

/-- C25, at a domain without info: the control plane lists the domain `web` and a
domain whose `GetInfo` fails. `ListVMs` does not return: it reads `info.NrVirtCpu` of
the missing info and panics. `GetVM` on the same domain returns the `get info` error. -/
theorem ListVMs_panics_on_a_domain_without_info :
    racyControlPlane.connects = true ∧
    racyControlPlane.allDomains = some [webDomain, goneDomain] ∧
    goneDomain.info = none ∧
    LibvirtManager.ListVMs sampleLibvirt racyControlPlane = none ∧
    LibvirtManager.GetVM sampleLibvirt
      { racyControlPlane with byUUID := fun _ => some goneDomain } "gone"
      = Except.error Error.getInfo := by
  decide

end Kvm

end Deusvm

/-! # The auth middleware -/

namespace Deusvm

namespace Api

theorem goBytes_ne_nil (s : String) (h : s ≠ "") : goBytes s ≠ [] := by
  intro hb
  apply h
  apply String.ext
  cases hs : s.data with
  | nil => rfl
  | cons c t =>
    simp only [goBytes, hs, List.flatMap_cons] at hb
    have := utf8Encode_ne_nil c
    simp at hb
    exact absurd hb.1 this

theorem bearer_check_iff (h token : String) (htoken : token ≠ "") :
    ((goBytes h).length > (goBytes bearer).length ∧
      (goBytes h).take (goBytes bearer).length = goBytes bearer ∧
      (goBytes h).drop (goBytes bearer).length = goBytes token) ↔ h = bearer ++ token := by
  constructor
  · rintro ⟨_, h2, h3⟩
    apply goBytes_injective
    rw [goBytes_append, ← h2, ← h3, List.take_append_drop]
  · intro he
    subst he
    have hne := goBytes_ne_nil token htoken
    rw [goBytes_append]
    refine ⟨?_, ?_, ?_⟩
    · have : 0 < (goBytes token).length := List.length_pos.2 hne
      simp only [List.length_append]; omega
    · simp
    · simp

/-- C26: a token that is not empty is configured. The router passes the requests
through `authMiddleware`, and the middleware hands a request to the handler behind it
when the value of its `Authorization` header is `Bearer ` followed by the token, and
for every other value (no header, another scheme, another, an empty, a shorter or a
longer token) answers 401 `unauthorized` and leaves the state behind the handler as it
was, whatever the handler is: the handler is not called. -/
theorem authMiddleware_passes_exactly_the_bearer_token {σ : Type} (token : String)
    (htoken : token ≠ "") (r : Request) (next : Handler σ) (st : σ) :
    Router token next = authMiddleware token next ∧
    (r.Header.Get "Authorization" = "Bearer " ++ token →
      authMiddleware token next r st = next r st) ∧
    (r.Header.Get "Authorization" ≠ "Bearer " ++ token →
      authMiddleware token next r st =
        (⟨401, Payload.error (Message.text "unauthorized")⟩, st)) := by
  have hiff := bearer_check_iff (r.Header.Get "Authorization") token htoken
  refine ⟨?_, ?_, ?_⟩
  · simp only [Router, if_pos htoken]
  · intro h
    have hb : r.Header.Get "Authorization" = bearer ++ token := h
    simp only [authMiddleware, if_neg htoken, if_pos (hiff.2 hb)]
  · intro h
    have hb : ¬ r.Header.Get "Authorization" = bearer ++ token := h
    simp only [authMiddleware, if_neg htoken, if_neg (fun hc => hb (hiff.1 hc))]
    rfl

theorem authMiddleware_passes_exactly_the_bearer_token_witness :
    "s3cret" ≠ "" ∧ bearerRequest.Header.Get "Authorization" = "Bearer " ++ "s3cret" ∧
    authMiddleware "s3cret" countingHandler bearerRequest 0
      = (⟨200, Payload.status "served"⟩, 1) ∧
    authMiddleware "s3cre" countingHandler bearerRequest 0
      = (⟨401, Payload.error (Message.text "unauthorized")⟩, 0) ∧
    authMiddleware "s3cret" countingHandler ⟨∅⟩ 0
      = (⟨401, Payload.error (Message.text "unauthorized")⟩, 0) :=
  ⟨by decide, by decide,
    (authMiddleware_passes_exactly_the_bearer_token "s3cret" (by decide) bearerRequest
      countingHandler 0).2.1 (by decide),
    (authMiddleware_passes_exactly_the_bearer_token "s3cre" (by decide) bearerRequest
      countingHandler 0).2.2 (by decide),
    (authMiddleware_passes_exactly_the_bearer_token "s3cret" (by decide) ⟨∅⟩
      countingHandler 0).2.2 (by decide)⟩

end Api

end Deusvm

/-! # The in-memory backend on every run, and on the runs with different draws -/

namespace Deusvm

namespace Kvm

/-! ## What holds on every run -/

theorem indexed_new : Indexed NewInMemoryManager := by
  intro id vm h; simp [NewInMemoryManager] at h

theorem indexed_create (m : InMemoryManager) (req : CreateVMRequest) (rnd : Nat → Nat)
    (now : Nat) (hm : Indexed m) : Indexed (CreateVM m req rnd now).2 := by
  by_cases hv : ValidRequest req
  · cases hidx : m.nameIdx.lookup req.Name with
    | some id => rw [CreateVM_conflict m req rnd now hv id hidx]; exact hm
    | none =>
      rw [CreateVM_ok m req rnd now hv hidx]
      intro id vm h
      simp only [lookup_insert_ite] at h ⊢
      by_cases hid : id = uuidNewString rnd
      · rw [if_pos hid] at h
        cases h
        simp [hid]
      · rw [if_neg hid] at h
        obtain ⟨h1, h2⟩ := hm id vm h
        have hne : vm.Name ≠ req.Name := by
          intro he; rw [he, hidx] at h2; cases h2
        exact ⟨h1, by rw [if_neg hne]; exact h2⟩
  · rw [CreateVM_invalid m req rnd now hv]; exact hm

theorem indexed_delete (m : InMemoryManager) (id : String) (hm : Indexed m) :
    Indexed (DeleteVM m id).2 := by
  unfold DeleteVM
  cases hl : m.vms.lookup id with
  | none => exact hm
  | some vm =>
    obtain ⟨_, hvidx⟩ := hm id vm hl
    intro id' vm' h
    simp only [lookup_erase_ite] at h ⊢
    by_cases hid : id' = id
    · rw [if_pos hid] at h; cases h
    · rw [if_neg hid] at h
      obtain ⟨h1, h2⟩ := hm id' vm' h
      have hne : vm'.Name ≠ vm.Name := by
        intro he; rw [he, hvidx] at h2; exact hid (Option.some.inj h2).symm
      exact ⟨h1, by rw [if_neg hne]; exact h2⟩

theorem indexed_setStatus (m : InMemoryManager) (id : String) (vm : VM) (st : VMStatus)
    (hm : Indexed m) (hl : m.vms.lookup id = some vm) :
    Indexed { m with vms := m.vms.insert id { vm with Status := st } } := by
  obtain ⟨hvid, hvidx⟩ := hm id vm hl
  intro id' vm' h
  simp only [lookup_insert_ite] at h
  by_cases hid : id' = id
  · rw [if_pos hid] at h
    cases h
    exact ⟨by rw [hid]; exact hvid, by rw [hid]; exact hvidx⟩
  · rw [if_neg hid] at h
    exact hm id' vm' h

theorem indexed_step (m : InMemoryManager) (c : Call) (hm : Indexed m) :
    Indexed (step m c) := by
  cases c with
  | create req rnd now => exact indexed_create m req rnd now hm
  | delete id => exact indexed_delete m id hm
  | start id =>
    simp only [step, StartVM]
    cases hl : m.vms.lookup id with
    | none => exact hm
    | some vm => exact indexed_setStatus m id vm VMStatusRunning hm hl
  | stop id =>
    simp only [step, StopVM]
    cases hl : m.vms.lookup id with
    | none => exact hm
    | some vm => exact indexed_setStatus m id vm VMStatusStopped hm hl
  | get id => exact hm
  | list => exact hm

theorem indexed_run (cs : List Call) (m : InMemoryManager) (hm : Indexed m) :
    Indexed (run m cs) := by
  induction cs generalizing m with
  | nil => exact hm
  | cons c cs ih => exact ih (step m c) (indexed_step m c hm)

theorem indexed_of_reachable (m : InMemoryManager) (h : Reachable m) : Indexed m := by
  obtain ⟨cs, rfl⟩ := h
  exact indexed_run cs _ indexed_new

/-- In a state where every record is indexed, no live record has a name that is not in
the index. -/
theorem nameUnused_of_not_indexed (m : InMemoryManager) (hm : Indexed m) (name : String)
    (h : m.nameIdx.lookup name = none) : NameUnused m name := by
  intro id vm hl he
  have := (hm id vm hl).2
  rw [he, h] at this; cases this

/-- A run on a new backend whose successful `CreateVM` calls read pairwise different
UUID bytes never returns the identifier of a live record. -/
theorem freshIDs_of_draws (cs : List Call)
    (h : ((drawn NewInMemoryManager cs).map uuidBytes).Nodup) :
    FreshIDs NewInMemoryManager cs := by
  have hnd : (returnedIDs NewInMemoryManager cs).Nodup := by
    rw [returnedIDs_eq_drawn]
    exact nodup_map_of_nodup_map uuidNewString uuidBytes uuidNewString_injective _ h
  exact freshIDs_of_nodup cs _ hnd (fun id _ => by simp [NewInMemoryManager])

theorem wellFormed_of_draws (cs : List Call)
    (h : ((drawn NewInMemoryManager cs).map uuidBytes).Nodup) :
    WellFormed (run NewInMemoryManager cs) :=
  wellFormed_run cs _ wellFormed_new (freshIDs_of_draws cs h)

theorem reachable_sampleState : Reachable sampleState := ⟨sampleCalls, rfl⟩

theorem reachable_collidedState : Reachable collidedState := ⟨collidedCalls, rfl⟩

/-- The only live record of `collidedState` is the record of `db`. -/
theorem nameUnused_collidedState_web : NameUnused collidedState "web" := by
  intro id vm hl he
  have hmem : vm ∈ ListVMs collidedState := (mem_values_iff _ vm).2 ⟨id, hl⟩
  have hall : ∀ v ∈ ListVMs collidedState, v.Name ≠ "web" := by decide
  exact hall vm hmem he

/-! ## CreateVM of a name no live VM has -/

/-- C1, as it fails: `web` and `db` were created with the same random bytes, so that
the record of `db` replaced the record of `web`. No live VM has the name `web` and the
request `web` is valid, and `CreateVM` fails with the name-already-exists error: the
name is still in the index. -/
theorem CreateVM_refuses_a_name_no_live_VM_has :
    run NewInMemoryManager collidedCalls = collidedState ∧
    ListVMs collidedState
      = [⟨uuidNewString (sampleRnd 1), "db", 4, 2147483648, 21474836480, "base.raw",
          VMStatusStopped, 200⟩] ∧
    NameUnused collidedState "web" ∧ ValidRequest webRequest ∧
    (CreateVM collidedState webRequest (sampleRnd 3) 300).1
      = Except.error (Error.nameAlreadyExists "web") :=
  ⟨rfl, by decide, nameUnused_collidedState_web, by decide, by decide⟩

/-- C1, as the code has it: in every state reached from a new backend by calls whose
successful `CreateVM` calls read pairwise different UUID bytes, a request with a
non-empty name that no live VM has, with cpu, memory and disk positive, is created: the
record returned is Stopped, has a non-empty identifier and the name, cpu, memory, disk
and image of the request, and `GetVM` on its identifier returns that same record. -/
theorem CreateVM_succeeds_and_is_stored (cs : List Call) (req : CreateVMRequest)
    (rnd : Nat → Nat) (now : Nat)
    (hdraws : ((drawn NewInMemoryManager cs).map uuidBytes).Nodup)
    (hname : req.Name ≠ "") (hunused : NameUnused (run NewInMemoryManager cs) req.Name)
    (hcpu : 0 < req.CPU) (hmem : 0 < req.MemoryBytes) (hdisk : 0 < req.DiskBytes) :
    ∃ vm : VM, (CreateVM (run NewInMemoryManager cs) req rnd now).1 = Except.ok vm ∧
      vm.Status = VMStatusStopped ∧ vm.ID ≠ "" ∧ vm.Name = req.Name ∧ vm.CPU = req.CPU ∧
      vm.MemoryBytes = req.MemoryBytes ∧ vm.DiskBytes = req.DiskBytes ∧
      vm.Image = req.Image ∧
      GetVM (CreateVM (run NewInMemoryManager cs) req rnd now).2 vm.ID = Except.ok vm := by
  have hidx : (run NewInMemoryManager cs).nameIdx.lookup req.Name = none :=
    (nameIdx_none_iff _ (wellFormed_of_draws cs hdraws) req.Name).2 hunused
  rw [CreateVM_ok _ req rnd now ⟨hname, hcpu, hmem, hdisk⟩ hidx]
  refine ⟨_, rfl, rfl, uuidNewString_ne_empty rnd, rfl, rfl, rfl, rfl, rfl, ?_⟩
  simp [GetVM]

theorem CreateVM_succeeds_and_is_stored_witness :
    ((drawn NewInMemoryManager sampleCalls).map uuidBytes).Nodup ∧
    NameUnused (run NewInMemoryManager sampleCalls) "cache" ∧
    ∃ vm : VM, (CreateVM (run NewInMemoryManager sampleCalls) ⟨"cache", 1, 512, 2048, "c.raw"⟩
        (sampleRnd 3) 300).1 = Except.ok vm ∧
      vm.Status = VMStatusStopped ∧ vm.ID ≠ "" ∧ vm.Name = "cache" ∧ vm.CPU = 1 ∧
      vm.MemoryBytes = 512 ∧ vm.DiskBytes = 2048 ∧ vm.Image = "c.raw" ∧
      GetVM (CreateVM (run NewInMemoryManager sampleCalls) ⟨"cache", 1, 512, 2048, "c.raw"⟩
        (sampleRnd 3) 300).2 vm.ID = Except.ok vm :=
  have hunused : NameUnused (run NewInMemoryManager sampleCalls) "cache" :=
    nameUnused_of_not_indexed _ (indexed_run sampleCalls _ indexed_new) "cache" (by decide)
  ⟨by decide, hunused,
    CreateVM_succeeds_and_is_stored sampleCalls ⟨"cache", 1, 512, 2048, "c.raw"⟩ (sampleRnd 3)
      300 (by decide) (by decide) hunused (by decide) (by decide) (by decide)⟩

/-! ## The same request twice -/

/-- A map in which the values with the property `p` all sit under one key lists at most
one such value. -/
theorem filter_values_length_le_one (t : AList (fun _ : String => VM)) (p : VM → Bool)
    (huniq : ∀ k₁ k₂ v₁ v₂, t.lookup k₁ = some v₁ → t.lookup k₂ = some v₂ → p v₁ = true →
      p v₂ = true → k₁ = k₂) :
    ((t.entries.map (fun e => e.2)).filter p).length ≤ 1 := by
  rw [List.filter_map, List.length_map]
  have hnd : (t.entries.filter (p ∘ fun e => e.2)).Nodup :=
    (List.NodupKeys.nodup t.nodupKeys).sublist (List.filter_sublist _)
  have hall : ∀ e₁ ∈ t.entries.filter (p ∘ fun e => e.2),
      ∀ e₂ ∈ t.entries.filter (p ∘ fun e => e.2), e₁ = e₂ := by
    intro e₁ h₁ e₂ h₂
    rw [List.mem_filter] at h₁ h₂
    obtain ⟨k₁, v₁⟩ := e₁
    obtain ⟨k₂, v₂⟩ := e₂
    have l₁ : t.lookup k₁ = some v₁ := Option.mem_def.1 (AList.mem_lookup_iff.2 h₁.1)
    have l₂ : t.lookup k₂ = some v₂ := Option.mem_def.1 (AList.mem_lookup_iff.2 h₂.1)
    have hk : k₁ = k₂ := huniq k₁ k₂ v₁ v₂ l₁ l₂ (by simpa using h₁.2) (by simpa using h₂.2)
    subst hk
    rw [l₁] at l₂
    cases l₂
    rfl
  generalize t.entries.filter (p ∘ fun e => e.2) = F at hnd hall
  match F, hnd, hall with
  | [], _, _ => simp
  | [_], _, _ => simp
  | a :: b :: r, hnd, hall =>
    have hab : a = b := hall a (List.mem_cons_self _ _) b
      (List.mem_cons_of_mem _ (List.mem_cons_self _ _))
    rw [hab] at hnd
    exact absurd (List.mem_cons_self _ _) (List.nodup_cons.1 hnd).1

/-- C2, as it fails: `web` and `db` were created with the same random bytes. No live VM
has the name `web` and the request `web` is valid; applied twice, the first `CreateVM`
fails with the name-already-exists error, and so does the second, and afterwards the
table holds no record with the name `web`. -/
theorem CreateVM_twice_leaves_no_record :
    run NewInMemoryManager collidedCalls = collidedState ∧
    NameUnused collidedState "web" ∧ ValidRequest webRequest ∧
    (CreateVM collidedState webRequest (sampleRnd 3) 300).1
      = Except.error (Error.nameAlreadyExists "web") ∧
    (CreateVM (CreateVM collidedState webRequest (sampleRnd 3) 300).2 webRequest
      (sampleRnd 4) 400).1 = Except.error (Error.nameAlreadyExists "web") ∧
    ((ListVMs (CreateVM (CreateVM collidedState webRequest (sampleRnd 3) 300).2 webRequest
      (sampleRnd 4) 400).2).filter (fun v => decide (v.Name = "web"))).length = 0 :=
  ⟨rfl, nameUnused_collidedState_web, by decide, by decide, by decide, by decide⟩

/-- C2, as the code has it: a valid request is applied twice to a backend that calls
have reached from a new one. The second `CreateVM` fails with the name-already-exists
(Conflict) error and leaves the table and the name index as the first call left them,
and afterwards the table holds at most one record with that name. When the successful
`CreateVM` calls before read pairwise different UUID bytes, the first `CreateVM` succeeds
if no live VM has the name, and afterwards the table holds exactly one record with that
name. -/
theorem CreateVM_twice_conflict (m : InMemoryManager) (cs : List Call)
    (req : CreateVMRequest) (rnd₁ rnd₂ : Nat → Nat) (now₁ now₂ : Nat)
    (hrun : run NewInMemoryManager cs = m) (hv : ValidRequest req) :
    (CreateVM (CreateVM m req rnd₁ now₁).2 req rnd₂ now₂).1
      = Except.error (Error.nameAlreadyExists req.Name) ∧
    (CreateVM (CreateVM m req rnd₁ now₁).2 req rnd₂ now₂).2 = (CreateVM m req rnd₁ now₁).2 ∧
    ((ListVMs (CreateVM (CreateVM m req rnd₁ now₁).2 req rnd₂ now₂).2).filter
      (fun v => decide (v.Name = req.Name))).length ≤ 1 ∧
    (((drawn NewInMemoryManager cs).map uuidBytes).Nodup →
      (NameUnused m req.Name → ∃ vm : VM, (CreateVM m req rnd₁ now₁).1 = Except.ok vm) ∧
      ((ListVMs (CreateVM (CreateVM m req rnd₁ now₁).2 req rnd₂ now₂).2).filter
        (fun v => decide (v.Name = req.Name))).length = 1) := by
  have hix : Indexed m := by rw [← hrun]; exact indexed_run cs _ indexed_new
  have hidx' : ∃ id, (CreateVM m req rnd₁ now₁).2.nameIdx.lookup req.Name = some id := by
    cases hidx : m.nameIdx.lookup req.Name with
    | some id => rw [CreateVM_conflict m req rnd₁ now₁ hv id hidx]; exact ⟨id, hidx⟩
    | none => rw [CreateVM_ok m req rnd₁ now₁ hv hidx]; exact ⟨uuidNewString rnd₁, by simp⟩
  obtain ⟨id', hid'⟩ := hidx'
  have h2 := CreateVM_conflict (CreateVM m req rnd₁ now₁).2 req rnd₂ now₂ hv id' hid'
  have hix₁ : Indexed (CreateVM m req rnd₁ now₁).2 := indexed_create m req rnd₁ now₁ hix
  refine ⟨by rw [h2], by rw [h2], ?_, ?_⟩
  · rw [h2]
    refine filter_values_length_le_one _ _ ?_
    intro k₁ k₂ v₁ v₂ l₁ l₂ p₁ p₂
    have e₁ := (hix₁ k₁ v₁ l₁).2
    have e₂ := (hix₁ k₂ v₂ l₂).2
    have n₁ : v₁.Name = req.Name := by simpa using p₁
    have n₂ : v₂.Name = req.Name := by simpa using p₂
    rw [n₁] at e₁
    rw [n₂, e₁] at e₂
    exact Option.some.inj e₂
  · intro hdraws
    have hwf : WellFormed m := by rw [← hrun]; exact wellFormed_of_draws cs hdraws
    rw [h2]
    cases hidx : m.nameIdx.lookup req.Name with
    | some id =>
      have h1 := CreateVM_conflict m req rnd₁ now₁ hv id hidx
      refine ⟨?_, ?_⟩
      · intro hun
        rw [(nameIdx_none_iff m hwf req.Name).2 hun] at hidx
        cases hidx
      · rw [h1]
        obtain ⟨vm, hvm, hvn⟩ := hwf.2 req.Name id hidx
        refine filter_values_length_one m.vms _ id vm hvm (by simpa using hvn) ?_
        intro k' v' hl hp
        have hp' : v'.Name = req.Name := by simpa using hp
        have := (hwf.1 k' v' hl).2
        rw [hp', hidx] at this
        exact (Option.some.inj this).symm
    | none =>
      have h1 := CreateVM_ok m req rnd₁ now₁ hv hidx
      refine ⟨fun _ => ⟨_, by rw [h1]⟩, ?_⟩
      rw [h1]
      refine filter_values_length_one _ _ (uuidNewString rnd₁) _ (AList.lookup_insert _)
        (by simp) ?_
      intro k' v' hl hp
      have hp' : v'.Name = req.Name := by simpa using hp
      by_contra hne
      rw [AList.lookup_insert_ne hne] at hl
      exact (nameIdx_none_iff m hwf req.Name).1 hidx k' v' hl hp'

theorem CreateVM_twice_conflict_witness :
    run NewInMemoryManager sampleCalls = sampleState ∧
    ValidRequest ⟨"cache", 1, 512, 2048, "c.raw"⟩ ∧
    ((drawn NewInMemoryManager sampleCalls).map uuidBytes).Nodup ∧
    NameUnused sampleState "cache" ∧
    (∃ vm : VM, (CreateVM sampleState ⟨"cache", 1, 512, 2048, "c.raw"⟩ (sampleRnd 3) 300).1
      = Except.ok vm) ∧
    (CreateVM (CreateVM sampleState ⟨"cache", 1, 512, 2048, "c.raw"⟩ (sampleRnd 3) 300).2
      ⟨"cache", 1, 512, 2048, "c.raw"⟩ (sampleRnd 4) 400).1
      = Except.error (Error.nameAlreadyExists "cache") ∧
    ((ListVMs (CreateVM (CreateVM sampleState ⟨"cache", 1, 512, 2048, "c.raw"⟩ (sampleRnd 3)
      300).2 ⟨"cache", 1, 512, 2048, "c.raw"⟩ (sampleRnd 4) 400).2).filter
      (fun v => decide (v.Name = "cache"))).length = 1 :=
  have hunused : NameUnused sampleState "cache" :=
    nameUnused_of_not_indexed _ (indexed_of_reachable _ reachable_sampleState) "cache"
      (by decide)
  have h := CreateVM_twice_conflict sampleState sampleCalls ⟨"cache", 1, 512, 2048, "c.raw"⟩
    (sampleRnd 3) (sampleRnd 4) 300 400 rfl (by decide)
  ⟨rfl, by decide, by decide, hunused, (h.2.2.2 (by decide)).1 hunused, h.1,
    (h.2.2.2 (by decide)).2⟩

/-! ## DeleteVM -/

/-- C7: in every state of the backend, whatever random bytes its calls have read, and
for every identifier of a live record, whatever its status, `DeleteVM` succeeds;
afterwards `GetVM` on the identifier fails with the not-found error, `ListVMs` holds
neither the record nor any record with that identifier, every other identifier holds
the record it held, and no live record has the name of the deleted one, so that a valid
`CreateVM` with that name succeeds. -/
theorem DeleteVM_removes_record (m : InMemoryManager) (id : String) (vm : VM)
    (req : CreateVMRequest) (rnd : Nat → Nat) (now : Nat) (hm : Reachable m)
    (h : m.vms.lookup id = some vm) (hv : ValidRequest req) (hname : req.Name = vm.Name) :
    (DeleteVM m id).1 = Except.ok () ∧
    GetVM (DeleteVM m id).2 id = Except.error (Error.vmNotFound id) ∧
    vm ∉ ListVMs (DeleteVM m id).2 ∧
    (∀ v ∈ ListVMs (DeleteVM m id).2, v.ID ≠ id) ∧
    (∀ id' : String, id' ≠ id → (DeleteVM m id).2.vms.lookup id' = m.vms.lookup id') ∧
    NameUnused (DeleteVM m id).2 vm.Name ∧
    ∃ vm' : VM, (CreateVM (DeleteVM m id).2 req rnd now).1 = Except.ok vm' ∧
      vm'.Name = vm.Name := by
  have hix := indexed_of_reachable m hm
  have hix' := indexed_delete m id hix
  have hidx : (DeleteVM m id).2.nameIdx.lookup vm.Name = none := by
    simp [DeleteVM, h]
  have hids : ∀ v ∈ ListVMs (DeleteVM m id).2, v.ID ≠ id := by
    intro v hvmem hid
    obtain ⟨k, hk⟩ := (mem_values_iff _ v).1 hvmem
    have hkid : k = id := by rw [← (hix' k v hk).1, hid]
    rw [hkid] at hk
    simp [DeleteVM, h] at hk
  refine ⟨by simp [DeleteVM, h], by simp [DeleteVM, GetVM, h, notFound], ?_, hids, ?_,
    nameUnused_of_not_indexed _ hix' vm.Name hidx, ?_⟩
  · intro hmem
    exact hids vm hmem (hix id vm h).1
  · intro id' hne
    simp [DeleteVM, h, hne]
  · rw [CreateVM_ok _ req rnd now hv (by rw [hname]; exact hidx)]
    exact ⟨_, rfl, hname⟩

theorem DeleteVM_removes_record_witness :
    Reachable collidedState ∧
    collidedState.vms.lookup (uuidNewString (sampleRnd 1))
      = some ⟨uuidNewString (sampleRnd 1), "db", 4, 2147483648, 21474836480, "base.raw",
          VMStatusStopped, 200⟩ ∧
    (DeleteVM collidedState (uuidNewString (sampleRnd 1))).1 = Except.ok () ∧
    GetVM (DeleteVM collidedState (uuidNewString (sampleRnd 1))).2
        (uuidNewString (sampleRnd 1))
      = Except.error (Error.vmNotFound (uuidNewString (sampleRnd 1))) ∧
    ∃ vm' : VM, (CreateVM (DeleteVM collidedState (uuidNewString (sampleRnd 1))).2 dbRequest
      (sampleRnd 5) 500).1 = Except.ok vm' ∧ vm'.Name = "db" :=
  have h := DeleteVM_removes_record collidedState (uuidNewString (sampleRnd 1))
    ⟨uuidNewString (sampleRnd 1), "db", 4, 2147483648, 21474836480, "base.raw",
      VMStatusStopped, 200⟩ dbRequest (sampleRnd 5) 500 reachable_collidedState (by decide)
    (by decide) rfl
  ⟨reachable_collidedState, by decide, h.1, h.2.1, h.2.2.2.2.2.2⟩

/-! ## The table and the name index -/

/-- C8, as it fails: `web` and `db` were created with the same random bytes. The name
index maps `web` to the identifier, and the table holds under that identifier the
record of `db`: no record with that identifier has the name `web`. -/
theorem index_keeps_a_replaced_name :
    run NewInMemoryManager collidedCalls = collidedState ∧
    collidedState.nameIdx.lookup "web" = some (uuidNewString (sampleRnd 1)) ∧
    collidedState.vms.lookup (uuidNewString (sampleRnd 1))
      = some ⟨uuidNewString (sampleRnd 1), "db", 4, 2147483648, 21474836480, "base.raw",
          VMStatusStopped, 200⟩ ∧
    ¬ ∃ vm : VM, collidedState.vms.lookup (uuidNewString (sampleRnd 1)) = some vm ∧
      vm.ID = uuidNewString (sampleRnd 1) ∧ vm.Name = "web" := by
  have hl : collidedState.vms.lookup (uuidNewString (sampleRnd 1))
      = some ⟨uuidNewString (sampleRnd 1), "db", 4, 2147483648, 21474836480, "base.raw",
          VMStatusStopped, 200⟩ := by decide
  refine ⟨rfl, by decide, hl, ?_⟩
  rintro ⟨vm, h, _, hn⟩
  rw [hl] at h
  cases h
  exact absurd hn (by decide)

/-- C8, as the code has it: in every state that calls of `CreateVM`, `DeleteVM`,
`StartVM`, `StopVM`, `GetVM` and `ListVMs` reach from `NewInMemoryManager()`, no two
live records share a name and every live record is stored under its identifier and
indexed under its name. When the successful `CreateVM` calls read pairwise different
UUID bytes, the name index maps a name to an identifier exactly when the table holds
under that identifier a record with that identifier and that name. -/
theorem names_unique_and_index_agrees (m : InMemoryManager) (hm : Reachable m) :
    (∀ (id₁ id₂ : String) (v₁ v₂ : VM), m.vms.lookup id₁ = some v₁ →
      m.vms.lookup id₂ = some v₂ → v₁.Name = v₂.Name → id₁ = id₂) ∧
    (∀ (id : String) (vm : VM), m.vms.lookup id = some vm →
      vm.ID = id ∧ m.nameIdx.lookup vm.Name = some id) ∧
    (∀ cs : List Call, run NewInMemoryManager cs = m →
      ((drawn NewInMemoryManager cs).map uuidBytes).Nodup →
      ∀ name id : String, m.nameIdx.lookup name = some id ↔
        ∃ vm : VM, m.vms.lookup id = some vm ∧ vm.ID = id ∧ vm.Name = name) := by
  have hix := indexed_of_reachable m hm
  refine ⟨?_, hix, ?_⟩
  · intro id₁ id₂ v₁ v₂ h₁ h₂ hn
    have e₁ := (hix id₁ v₁ h₁).2
    have e₂ := (hix id₂ v₂ h₂).2
    rw [hn, e₂] at e₁
    exact (Option.some.inj e₁).symm
  · intro cs hrun hdraws name id
    have hwf : WellFormed m := by rw [← hrun]; exact wellFormed_of_draws cs hdraws
    constructor
    · intro h
      obtain ⟨vm, h1, h2⟩ := hwf.2 name id h
      exact ⟨vm, h1, (hwf.1 id vm h1).1, h2⟩
    · rintro ⟨vm, h1, _, h3⟩
      rw [← h3]
      exact (hwf.1 id vm h1).2

theorem names_unique_and_index_agrees_witness :
    Reachable sampleState ∧
    ((drawn NewInMemoryManager sampleCalls).map uuidBytes).Nodup ∧
    (∀ (id₁ id₂ : String) (v₁ v₂ : VM), sampleState.vms.lookup id₁ = some v₁ →
      sampleState.vms.lookup id₂ = some v₂ → v₁.Name = v₂.Name → id₁ = id₂) ∧
    (∀ name id : String, sampleState.nameIdx.lookup name = some id ↔
      ∃ vm : VM, sampleState.vms.lookup id = some vm ∧ vm.ID = id ∧ vm.Name = name) :=
  have h := names_unique_and_index_agrees sampleState reachable_sampleState
  ⟨reachable_sampleState, by decide, h.1, h.2.2 sampleCalls rfl (by decide)⟩

end Kvm

end Deusvm
